import Mathlib

/-!
Verovio document orchestration: a shallow embedding of doc.cpp.

The definitions below follow `src/src/doc.cpp` (class `Doc`).  Strings are Lean
strings, C++ `int` values are `Int` (no arithmetic on them can overflow in the
functions embedded here), `std::map<int, V>` is a list of entries in strictly
ascending key order, and `std::vector<T>` is a list.
-/

namespace Verovio

/-! ## std::map with integer keys -/

/-- An ordered map with integer keys, standing for `std::map<int, V>`: iteration
visits `entries` from first to last, and the keys are strictly ascending, so a key
occurs at most once. -/
structure IntMap (V : Type) where
  entries : List (Int × V)
  ordered : List.Pairwise (fun a b => a < b) (entries.map Prod.fst)

/-- Number of entries, `std::map::size`. -/
def IntMap.size {V : Type} (m : IntMap V) : Nat := m.entries.length

/-- Lookup by key, `std::map::find`: `none` stands for the `end()` iterator. -/
def IntMap.find {V : Type} (m : IntMap V) (k : Int) : Option V :=
  (m.entries.find? (fun e => e.1 == k)).map Prod.snd

/-- The empty map. -/
def IntMap.empty {V : Type} : IntMap V := ⟨[], List.Pairwise.nil⟩

/-- Decimal rendering of an `int`, `std::to_string(int)`. -/
def to_string (n : Int) : String := toString n

/-! ## Doc::PrepareJsonTimemap -/

/-- The inner loop of `PrepareJsonTimemap` over one `vector<string>` (the same loop is
written twice in the source, for the on and for the off elements): every identifier
is written between double quotes, followed by `", "` when its index is smaller than
`size - 1`. -/
def appendIdArray (ids : List String) (output : String) : String :=
  (List.range ids.length).foldl
    (fun out ion =>
      let out := out ++ "\"" ++ ids.getD ion "" ++ "\""
      if (ion : Int) < (ids.length : Int) - 1 then out ++ ", " else out)
    output

/-- The variables that the main loop of `PrepareJsonTimemap` updates. -/
structure JsonLoop where
  currentTempo : Int
  output : String

/-- One iteration of the main loop of `PrepareJsonTimemap`, at position `pos` of the
iteration over `realTimeToScoreTime`; `lastit` is the position of the iterator
obtained by decrementing `end()`. -/
def timemapLoopBody {D : Type} (toStringD : D → String)
    (realTimeToOnElements realTimeToOffElements : IntMap (List String))
    (realTimeToTempo : IntMap Int) (lastit : Int) (st : JsonLoop) (pos : Nat)
    (it : Int × D) : JsonLoop :=
  let output := st.output ++ "\t\x7b\n"
  let output := output ++ "\t\t\"tstamp\":\t"
  let output := output ++ to_string it.1
  let output := output ++ ",\n"
  let output := output ++ "\t\t\"qstamp\":\t"
  let output := output ++ toStringD it.2
  let tempoStep : Int × String :=
    match realTimeToTempo.find it.1 with
    | some newTempo =>
      if newTempo ≠ st.currentTempo then
        (newTempo, output ++ ",\n\t\t\"tempo\":\t" ++ to_string newTempo)
      else (st.currentTempo, output)
    | none => (st.currentTempo, output)
  let currentTempo := tempoStep.1
  let output := tempoStep.2
  let output :=
    match realTimeToOnElements.find it.1 with
    | some ids => appendIdArray ids (output ++ ",\n\t\t\"on\":\t[") ++ "]"
    | none => output
  let output :=
    match realTimeToOffElements.find it.1 with
    | some ids => appendIdArray ids (output ++ ",\n\t\t\"off\":\t[") ++ "]"
    | none => output
  let output := output ++ "\n\t\x7d"
  let output := if (pos : Int) = lastit then output ++ "\n" else output ++ ",\n"
  ⟨currentTempo, output⟩

/-- The statement `lastit--` applied to the iterator `end()` of a map: the iterator to
the last entry, given by its position, `size - 1`.  Decrementing `end()` is defined only
for a map that has an entry before it; `none` stands for the undefined behaviour on an
empty map. -/
def IntMap.prevEnd {V : Type} (m : IntMap V) : Option Int :=
  if m.entries.isEmpty then none else some ((m.size : Int) - 1)

/-- What stands for the undefined behaviour of decrementing `end()` on an empty map. -/
def prevEndUndefined : String := "lastit-- on end() of an empty map"

/-- The function `Doc::PrepareJsonTimemap`: the value of `output` on return.  The type
`D` stands for `double` and `toStringD` for `std::to_string(double)`.  The iterator
`lastit` is obtained by decrementing `end()` before the loop, whether or not the loop
will run. -/
def PrepareJsonTimemap {D : Type} (toStringD : D → String)
    (realTimeToScoreTime : IntMap D)
    (realTimeToOnElements realTimeToOffElements : IntMap (List String))
    (realTimeToTempo : IntMap Int) : Except String String := do
  let st : JsonLoop := ⟨-1000, "" ++ "[\n"⟩
  let lastit ← match realTimeToScoreTime.prevEnd with
    | some lastit => pure lastit
    | none => throw prevEndUndefined
  let st := realTimeToScoreTime.entries.enum.foldl
    (fun st p => timemapLoopBody toStringD realTimeToOnElements realTimeToOffElements
      realTimeToTempo lastit st p.1 p.2) st
  pure (st.output ++ "]\n")

/-! ## The exported time map read as an array of objects -/

/-- Strings joined by a separator: the separator stands between successive elements
and nowhere else. -/
def joinWith (sep : String) : List String → String
  | [] => ""
  | [s] => s
  | s :: t :: rest => s ++ sep ++ joinWith sep (t :: rest)

/-- Every string followed by the separator. -/
def eachFollowedBy (sep : String) : List String → String
  | [] => ""
  | s :: rest => s ++ sep ++ eachFollowedBy sep rest

/-- An identifier between double quotes. -/
def quoteId (id : String) : String := "\"" ++ id ++ "\""

/-- A JSON array of quoted identifiers joined by a comma and a blank. -/
def renderIdArray (ids : List String) : String :=
  "[" ++ joinWith ", " (ids.map quoteId) ++ "]"

/-- One object of the exported time map: the two mandatory values and the three
optional ones. -/
structure TimemapEntry (D : Type) where
  tstamp : Int
  qstamp : D
  tempo : Option Int
  onIds : Option (List String)
  offIds : Option (List String)

/-- The text of an optional field. -/
def optField (key : String) : Option String → List String
  | some v => [key ++ v]
  | none => []

/-- The fields of an object, each as key, colon, tab, value. -/
def TimemapEntry.fields {D : Type} (toStringD : D → String) (e : TimemapEntry D) :
    List String :=
  ["\"tstamp\":\t" ++ to_string e.tstamp, "\"qstamp\":\t" ++ toStringD e.qstamp]
    ++ optField "\"tempo\":\t" (e.tempo.map to_string)
    ++ optField "\"on\":\t" (e.onIds.map renderIdArray)
    ++ optField "\"off\":\t" (e.offIds.map renderIdArray)

/-- An object as text: braces indented by one tab, one field per line indented by two
tabs, the fields separated by a comma at the end of the line. -/
def renderEntry {D : Type} (toStringD : D → String) (e : TimemapEntry D) : String :=
  "\t\x7b\n" ++ joinWith ",\n" ((e.fields toStringD).map (fun f => "\t\t" ++ f)) ++ "\n\t\x7d"

/-- The array as text: the objects separated by a comma at the end of the line, the
last one followed by a newline only. -/
def renderTimemap {D : Type} (toStringD : D → String) (es : List (TimemapEntry D)) :
    String :=
  "[\n" ++ joinWith ",\n" (es.map (renderEntry toStringD))
    ++ (if es.isEmpty then "" else "\n") ++ "]\n"

/-- The tempo value an entry carries: the recorded tempo when there is one and it is
not the current tempo. -/
def emittedTempo (current : Int) : Option Int → Option Int
  | some v => if v ≠ current then some v else none
  | none => none

/-- The objects of the time map for the entries of the real-time map from some
position on, `current` being the current tempo there. -/
def timemapEntriesFrom {D : Type} (onMap offMap : IntMap (List String))
    (tempo : IntMap Int)
    (current : Int) : List (Int × D) → List (TimemapEntry D)
  | [] => []
  | it :: rest =>
    let t := emittedTempo current (tempo.find it.1)
    ⟨it.1, it.2, t, onMap.find it.1, offMap.find it.1⟩
      :: timemapEntriesFrom onMap offMap tempo (t.getD current) rest

/-- The objects of the time map of `PrepareJsonTimemap`, one for every entry of the
real-time map. -/
def timemapEntries {D : Type} (realTimeToScoreTime : IntMap D)
    (realTimeToOnElements realTimeToOffElements : IntMap (List String))
    (realTimeToTempo : IntMap Int) : List (TimemapEntry D) :=
  timemapEntriesFrom realTimeToOnElements realTimeToOffElements realTimeToTempo (-1000)
    realTimeToScoreTime.entries

/-- The tempo last emitted in a list of objects, and the sentinel -1000 when none of
them carries a tempo. -/
def lastEmittedTempo {D : Type} (es : List (TimemapEntry D)) : Int :=
  ((es.filterMap (fun e => e.tempo)).getLast?).getD (-1000)

/-- Lines of a comma-separated sequence: every line but the last ends with a comma. -/
def commaSeparated : List String → List String
  | [] => []
  | [s] => [s]
  | s :: t :: rest => (s ++ ",") :: commaSeparated (t :: rest)

/-- The lines of one object: the opening brace after one tab, every field after two
tabs, and the closing line. -/
def entryLines {D : Type} (toStringD : D → String) (e : TimemapEntry D)
    (closing : String) : List String :=
  ["\t\x7b"] ++ commaSeparated ((e.fields toStringD).map (fun f => "\t\t" ++ f)) ++ [closing]

/-- The lines of the objects of the array: the closing brace of every object but the
last is followed by a comma. -/
def timemapObjectLines {D : Type} (toStringD : D → String) :
    List (TimemapEntry D) → List String
  | [] => []
  | [e] => entryLines toStringD e "\t\x7d"
  | e :: f :: rest =>
    entryLines toStringD e "\t\x7d," ++ timemapObjectLines toStringD (f :: rest)

/-- The lines of the time map. -/
def timemapLines {D : Type} (toStringD : D → String) (es : List (TimemapEntry D)) :
    List String :=
  ["["] ++ timemapObjectLines toStringD es ++ ["]"]

/-- A line that starts with tab characters only, followed by a bracket, a brace or a
double quote. -/
def TabIndented (line : String) : Prop :=
  ∃ (n : Nat) (c : Char) (rest : List Char),
    line.data = List.replicate n '\t' ++ c :: rest
      ∧ c ∈ ['[', ']', '\x7b', '\x7d', '"']

/-! ## A small time map used as a concrete input -/

/-- A rendering of score times given as thousandths, standing for `to_string(double)`. -/
def sampleToStringD (q : Nat) : String :=
  toString (q / 1000) ++ "." ++ toString (q % 1000) ++ "000"

/-- Three real times with their score times. -/
def sampleScoreTime : IntMap Nat := ⟨[(0, 0), (500, 1000), (1000, 2000)], by decide⟩

/-- The identifiers turning on. -/
def sampleOn : IntMap (List String) := ⟨[(0, ["n1", "n2"]), (500, ["n3"])], by decide⟩

/-- The identifiers turning off. -/
def sampleOff : IntMap (List String) := ⟨[(500, ["n1", "n2"]), (1000, ["n3"])], by decide⟩

/-- The tempo at each real time: the same tempo twice, then another one. -/
def sampleTempo : IntMap Int := ⟨[(0, 120), (500, 120), (1000, 60)], by decide⟩

/-! ## The object tree below the Pages container -/

/-- A break declared in the encoding in front of a measure: a system break or a page
break. -/
inductive EncodedBreak
  | systemBreak
  | pageBreak
deriving DecidableEq, Repr

/-- A layer element (a note, chord or rest): its identifier and its tie attribute, if
any. -/
structure LayerElement where
  uuid : String
  tie : Option String := none
deriving DecidableEq, Repr

/-- A Staff of a measure: its number and the layer elements of its layers in document
order. -/
structure Staff where
  n : Int
  elements : List LayerElement := []
deriving DecidableEq, Repr

/-- What a time-spanning element is anchored to once resolved: a layer element, or a
time position given by a timestamp. -/
inductive Anchor
  | element (uuid : String)
  | timestamp (beat : Int)
deriving DecidableEq, Repr

/-- A time-spanning element (a slur, a tie, ...): its identifier, the identifiers its
start and end refer to, its timestamps, and the start and end anchors once they are
resolved. -/
structure TimeSpanning where
  uuid : String
  startid : Option String := none
  endid : Option String := none
  tstamp : Option Int := none
  tstamp2 : Option Int := none
  m_start : Option Anchor := none
  m_end : Option Anchor := none
deriving DecidableEq, Repr

/-- A child of a measure: a staff or a time-spanning control element. -/
inductive MeasureChild
  | staff (s : Staff)
  | controlEvent (c : TimeSpanning)
deriving DecidableEq, Repr

/-- A Measure: its identifier, its drawing width once laid out horizontally, the break
the encoding declares in front of it, if any, whether it is a measure of measured music
(`IsMeasuredMusic`), and its children in document order.  Among the children of a
System only the measures are kept. -/
structure Measure where
  uuid : String
  width : Int := 0
  encodedBreak : Option EncodedBreak := none
  measuredMusic : Bool := true
  children : List MeasureChild := []
deriving DecidableEq, Repr

/-- A System: its margins, the widths of the labels and of the abbreviated labels of
its staves (`GetDrawingLabelsWidth`, `GetDrawingAbbrLabelsWidth`), and its measures
in document order.  The default value is the System made by `new System()`. -/
structure System where
  m_systemLeftMar : Int := 0
  m_systemRightMar : Int := 0
  drawingLabelsWidth : Int := 0
  drawingAbbrLabelsWidth : Int := 0
  children : List Measure := []
deriving DecidableEq, Repr

/-- A Page: its own size and margins (-1 for a size that is not set), the width of its
drawing score definition, the size of its content, and its systems.  The default
value is the Page made by `new Page()`. -/
structure Page where
  m_pageHeight : Int := -1
  m_pageWidth : Int := -1
  m_pageMarginBottom : Int := 0
  m_pageMarginLeft : Int := 0
  m_pageMarginRight : Int := 0
  m_pageMarginTop : Int := 0
  drawingScoreDefWidth : Int := 0
  contentHeight : Int := 0
  contentWidth : Int := 0
  children : List System := []
deriving DecidableEq, Repr

/-- Adds a system at the end of a page, `Page::AddChild`. -/
def Page.AddChild (page : Page) (system : System) : Page :=
  { page with children := page.children ++ [system] }

/-! ## The score definition -/

/-- A notation type of a staff definition. -/
inductive Notationtype
  | cmn
  | mensural
deriving DecidableEq, Repr

/-- A staff definition: its number, its transposition in semitones when declared, the
text of its own label when it has one, the enclosing staff group when there is
one, given by the text of the label of that group, if any, and its number of lines and
its notation type when set. -/
structure StaffDef where
  n : Int
  transSemi : Option Int := none
  label : Option String := none
  staffGrp : Option (Option String) := some none
  lines : Option Int := none
  notationtype : Option Notationtype := none
deriving DecidableEq, Repr

/-- The document score definition: the MIDI tempo when declared and the staff
definitions in document order. -/
structure ScoreDef where
  midiBpm : Option Int := none
  staffDefs : List StaffDef := []
deriving DecidableEq, Repr

/-- Modelled from the spec: `ScoreDef::GetStaffDef` is not part of the sources at hand;
the configuration is keyed by staff number, so the lookup returns the staff definition
with the given number, the first one in document order. -/
def ScoreDef.GetStaffDef (scoreDef : ScoreDef) (n : Int) : Option StaffDef :=
  scoreDef.staffDefs.find? (fun s => s.n == n)

/-! ## Traversals and log messages -/

/-- The functors that `Doc` runs over the tree, with the values it stores in their
parameter records. -/
inductive FunctorName
  | UnsetCurrentScoreDef
  | SetCurrentScoreDef
  | CalcMaxMeasureDuration (m_currentTempo : Int)
  | CalcOnsetOffset
  | ResolveMIDITies
  | PrepareProcessingLists
  | GenerateMIDI (m_midiTrack m_transSemi m_currentTempo : Int)
  | GenerateTimemap
  | CastOffSystems
  | CastOffPages
  | UnCastOff
  | CastOffEncoding
  | ResetDrawing
  | PrepareTimeSpanning (m_fillList : Bool)
  | PrepareTimePointing
  | PrepareTimestamps
  | PreparePlist (m_fillList : Bool)
  | PrepareCrossStaff
  | PreparePointersByLayer
  | PrepareLyrics
  | FillStaffCurrentTimeSpanning
  | PrepareRpt
  | PrepareBoundaries
  | PrepareFloatingGrps
  | PrepareDrawingCueSize
  | PrepareLayerElementParts
  | ConvertAnalyticalMarkup (m_permanent : Bool)
deriving DecidableEq, Repr

/-- The object on which `Process` is called. -/
inductive ProcessRoot
  | doc
  | upcomingScoreDef
  | contentSystem
  | contentPage
deriving DecidableEq, Repr

/-- A class of objects that a filter compares. -/
inductive ClassId
  | STAFF
  | LAYER
  | VERSE
deriving DecidableEq, Repr

/-- What a call of `Doc` leaves behind besides the new state: the traversals run, the
layout calls on a page and the warnings and other messages logged. -/
inductive Event
  | process (functor : FunctorName) (root : ProcessRoot) (backward : Bool)
      (filters : List (ClassId × Int))
  | layOutHorizontally
  | layOutVertically
  | logWarning (message : String)
  | logError (message : String)
  | logMessage (message : String)
  | logDebug (message : String)
deriving DecidableEq, Repr

/-! ## The document -/

/-- The type of a document. -/
inductive DocType
  | Raw
  | Rendering
  | Transcription
deriving DecidableEq, Repr

/-- The options read by the functions below. -/
structure Options where
  m_pageHeight : Int := 2970
  m_pageWidth : Int := 2100
  m_pageMarginBottom : Int := 50
  m_pageMarginLeft : Int := 50
  m_pageMarginRight : Int := 50
  m_pageMarginTop : Int := 50
  m_landscape : Bool := false
  m_unit : Int := 9
deriving DecidableEq, Repr

/-- The state of a `Doc`.  `pages` is the Pages container that `GetPages` finds, when
there is one, given by its pages; `m_drawingPage` is the drawing page, given by its
index; the header and footer fields give the total height of the running element of
the first page and of the following pages when the score definition has one; `log`
records the traversals, layout calls and warnings in the order they happen.  The
effect of a traversal on the nodes it visits is not part of the state, except for the
traversals that move measures and systems. -/
structure Doc where
  pages : Option (List Page) := some []
  m_type : DocType := DocType.Raw
  m_pageWidth : Int := -1
  m_pageHeight : Int := -1
  m_pageMarginBottom : Int := 0
  m_pageMarginRight : Int := 0
  m_pageMarginLeft : Int := 0
  m_pageMarginTop : Int := 0
  m_options : Options := {}
  m_drawingPage : Option Nat := none
  m_drawingPageHeight : Int := 0
  m_drawingPageWidth : Int := 0
  m_drawingPageMarginBot : Int := 0
  m_drawingPageMarginLeft : Int := 0
  m_drawingPageMarginRight : Int := 0
  m_drawingPageMarginTop : Int := 0
  m_drawingBeamWidth : Int := 0
  m_drawingBeamWhiteWidth : Int := 0
  m_drawingSmuflFontSize : Int := 0
  m_currentScoreDefDone : Bool := false
  m_drawingPreparationDone : Bool := false
  m_hasMidiTimemap : Bool := false
  m_hasAnalyticalMarkup : Bool := false
  m_scoreDef : ScoreDef := {}
  pgHead : Option Int := none
  pgFoot : Option Int := none
  pgHead2 : Option Int := none
  pgFoot2 : Option Int := none
  log : List Event := []
deriving DecidableEq, Repr

deriving instance DecidableEq for Except

/-- Appends an event to the log. -/
def Doc.record (doc : Doc) (e : Event) : Doc :=
  { doc with log := doc.log ++ [e] }

/-- A call `root->Process(functor, ...)` whose effect on the nodes is not modelled. -/
def Doc.Process (doc : Doc) (functor : FunctorName) (root : ProcessRoot)
    (backward : Bool) (filters : List (ClassId × Int)) : Doc :=
  doc.record (Event.process functor root backward filters)

/-- The function `Doc::GetPages`. -/
def Doc.GetPages (doc : Doc) : Option (List Page) := doc.pages

/-- The function `Doc::HasMidiTimemap`. -/
def Doc.HasMidiTimemap (doc : Doc) : Bool := doc.m_hasMidiTimemap

/-- The function `Doc::GetPageCount`; the assertion on the Pages container fails when
there is none. -/
def Doc.GetPageCount (doc : Doc) : Except String Int :=
  match doc.GetPages with
  | none => .error "assert(pages)"
  | some pages => .ok pages.length

/-- The function `Doc::HasPage`. -/
def Doc.HasPage (doc : Doc) (pageIdx : Int) : Except String Bool :=
  match doc.GetPages with
  | none => .error "assert(pages)"
  | some pages => .ok (decide (pageIdx ≥ 0) && decide (pageIdx < pages.length))

/-- Modelled from the spec: `Doc::ResetDrawingPage` is declared outside the sources at
hand; it resets the drawing page reference to none (the comments at its calls say
"reset the drawing page to NULL"). -/
def Doc.ResetDrawingPage (doc : Doc) : Doc :=
  { doc with m_drawingPage := none }

/-- The function `Doc::CalcMusicFontSize`. -/
def Doc.CalcMusicFontSize (doc : Doc) : Int := doc.m_options.m_unit * 8

/-- The page geometry that `SetDrawingPage` caches for a page: the values of the page
when the page has a height, else those of the document when it has one, else the
options; width and height and the left and right margins are swapped in landscape
orientation.  The values for beams and for the music font follow the unit.  (The
beam slopes, the lyric font size and the two values measured on glyphs are floating
point or come from the font resources and are left out.) -/
def Doc.cacheDrawingPage (doc : Doc) (pageIdx : Nat) (page : Page) : Doc :=
  let doc := { doc with m_drawingPage := some pageIdx }
  let doc :=
    if page.m_pageHeight ≠ -1 then
      { doc with
        m_drawingPageHeight := page.m_pageHeight
        m_drawingPageWidth := page.m_pageWidth
        m_drawingPageMarginBot := page.m_pageMarginBottom
        m_drawingPageMarginLeft := page.m_pageMarginLeft
        m_drawingPageMarginRight := page.m_pageMarginRight
        m_drawingPageMarginTop := page.m_pageMarginTop }
    else if doc.m_pageHeight ≠ -1 then
      { doc with
        m_drawingPageHeight := doc.m_pageHeight
        m_drawingPageWidth := doc.m_pageWidth
        m_drawingPageMarginBot := doc.m_pageMarginBottom
        m_drawingPageMarginLeft := doc.m_pageMarginLeft
        m_drawingPageMarginRight := doc.m_pageMarginRight
        m_drawingPageMarginTop := doc.m_pageMarginTop }
    else
      { doc with
        m_drawingPageHeight := doc.m_options.m_pageHeight
        m_drawingPageWidth := doc.m_options.m_pageWidth
        m_drawingPageMarginBot := doc.m_options.m_pageMarginBottom
        m_drawingPageMarginLeft := doc.m_options.m_pageMarginLeft
        m_drawingPageMarginRight := doc.m_options.m_pageMarginRight
        m_drawingPageMarginTop := doc.m_options.m_pageMarginTop }
  let doc :=
    if doc.m_options.m_landscape then
      let pageHeight := doc.m_drawingPageWidth
      let pageMarginRight := doc.m_drawingPageMarginLeft
      { doc with
        m_drawingPageWidth := doc.m_drawingPageHeight
        m_drawingPageHeight := pageHeight
        m_drawingPageMarginLeft := doc.m_drawingPageMarginRight
        m_drawingPageMarginRight := pageMarginRight }
    else doc
  { doc with
    m_drawingBeamWidth := doc.m_options.m_unit
    m_drawingBeamWhiteWidth := Int.tdiv doc.m_options.m_unit 2
    m_drawingSmuflFontSize := doc.CalcMusicFontSize }

/-- The function `Doc::SetDrawingPage`: the new state and the page returned, `none`
for NULL. -/
def Doc.SetDrawingPage (doc : Doc) (pageIdx : Int) : Except String (Doc × Option Page) := do
  let hasPage ← doc.HasPage pageIdx
  if !hasPage then
    pure (doc, none)
  else
    match doc.GetPages with
    | none => throw "assert(pages)"
    | some pages =>
      if doc.m_drawingPage.isSome && (doc.m_drawingPage.map Int.ofNat) == some pageIdx then
        pure (doc, pages.get? pageIdx.toNat)
      else
        match pages.get? pageIdx.toNat with
        | none => throw "assert(m_drawingPage)"
        | some page => pure (doc.cacheDrawingPage pageIdx.toNat page, some page)

/-- The function `Doc::CollectScoreDefs`. -/
def Doc.CollectScoreDefs (doc : Doc) (force : Bool) : Doc :=
  if doc.m_currentScoreDefDone && !force then
    doc
  else
    let doc :=
      if doc.m_currentScoreDefDone then
        doc.Process FunctorName.UnsetCurrentScoreDef ProcessRoot.doc false []
      else doc
    let doc := doc.Process FunctorName.SetCurrentScoreDef ProcessRoot.upcomingScoreDef false []
    let doc := doc.Process FunctorName.SetCurrentScoreDef ProcessRoot.doc false []
    { doc with m_currentScoreDefDone := true }

/-! ## The time map and the MIDI export -/

/-- The three traversals of `CalculateMidiTimemap` that follow the implicit layout, and
the flag set at its end. -/
def Doc.calculateTimemapPasses (doc : Doc) : Doc :=
  let tempo : Int := 120
  let tempo := match doc.m_scoreDef.midiBpm with
    | some bpm => bpm
    | none => tempo
  let doc := doc.Process (FunctorName.CalcMaxMeasureDuration tempo) ProcessRoot.doc false []
  let doc := doc.Process FunctorName.CalcOnsetOffset ProcessRoot.doc false []
  let doc := doc.Process FunctorName.ResolveMIDITies ProcessRoot.doc true []
  { doc with m_hasMidiTimemap := true }

/-- The function `Doc::CalculateMidiTimemap`.  When the document has no drawing page and
one page, page 0 is selected, the score definitions are collected and the page is laid
out horizontally; the function returns early when no page is selected. -/
def Doc.CalculateMidiTimemap (doc : Doc) : Except String Doc := do
  let doc := { doc with m_hasMidiTimemap := false }
  if doc.m_drawingPage.isNone then
    let count ← doc.GetPageCount
    if count = 1 then
      let (doc, page) ← doc.SetDrawingPage 0
      match page with
      | none => pure doc
      | some _ =>
        let doc := doc.CollectScoreDefs false
        let doc := doc.record Event.layOutHorizontally
        pure doc.calculateTimemapPasses
    else
      pure doc.calculateTimemapPasses
  else
    pure doc.calculateTimemapPasses

/-- The maps filled by the `GenerateTimemap` traversal. -/
structure GenerateTimemapParams (D : Type) where
  realTimeToScoreTime : IntMap D
  realTimeToOnElements : IntMap (List String)
  realTimeToOffElements : IntMap (List String)
  realTimeToTempo : IntMap Int

/-- The tree of staff numbers and, below each, layer numbers filled by the
`PrepareProcessingLists` traversal, `m_layerTree`. -/
abbrev LayerTree := IntMap (IntMap Unit)

/-- A note event written to a MIDI file by the `GenerateMIDI` traversal. -/
structure MidiNote where
  track : Int
  tick : Int
  key : Int
  isOn : Bool
deriving DecidableEq, Repr

/-- The contents of a `MidiFile`: the tempo messages as track, tick and tempo, the
number of tracks (track 0 is there from the start), the track names as track, tick
and name, and the note events. -/
structure MidiFile where
  tempos : List (Int × Int × Int) := []
  trackCount : Nat := 1
  trackNames : List (Int × Int × String) := []
  notes : List MidiNote := []
deriving DecidableEq, Repr

/-- The call `midiFile->addTempo(track, tick, tempo)`. -/
def MidiFile.addTempo (midiFile : MidiFile) (track tick tempo : Int) : MidiFile :=
  { midiFile with tempos := midiFile.tempos ++ [(track, tick, tempo)] }

/-- The call `midiFile->addTrack()`. -/
def MidiFile.addTrack (midiFile : MidiFile) : MidiFile :=
  { midiFile with trackCount := midiFile.trackCount + 1 }

/-- The call `midiFile->addTrackName(track, tick, name)`. -/
def MidiFile.addTrackName (midiFile : MidiFile) (track tick : Int) (name : String) :
    MidiFile :=
  { midiFile with trackNames := midiFile.trackNames ++ [(track, tick, name)] }

/-- What the traversals whose functors are outside the sources at hand compute from the
tree: the maps of `GenerateTimemap`, the layer tree of `PrepareProcessingLists`, and
the note events that one `GenerateMIDI` sub-pass for a staff and a layer writes, given
its track, transposition and tempo. -/
structure Traversals (D : Type) where
  generateTimemap : Doc → GenerateTimemapParams D
  layerTree : Doc → LayerTree
  generateMIDI : Doc → (staffN layerN midiTrack transSemi tempo : Int) → List MidiNote

/-- The part of `Doc::ExportTimemap` after the time map has been calculated if it was
missing: the check of `HasMidiTimemap` with its early return, then the
`GenerateTimemap` traversal and the call of `PrepareJsonTimemap`.  The result is the
new state, the value of `output` and the value returned. -/
def Doc.exportTimemapChecked {D : Type} (toStringD : D → String) (T : Traversals D)
    (doc : Doc) : Except String (Doc × String × Bool) := do
  if !doc.HasMidiTimemap then
    let doc := doc.record
      (Event.logWarning "Calculation of MIDI timemap failed, not exporting MidiFile.")
    pure (doc, "", false)
  else
    let generateTimemapParams := T.generateTimemap doc
    let doc := doc.Process FunctorName.GenerateTimemap ProcessRoot.doc false []
    let output ← PrepareJsonTimemap toStringD generateTimemapParams.realTimeToScoreTime
      generateTimemapParams.realTimeToOnElements generateTimemapParams.realTimeToOffElements
      generateTimemapParams.realTimeToTempo
    pure (doc, output, true)

/-- The first statement of `ExportTimemap` and of `ExportMIDI`: the time map is
calculated when the document has none. -/
def Doc.ensureMidiTimemap (doc : Doc) : Except String Doc :=
  if !doc.HasMidiTimemap then doc.CalculateMidiTimemap else pure doc

/-- The function `Doc::ExportTimemap`. -/
def Doc.ExportTimemap {D : Type} (toStringD : D → String) (T : Traversals D) (doc : Doc) :
    Except String (Doc × String × Bool) := do
  let doc ← doc.ensureMidiTimemap
  doc.exportTimemapChecked toStringD T

/-- The variables that the loop of `ExportMIDI` over the staves updates. -/
structure ExportMIDILoop where
  doc : Doc
  midiFile : MidiFile
  midiTrack : Int
deriving DecidableEq

/-- The inner loop of `ExportMIDI` over the layers of a staff: one `GenerateMIDI`
traversal per layer, filtered by the staff and the layer number. -/
def Doc.exportMIDILayers {D : Type} (T : Traversals D) (staffN midiTrack transSemi tempo : Int)
    (layers : IntMap Unit) (doc : Doc) (midiFile : MidiFile) : Doc × MidiFile :=
  layers.entries.foldl
    (fun st layer =>
      let filters := [(ClassId.STAFF, staffN), (ClassId.LAYER, layer.1)]
      let notes := T.generateMIDI st.1 staffN layer.1 midiTrack transSemi tempo
      (st.1.Process (FunctorName.GenerateMIDI midiTrack transSemi tempo) ProcessRoot.doc false
          filters,
        { st.2 with notes := st.2.notes ++ notes }))
    (doc, midiFile)

/-- One iteration of the loop of `ExportMIDI` over the staves of the layer tree. -/
def Doc.exportMIDIStaff {D : Type} (T : Traversals D) (tempo : Int)
    (st : ExportMIDILoop) (staff : Int × IntMap Unit) : Except String ExportMIDILoop := do
  let transSemi : Int := 0
  let (transSemi, midiTrack, midiFile) ←
    match st.doc.m_scoreDef.GetStaffDef staff.1 with
    | some staffDef =>
      let transSemi := match staffDef.transSemi with
        | some t => t
        | none => transSemi
      let midiTrack := staffDef.n
      let midiFile := st.midiFile.addTrack
      let label ← match staffDef.label with
        | some text => pure (some text)
        | none =>
          match staffDef.staffGrp with
          | none => throw "assert(staffGrp)"
          | some grpLabel => pure grpLabel
      let midiFile := match label with
        | some trackName =>
          if !trackName.isEmpty then midiFile.addTrackName midiTrack 0 trackName else midiFile
        | none => midiFile
      pure (transSemi, midiTrack, midiFile)
    | none => pure (transSemi, st.midiTrack, st.midiFile)
  let (doc, midiFile) :=
    Doc.exportMIDILayers T staff.1 midiTrack transSemi tempo staff.2 st.doc midiFile
  pure ⟨doc, midiFile, midiTrack⟩

/-- The part of `Doc::ExportMIDI` after the time map has been calculated if it was
missing: the check of `HasMidiTimemap` with its warning, the tempo at tick 0, the
`PrepareProcessingLists` traversal and the loop over the staves. -/
def Doc.exportMIDIChecked {D : Type} (T : Traversals D) (doc : Doc) (midiFile : MidiFile) :
    Except String (Doc × MidiFile) := do
  let doc :=
    if !doc.HasMidiTimemap then
      doc.record (Event.logWarning "Calculation of MIDI timemap failed, not exporting MidiFile.")
    else doc
  let tempo : Int := 120
  let tempo := match doc.m_scoreDef.midiBpm with
    | some bpm => bpm
    | none => tempo
  let midiFile := midiFile.addTempo 0 0 tempo
  let layerTree := T.layerTree doc
  let doc := doc.Process FunctorName.PrepareProcessingLists ProcessRoot.doc false []
  let midiTrack : Int := 1
  let st ← layerTree.entries.foldlM (Doc.exportMIDIStaff T tempo) ⟨doc, midiFile, midiTrack⟩
  pure (st.doc, st.midiFile)

/-- The function `Doc::ExportMIDI`: the new state and the contents of the MIDI file. -/
def Doc.ExportMIDI {D : Type} (T : Traversals D) (doc : Doc) (midiFile : MidiFile) :
    Except String (Doc × MidiFile) := do
  let doc ← doc.ensureMidiTimemap
  doc.exportMIDIChecked T midiFile

/-! ## Casting off -/

/-- The measures of a page in document order. -/
def Page.measures (page : Page) : List Measure :=
  page.children.flatMap (fun s => s.children)

/-- The measures of a sequence of pages in document order. -/
def measuresOfPages (pages : List Page) : List Measure :=
  pages.flatMap Page.measures

/-- The heights that the vertical layout gives to the systems (`LayOutVertically` is
outside the sources at hand). -/
structure Layout where
  systemHeight : System → Int

/-- The parameters of the `CastOffSystems` traversal set by `CastOffDoc`. -/
structure CastOffSystemsParams where
  m_systemWidth : Int := 0
  m_shift : Int := 0
  m_currentScoreDefWidth : Int := 0
deriving DecidableEq, Repr

/-- The parameters of the `CastOffPages` traversal set by `CastOffDoc` and by
`CastOffRunningElements`. -/
structure CastOffPagesParams where
  m_pageHeight : Int := 0
  m_pgHeadHeight : Int := 0
  m_pgFootHeight : Int := 0
  m_pgHead2Height : Int := 0
  m_pgFoot2Height : Int := 0
deriving DecidableEq, Repr

/-- Modelled from the spec: the functor `CastOffSystems` is outside the sources at hand.
The measures of the content system are walked in order, `x` being the width of the
measures walked so far and `shift` the position at which the current system starts
(at first minus the width of the labels).  The budget is exceeded when the width
accumulated in the current system including the measure, plus the score-definition
width, is strictly greater than the system width; the current system is then closed
and a new one opened at that measure.  The measure goes to the current system. -/
def castOffSystemsLoop (params : CastOffSystemsParams) :
    Int → Int → List System → System → List Measure → List System
  | _, _, closed, current, [] => closed ++ [current]
  | x, shift, closed, current, m :: rest =>
    if x + m.width + params.m_currentScoreDefWidth - shift > params.m_systemWidth then
      castOffSystemsLoop params (x + m.width) x (closed ++ [current])
        { children := [m] } rest
    else
      castOffSystemsLoop params (x + m.width) shift closed
        { current with children := current.children ++ [m] } rest

/-- Modelled from the spec: the call `contentSystem->Process(&castOffSystems, ...)`,
whose functor is outside the sources at hand.  The current system is the last child of
the page; the systems formed are the last children of the page afterwards. -/
def CastOffSystems (params : CastOffSystemsParams) (contentSystem : System) (page : Page) :
    Page :=
  match page.children.getLast? with
  | none => page
  | some currentSystem =>
    { page with
      children := page.children.dropLast
        ++ castOffSystemsLoop params 0 params.m_shift [] currentSystem contentSystem.children }

/-- Modelled from the spec: the functor `CastOffPages` is outside the sources at hand.
The systems of the content page are walked in order with the overflow policy of the
systems: a system whose height added to the height used on the current page is
strictly greater than the budget of that page opens a new page.  The budget is the
page height less the header and footer heights, those of the first page for the first
page and those of the following pages afterwards. -/
def castOffPagesLoop (layout : Layout) (params : CastOffPagesParams) :
    Int → Int → List Page → Page → List System → List Page
  | _, _, closed, current, [] => closed ++ [current]
  | budget, used, closed, current, s :: rest =>
    if used + layout.systemHeight s > budget then
      castOffPagesLoop layout params
        (params.m_pageHeight - params.m_pgHead2Height - params.m_pgFoot2Height)
        (layout.systemHeight s) (closed ++ [current]) { children := [s] } rest
    else
      castOffPagesLoop layout params budget (used + layout.systemHeight s) closed
        (current.AddChild s) rest

/-- Modelled from the spec: the call `contentPage->Process(&castOffPages, ...)`, whose
functor is outside the sources at hand.  The current page is the last child of the
Pages container; the pages formed are its last children afterwards. -/
def CastOffPages (layout : Layout) (params : CastOffPagesParams) (contentPage : Page)
    (pages : List Page) : List Page :=
  match pages.getLast? with
  | none => pages
  | some currentPage =>
    pages.dropLast
      ++ castOffPagesLoop layout params
          (params.m_pageHeight - params.m_pgHeadHeight - params.m_pgFootHeight) 0 []
          currentPage contentPage.children

/-- Modelled from the spec: the functor `UnCastOff` is outside the sources at hand.  It
walks every existing system and reattaches all its measures into the single target
system, in document order. -/
def UnCastOff (pages : List Page) (contentSystem : System) : System :=
  { contentSystem with children := contentSystem.children ++ measuresOfPages pages }

/-- Modelled from the spec: the functor `CastOffEncoding` is outside the sources at
hand.  Breaks are taken only where the encoding declares one: a system break in front
of a measure closes the current system and opens a new one on the current page, a page
break closes the current page as well. -/
def castOffEncodingLoop : List Page → Page → System → List Measure → List Page
  | closed, page, system, [] => closed ++ [page.AddChild system]
  | closed, page, system, m :: rest =>
    match m.encodedBreak with
    | some EncodedBreak.pageBreak =>
      castOffEncodingLoop (closed ++ [page.AddChild system]) {} { children := [m] } rest
    | some EncodedBreak.systemBreak =>
      castOffEncodingLoop closed (page.AddChild system) { children := [m] } rest
    | none =>
      castOffEncodingLoop closed page { system with children := system.children ++ [m] } rest

/-- Modelled from the spec: `Page::GetHeader` and `Page::GetFooter` are outside the
sources at hand; header and footer content may differ between the first page and the
following pages.  The result is the total height of the running element, when the page
has one. -/
def Doc.runningElementHeight (first following : Option Int) (pageIdx : Nat) : Option Int :=
  if pageIdx = 0 then first else following

/-- Replaces the Pages container's children. -/
def Doc.setPages (doc : Doc) (pages : List Page) : Doc :=
  { doc with pages := some pages }

/-- The function `Doc::CastOffRunningElements`: two probe pages are added, selected and
laid out vertically in turn, the header and footer heights are read from them, and
both are deleted. -/
def Doc.CastOffRunningElements (doc : Doc) (params : CastOffPagesParams) :
    Except String (Doc × CastOffPagesParams) := do
  match doc.GetPages with
  | none => throw "assert(pages)"
  | some pages =>
    if pages.length ≠ 0 then
      throw "assert(pages->GetChildCount() == 0)"
    else
      let page1 : Page := {}
      let doc := doc.setPages (pages ++ [page1])
      let (doc, _) ← doc.SetDrawingPage 0
      let doc := doc.record Event.layOutVertically
      let params := match Doc.runningElementHeight doc.pgHead doc.pgHead2 0 with
        | some h => { params with m_pgHeadHeight := h }
        | none => params
      let params := match Doc.runningElementHeight doc.pgFoot doc.pgFoot2 0 with
        | some h => { params with m_pgFootHeight := h }
        | none => params
      let page2 : Page := {}
      let doc := doc.setPages (pages ++ [page1] ++ [page2])
      let (doc, _) ← doc.SetDrawingPage 1
      let doc := doc.record Event.layOutVertically
      let params := match Doc.runningElementHeight doc.pgHead doc.pgHead2 1 with
        | some h => { params with m_pgHead2Height := h }
        | none => params
      let params := match Doc.runningElementHeight doc.pgFoot doc.pgFoot2 1 with
        | some h => { params with m_pgFoot2Height := h }
        | none => params
      let doc := doc.setPages pages
      pure (doc.ResetDrawingPage, params)

/-- The function `Doc::CastOffDoc`. -/
def Doc.CastOffDoc (layout : Layout) (doc : Doc) : Except String Doc := do
  let doc := doc.CollectScoreDefs false
  match doc.GetPages with
  | none => throw "assert(pages)"
  | some _ =>
    let (doc, contentPage) ← doc.SetDrawingPage 0
    match contentPage with
    | none => throw "assert(contentPage)"
    | some contentPage =>
      let doc := doc.record Event.layOutHorizontally
      match contentPage.children with
      | [] => throw "assert(contentSystem)"
      | contentSystem :: others =>
        let contentPage := { contentPage with children := others }
        let currentSystem : System := {}
        let contentPage := contentPage.AddChild currentSystem
        let castOffSystemsParams : CastOffSystemsParams :=
          { m_systemWidth := doc.m_drawingPageWidth - doc.m_drawingPageMarginLeft
              - doc.m_drawingPageMarginRight - currentSystem.m_systemLeftMar
              - currentSystem.m_systemRightMar
            m_shift := -contentSystem.drawingLabelsWidth
            m_currentScoreDefWidth :=
              contentPage.drawingScoreDefWidth + contentSystem.drawingAbbrLabelsWidth }
        let doc := doc.Process FunctorName.CastOffSystems ProcessRoot.contentSystem false []
        let contentPage := CastOffSystems castOffSystemsParams contentSystem contentPage
        let doc := doc.setPages ((doc.pages.getD []).set 0 contentPage)
        let doc := doc.CollectScoreDefs true
        let doc := doc.record Event.layOutVertically
        let doc := doc.setPages ((doc.pages.getD []).eraseIdx 0)
        let doc := doc.ResetDrawingPage
        let currentPage : Page := {}
        let castOffPagesParams : CastOffPagesParams := {}
        let (doc, castOffPagesParams) ← doc.CastOffRunningElements castOffPagesParams
        let castOffPagesParams :=
          { castOffPagesParams with
            m_pageHeight := doc.m_drawingPageHeight - doc.m_drawingPageMarginBot }
        let doc := doc.setPages ((doc.pages.getD []) ++ [currentPage])
        let doc := doc.Process FunctorName.CastOffPages ProcessRoot.contentPage false []
        let doc := doc.setPages
          (CastOffPages layout castOffPagesParams contentPage (doc.pages.getD []))
        pure (doc.CollectScoreDefs true)

/-- Modelled from the spec: the call `this->Process(&unCastOff, ...)` seen from the
content page, whose only child is the target system. -/
def UnCastOffInto (pages : List Page) (contentPage : Page) : Page :=
  { contentPage with children := contentPage.children.map (UnCastOff pages) }

/-- The function `Doc::UnCastOffDoc`. -/
def Doc.UnCastOffDoc (doc : Doc) : Except String Doc := do
  match doc.GetPages with
  | none => throw "assert(pages)"
  | some pages =>
    let contentPage : Page := {}
    let contentSystem : System := {}
    let contentPage := contentPage.AddChild contentSystem
    let doc := doc.Process FunctorName.UnCastOff ProcessRoot.doc false []
    let contentPage := UnCastOffInto pages contentPage
    let doc := doc.setPages []
    let doc := doc.setPages ((doc.pages.getD []) ++ [contentPage])
    let doc := doc.ResetDrawingPage
    pure (doc.CollectScoreDefs true)

/-- Modelled from the spec: the call `contentSystem->Process(&castOffEncoding, ...)`,
whose functor is outside the sources at hand.  The current page is the last child of
the Pages container and the current system its last child. -/
def CastOffEncoding (contentSystem : System) (pages : List Page) : List Page :=
  match pages.getLast? with
  | none => pages
  | some page =>
    match page.children.getLast? with
    | none => pages
    | some system =>
      pages.dropLast
        ++ castOffEncodingLoop [] { page with children := page.children.dropLast } system
            contentSystem.children

/-- The function `Doc::CastOffEncodingDoc`. -/
def Doc.CastOffEncodingDoc (doc : Doc) : Except String Doc := do
  let doc := doc.CollectScoreDefs false
  match doc.GetPages with
  | none => throw "assert(pages)"
  | some _ =>
    let (doc, contentPage) ← doc.SetDrawingPage 0
    match contentPage with
    | none => throw "assert(contentPage)"
    | some contentPage =>
      let doc := doc.record Event.layOutHorizontally
      match contentPage.children.head? with
      | none => throw "assert(contentSystem)"
      | some contentSystem =>
        let doc := doc.setPages ((doc.pages.getD []).eraseIdx 0)
        let page : Page := {}
        let system : System := {}
        let page := page.AddChild system
        let doc := doc.setPages ((doc.pages.getD []) ++ [page])
        let doc := doc.Process FunctorName.CastOffEncoding ProcessRoot.contentSystem false []
        let doc := doc.setPages (CastOffEncoding contentSystem (doc.pages.getD []))
        let doc := doc.ResetDrawingPage
        pure (doc.CollectScoreDefs true)

/-! ## A small document used as a concrete input -/

/-- A document that was never cast off: one page with one system of three measures, two
staff definitions, no tempo declared. -/
def sampleDoc : Doc :=
  { pages := some
      [{ children :=
          [{ children := [{ uuid := "m1", width := 100 }, { uuid := "m2", width := 100 },
              { uuid := "m3", width := 100 }] }] }]
    m_options := { m_pageWidth := 350, m_pageHeight := 200 }
    m_scoreDef :=
      { staffDefs := [{ n := 1, label := some "Violin" }, { n := 2, transSemi := some (-2) }] } }

/-- The state of `sampleDoc` at the check of `HasMidiTimemap` in an export, page 0 being
the drawing page and the flag being false. -/
def sampleDocNoTimemap : Doc :=
  { sampleDoc with m_drawingPage := some 0, m_hasMidiTimemap := false }

/-- The same state with the flag set. -/
def sampleDocWithTimemap : Doc :=
  { sampleDoc with m_drawingPage := some 0, m_hasMidiTimemap := true }

/-- Results of the traversals on the sample document: the sample time map, two staves
with one layer each, and one note per sub-pass. -/
def sampleTraversals : Traversals Nat :=
  { generateTimemap := fun _ => ⟨sampleScoreTime, sampleOn, sampleOff, sampleTempo⟩
    layerTree := fun _ =>
      ⟨[(1, ⟨[(1, ())], by decide⟩), (2, ⟨[(1, ())], by decide⟩)], by decide⟩
    generateMIDI := fun _ _ _ midiTrack transSemi _ =>
      [{ track := midiTrack, tick := 0, key := 60 + transSemi, isOn := true }] }

/-- System heights of the sample layout. -/
def sampleLayout : Layout := ⟨fun _ => 100⟩

/-! ## The traversals of CollectScoreDefs as events -/

/-- The `UnsetCurrentScoreDef` traversal of the document. -/
def unsetCurrentScoreDefPass : Event :=
  Event.process FunctorName.UnsetCurrentScoreDef ProcessRoot.doc false []

/-- The `SetCurrentScoreDef` traversal of the upcoming score definition. -/
def setUpcomingScoreDefPass : Event :=
  Event.process FunctorName.SetCurrentScoreDef ProcessRoot.upcomingScoreDef false []

/-- The `SetCurrentScoreDef` traversal of the document. -/
def setCurrentScoreDefPass : Event :=
  Event.process FunctorName.SetCurrentScoreDef ProcessRoot.doc false []

/-- A log whose last three events are the unset pass and the two set passes. -/
def EndsWithUnsetAndSet (log : List Event) : Prop :=
  ∃ earlier : List Event,
    log = earlier ++ [unsetCurrentScoreDefPass, setUpcomingScoreDefPass, setCurrentScoreDefPass]

/-- A log whose last two events are the two set passes. -/
def EndsWithSet (log : List Event) : Prop :=
  ∃ earlier : List Event, log = earlier ++ [setUpcomingScoreDefPass, setCurrentScoreDefPass]

/-- The `UnCastOff` traversal of the document. -/
def unCastOffPass : Event :=
  Event.process FunctorName.UnCastOff ProcessRoot.doc false []

/-- The sample document after `CastOffDoc` with the sample layout: with a system width
of 250 and a page height of 150, two pages of one system each. -/
def sampleCastDoc : Doc :=
  match sampleDoc.CastOffDoc sampleLayout with
  | .ok d => d
  | .error _ => sampleDoc

/-! ## The adjusted size of the drawing page -/

/-- The drawing page as an object: the page at the index kept in `m_drawingPage`. -/
def Doc.GetDrawingPage (doc : Doc) : Option Page :=
  match doc.m_drawingPage, doc.pages with
  | some idx, some pages => pages.get? idx
  | _, _ => none

/-- The function `Doc::GetAdjustedDrawingPageHeight`.  The constant `DEFINITION_FACTOR`
is defined outside the sources at hand and is a parameter; `GetContentHeight` of the
page is the field `contentHeight`; the division of C++ truncates.  The sum is taken in
the integers: the function is used where it does not overflow. -/
def Doc.GetAdjustedDrawingPageHeight (DEFINITION_FACTOR : Int) (doc : Doc) :
    Except String Int :=
  match doc.GetDrawingPage with
  | none => .error "assert(m_drawingPage)"
  | some m_drawingPage =>
    if doc.m_type = DocType.Transcription then
      .ok (Int.tdiv m_drawingPage.m_pageHeight DEFINITION_FACTOR)
    else
      let contentHeight := m_drawingPage.contentHeight
      .ok (Int.tdiv (contentHeight + doc.m_drawingPageMarginTop + doc.m_drawingPageMarginBot)
        DEFINITION_FACTOR)

/-- The function `Doc::GetAdjustedDrawingPageWidth`, with the same conventions. -/
def Doc.GetAdjustedDrawingPageWidth (DEFINITION_FACTOR : Int) (doc : Doc) :
    Except String Int :=
  match doc.GetDrawingPage with
  | none => .error "assert(m_drawingPage)"
  | some m_drawingPage =>
    if doc.m_type = DocType.Transcription then
      .ok (Int.tdiv m_drawingPage.m_pageWidth DEFINITION_FACTOR)
    else
      let contentWidth := m_drawingPage.contentWidth
      .ok (Int.tdiv (contentWidth + doc.m_drawingPageMarginLeft + doc.m_drawingPageMarginRight)
        DEFINITION_FACTOR)

/-- A document in rendering state with a drawing page: content of 2000 by 1405 units and
margins of 50 units. -/
def sampleDrawingDoc : Doc :=
  { pages := some
      [{ contentHeight := 2000, contentWidth := 1405, m_pageHeight := 2970,
         m_pageWidth := 2100 }]
    m_type := DocType.Rendering
    m_drawingPage := some 0
    m_drawingPageMarginTop := 50
    m_drawingPageMarginBot := 50
    m_drawingPageMarginLeft := 50
    m_drawingPageMarginRight := 50 }

/-! ## The sub-passes of the MIDI export as events -/

/-- The text that names the track of a staff: the text of the own label of the staff
definition if it has one, else the label of its enclosing staff group. -/
def StaffDef.trackLabel (staffDef : StaffDef) : Option String :=
  match staffDef.label with
  | some text => some text
  | none => staffDef.staffGrp.join

/-- The `GenerateMIDI` traversal for one staff and one layer. -/
def generateMIDIPass (staffN layerN midiTrack transSemi tempo : Int) : Event :=
  Event.process (FunctorName.GenerateMIDI midiTrack transSemi tempo) ProcessRoot.doc false
    [(ClassId.STAFF, staffN), (ClassId.LAYER, layerN)]

/-- The filters of an event that is a `GenerateMIDI` traversal. -/
def Event.generateMIDIFilters : Event → Option (List (ClassId × Int))
  | Event.process (FunctorName.GenerateMIDI _ _ _) _ _ filters => some filters
  | _ => none

/-- The pairs of a staff number and a layer number of a layer tree, as filter lists, in
the order of the tree. -/
def LayerTree.filterPairs (layerTree : LayerTree) : List (List (ClassId × Int)) :=
  layerTree.entries.flatMap
    (fun staff => staff.2.entries.map
      (fun layer => [(ClassId.STAFF, staff.1), (ClassId.LAYER, layer.1)]))

/-! ## The break rule of the systems in the words of the specification -/

/-- The sum of the drawing widths of measures. -/
def widthOf (ms : List Measure) : Int := (ms.map (fun m => m.width)).sum

/-- Measures that are added one after the other to a system in which the width `acc` is
taken already, none of them making the accumulated width strictly greater than the
budget (an exact fit is not an overflow). -/
def AllFit (budget acc : Int) (ms : List Measure) : Prop :=
  ∀ (p : List Measure) (m : Measure) (q : List Measure),
    ms = p ++ m :: q → acc + widthOf p + m.width ≤ budget

/-- The greedy break rule, following the specification: `groups` are the measures of the
systems formed from a current system that holds `current` with the accumulated width
`acc`, and from the measures `ms` still to be placed.  The measures added to the current
system all fit; a further system starts at the first measure with which the accumulated
width, that measure included, is strictly greater than the budget, and it starts with
the carried-over width `carry` and that measure. -/
def GreedyBreaks (budget carry : Int) :
    Int → List Measure → List Measure → List (List Measure) → Prop
  | _, _, _, [] => False
  | acc, current, ms, [g] => g = current ++ ms ∧ AllFit budget acc ms
  | acc, current, ms, g :: g2 :: gs =>
    ∃ (r : List Measure) (m : Measure) (rest : List Measure),
      ms = r ++ m :: rest ∧ g = current ++ r ∧ AllFit budget acc r
        ∧ acc + widthOf r + m.width > budget
        ∧ GreedyBreaks budget carry (carry + m.width) [m] rest (g2 :: gs)

/-- The systems of a sequence of pages in document order. -/
def systemsOfPages (pages : List Page) : List System :=
  pages.flatMap (fun p => p.children)

/-! ## Generating a score definition -/

/-- A staff group under construction: its label, if any, and its staff definitions in
the order they were added. -/
structure StaffGrp where
  label : Option String := none
  staffDefs : List StaffDef := []
deriving DecidableEq, Repr

/-- The call `staffGrp->AddChild(staffDef)`: the staff definition becomes the last child
of the group. -/
def StaffGrp.AddChild (staffGrp : StaffGrp) (staffDef : StaffDef) : StaffGrp :=
  { staffGrp with staffDefs := staffGrp.staffDefs ++ [staffDef] }

/-- Modelled from the spec: `ScoreDef::Reset` is not part of the sources at hand; the
score definition is reset, so that it holds no attribute and no child. -/
def ScoreDef.Reset (_ : ScoreDef) : ScoreDef := {}

/-- Modelled from the spec: `ScoreDef::AddChild` is not part of the sources at hand; the
staff group becomes the last child of the score definition, so its staff definitions
follow the ones already there, each enclosed in that group. -/
def ScoreDef.AddChild (scoreDef : ScoreDef) (staffGrp : StaffGrp) : ScoreDef :=
  { scoreDef with
    staffDefs := scoreDef.staffDefs
      ++ staffGrp.staffDefs.map (fun s => { s with staffGrp := some staffGrp.label }) }

/-- The staves of a measure in document order, what
`measure->FindAllChildByAttComparison` collects for the class `STAFF`. -/
def Measure.staves (measure : Measure) : List Staff :=
  measure.children.filterMap
    (fun c => match c with
      | MeasureChild.staff s => some s
      | MeasureChild.controlEvent _ => none)

/-- The first measure of the document in document order, what
`this->FindChildByType(MEASURE)` finds. -/
def Doc.firstMeasure (doc : Doc) : Option Measure :=
  (measuresOfPages (doc.pages.getD [])).head?

/-- The function `Doc::GenerateDocumentScoreDef`: the new state and the value
returned. -/
def Doc.GenerateDocumentScoreDef (doc : Doc) : Doc × Bool :=
  match doc.firstMeasure with
  | none => (doc.record (Event.logError "No measure found for generating a scoreDef"), false)
  | some measure =>
    let staves := measure.staves
    if staves.isEmpty then
      (doc.record (Event.logError "No staff found for generating a scoreDef"), false)
    else
      let doc := { doc with m_scoreDef := doc.m_scoreDef.Reset }
      let staffGrp : StaffGrp := {}
      let staffGrp := staves.foldl
        (fun staffGrp staff =>
          let staffDef : StaffDef := { n := staff.n, staffGrp := none }
          let staffDef := { staffDef with lines := some 5 }
          let staffDef :=
            if !measure.measuredMusic then
              { staffDef with notationtype := some Notationtype.mensural }
            else staffDef
          staffGrp.AddChild staffDef)
        staffGrp
      let doc := { doc with m_scoreDef := doc.m_scoreDef.AddChild staffGrp }
      (doc.record (Event.logMessage "ScoreDef generated"), true)

/-- The staff definition that `GenerateDocumentScoreDef` makes for a staff of the first
measure, once it is a child of the staff group of the score definition. -/
def generatedStaffDef (measure : Measure) (staff : Staff) : StaffDef :=
  { n := staff.n
    lines := some 5
    notationtype := if measure.measuredMusic then none else some Notationtype.mensural
    staffGrp := some none }

/-- A document with two staves in its first measure, and a score definition from
before. -/
def sampleStavesDoc : Doc :=
  { pages := some
      [{ children :=
          [{ children :=
              [{ uuid := "m1",
                 children := [MeasureChild.staff { n := 1 }, MeasureChild.staff { n := 2 }] },
               { uuid := "m2", children := [MeasureChild.staff { n := 7 }] }] }] }]
    m_scoreDef := { midiBpm := some 90, staffDefs := [{ n := 4 }] } }

/-! ## Preparing the drawing -/

/-- The tree of staff numbers, layer numbers and verse numbers filled by the
`PrepareProcessingLists` traversal, `m_verseTree`. -/
abbrev VerseTree := IntMap (IntMap (IntMap Unit))

/-- What the resolving traversals whose functors are outside the sources at hand compute
from the tree.  `prepareTimeSpanning` gives the list `m_timeSpanningInterfaces` after a
`PrepareTimeSpanning` traversal in the given direction, with or without filling the
list, from the list before it; `prepareTimestamps` does so for the `PrepareTimestamps`
traversal; `preparePlist` gives `m_interfaceUuidPairs` after a `PreparePlist` traversal;
`fillStaffCurrentTimeSpanning` gives the `m_timeSpanningElements` left by that
traversal; `layerTree` and `verseTree` are the trees of `PrepareProcessingLists`;
`convertAnalyticalMarkup` gives the tree and the list `m_currentNotes`, as identifiers,
after one `ConvertAnalyticalMarkup` traversal for a staff and a layer.  The anchors that
a traversal resolves are kept in the entries of its list. -/
structure Resolvers where
  prepareTimeSpanning : (backward fillList : Bool) → Doc → List TimeSpanning →
    List TimeSpanning
  prepareTimestamps : Doc → List TimeSpanning → List TimeSpanning
  preparePlist : (backward fillList : Bool) → Doc → List (String × String) →
    List (String × String)
  fillStaffCurrentTimeSpanning : Doc → List TimeSpanning
  layerTree : Doc → LayerTree
  verseTree : Doc → VerseTree
  convertAnalyticalMarkup : Doc → (staffN layerN : Int) → (permanent : Bool) →
    Option (List Page) × List String

/-- The loops over the staves of a layer tree and over the layers of each staff, in the
order of the maps, with the body run for each staff number and layer number. -/
def Doc.forEachLayer (layerTree : LayerTree) (body : Int → Int → Doc → Doc) (doc : Doc) :
    Doc :=
  layerTree.entries.foldl
    (fun doc staves =>
      staves.2.entries.foldl (fun doc layers => body staves.1 layers.1 doc) doc)
    doc

/-- The loops over the staves of a verse tree, the layers of each staff and the verses
of each layer, in the order of the maps. -/
def Doc.forEachVerse (verseTree : VerseTree) (body : Int → Int → Int → Doc → Doc)
    (doc : Doc) : Doc :=
  verseTree.entries.foldl
    (fun doc staves =>
      staves.2.entries.foldl
        (fun doc layers =>
          layers.2.entries.foldl (fun doc verses => body staves.1 layers.1 verses.1 doc) doc)
        doc)
    doc

/-- The part of `Doc::PrepareDrawing` that resolves `@startid` and `@endid`, then
`@tstamp` and `@tstamp2`: the backward `PrepareTimeSpanning` traversal, the forward
one without filling the list when the list is not empty, the `PrepareTimePointing`
traversal, the `PrepareTimestamps` traversal on the list that is left, and the warning
with the number of entries still there.  The result is the new state and the list
`m_timeSpanningInterfaces` of the timestamps parameters at the end. -/
def Doc.resolveTimeSpanning (R : Resolvers) (doc : Doc) : Doc × List TimeSpanning :=
  let m_timeSpanningInterfaces := R.prepareTimeSpanning true true doc []
  let doc := doc.Process (FunctorName.PrepareTimeSpanning true) ProcessRoot.doc true []
  let (doc, m_timeSpanningInterfaces) :=
    if !m_timeSpanningInterfaces.isEmpty then
      (doc.Process (FunctorName.PrepareTimeSpanning false) ProcessRoot.doc false [],
        R.prepareTimeSpanning false false doc m_timeSpanningInterfaces)
    else (doc, m_timeSpanningInterfaces)
  let doc := doc.Process FunctorName.PrepareTimePointing ProcessRoot.doc true []
  let m_timeSpanningInterfaces := R.prepareTimestamps doc m_timeSpanningInterfaces
  let doc := doc.Process FunctorName.PrepareTimestamps ProcessRoot.doc false []
  let doc :=
    if !m_timeSpanningInterfaces.isEmpty then
      doc.record (Event.logWarning
        (toString m_timeSpanningInterfaces.length
          ++ " time spanning element(s) could not be matched"))
    else doc
  (doc, m_timeSpanningInterfaces)

/-- The part of `Doc::PrepareDrawing` that resolves `@plist`: the forward `PreparePlist`
traversal, the backward one without filling the list when pairs are left, and the
warning with the number of pairs still there. -/
def Doc.resolvePlist (R : Resolvers) (doc : Doc) : Doc :=
  let m_interfaceUuidPairs := R.preparePlist false true doc []
  let doc := doc.Process (FunctorName.PreparePlist true) ProcessRoot.doc false []
  let (doc, m_interfaceUuidPairs) :=
    if !m_interfaceUuidPairs.isEmpty then
      (doc.Process (FunctorName.PreparePlist false) ProcessRoot.doc true [],
        R.preparePlist true false doc m_interfaceUuidPairs)
    else (doc, m_interfaceUuidPairs)
  if !m_interfaceUuidPairs.isEmpty then
    doc.record (Event.logWarning
      (toString m_interfaceUuidPairs.length
        ++ " element(s) with a @plist could match the target"))
  else doc

/-- The function `Doc::PrepareDrawing`. -/
def Doc.PrepareDrawing (R : Resolvers) (doc : Doc) : Doc :=
  let doc :=
    if doc.m_drawingPreparationDone then
      doc.Process FunctorName.ResetDrawing ProcessRoot.doc false []
    else doc
  let doc := (doc.resolveTimeSpanning R).1
  let doc := doc.resolvePlist R
  let doc := doc.Process FunctorName.PrepareCrossStaff ProcessRoot.doc false []
  let layerTree := R.layerTree doc
  let verseTree := R.verseTree doc
  let doc := doc.Process FunctorName.PrepareProcessingLists ProcessRoot.doc false []
  let doc := doc.forEachLayer layerTree
    (fun staffN layerN doc =>
      doc.Process FunctorName.PreparePointersByLayer ProcessRoot.doc false
        [(ClassId.STAFF, staffN), (ClassId.LAYER, layerN)])
  let doc := doc.forEachVerse verseTree
    (fun staffN layerN verseN doc =>
      doc.Process FunctorName.PrepareLyrics ProcessRoot.doc false
        [(ClassId.STAFF, staffN), (ClassId.LAYER, layerN), (ClassId.VERSE, verseN)])
  let m_timeSpanningElements := R.fillStaffCurrentTimeSpanning doc
  let doc := doc.Process FunctorName.FillStaffCurrentTimeSpanning ProcessRoot.doc false []
  let doc :=
    if !m_timeSpanningElements.isEmpty then
      doc.record (Event.logDebug
        (toString m_timeSpanningElements.length
          ++ " time spanning elements could not be set as running"))
    else doc
  let doc := doc.forEachLayer layerTree
    (fun staffN layerN doc =>
      doc.Process FunctorName.PrepareRpt ProcessRoot.doc false
        [(ClassId.STAFF, staffN), (ClassId.LAYER, layerN)])
  let doc := doc.Process FunctorName.PrepareBoundaries ProcessRoot.doc false []
  let doc := doc.Process FunctorName.PrepareFloatingGrps ProcessRoot.doc false []
  let doc := doc.Process FunctorName.PrepareDrawingCueSize ProcessRoot.doc false []
  let doc := doc.Process FunctorName.PrepareLayerElementParts ProcessRoot.doc false []
  { doc with m_drawingPreparationDone := true }

/-! ## Converting the analytical markup -/

/-- The function `Doc::ConvertAnalyticalMarkupDoc`. -/
def Doc.ConvertAnalyticalMarkupDoc (R : Resolvers) (doc : Doc) (permanent : Bool) : Doc :=
  if !doc.m_hasAnalyticalMarkup then doc
  else
    let doc := doc.record (Event.logMessage "Converting analytical markup...")
    let layerTree := R.layerTree doc
    let doc := doc.Process FunctorName.PrepareProcessingLists ProcessRoot.doc false []
    doc.forEachLayer layerTree
      (fun staffN layerN doc =>
        let (pages, m_currentNotes) := R.convertAnalyticalMarkup doc staffN layerN permanent
        let doc := { doc with pages := pages }
        let doc := doc.Process (FunctorName.ConvertAnalyticalMarkup permanent)
          ProcessRoot.doc false [(ClassId.STAFF, staffN), (ClassId.LAYER, layerN)]
        if !m_currentNotes.isEmpty then
          m_currentNotes.foldl
            (fun doc note =>
              doc.record (Event.logWarning
                ("Unable to match @tie of note \x27" ++ note ++ "\x27, skipping it")))
            doc
        else doc)

/-- The layer elements of the document in document order. -/
def Doc.layerElements (doc : Doc) : List LayerElement :=
  (measuresOfPages (doc.pages.getD [])).flatMap
    (fun m => m.staves.flatMap (fun s => s.elements))

/-- The layer element with the given identifier, the first one in document order. -/
def Doc.findElement (doc : Doc) (uuid : String) : Option LayerElement :=
  doc.layerElements.find? (fun e => e.uuid == uuid)

/-- A document with analytical markup: one note with an initial tie and no later note
that ends it. -/
def openTieDoc : Doc :=
  { pages := some
      [{ children :=
          [{ children :=
              [{ uuid := "m1",
                 children :=
                   [MeasureChild.staff
                     { n := 1, elements := [{ uuid := "n1", tie := some "i" }] }] }] }] }]
    m_hasAnalyticalMarkup := true }

/-- Traversals for `openTieDoc`: one staff with one layer, and a `ConvertAnalyticalMarkup`
traversal that changes nothing in the tree and ends with the note `n1` in
`m_currentNotes`; no spanning element or list is left pending. -/
def openTieResolvers : Resolvers :=
  { prepareTimeSpanning := fun _ _ _ pending => pending
    prepareTimestamps := fun _ pending => pending
    preparePlist := fun _ _ _ pairs => pairs
    fillStaffCurrentTimeSpanning := fun _ => []
    layerTree := fun _ => ⟨[(1, ⟨[(1, ())], by decide⟩)], by decide⟩
    verseTree := fun _ => IntMap.empty
    convertAnalyticalMarkup := fun doc _ _ _ => (doc.pages, ["n1"]) }

/-! ## The resolution of spanning elements in the words of the specification -/

/-- A node that the spanning traversals act on: a layer element, given by its
identifier, or a time-spanning element. -/
inductive Leaf
  | element (uuid : String)
  | spanning (c : TimeSpanning)
deriving DecidableEq, Repr

/-- The layer elements and time-spanning elements of a measure in document order. -/
def Measure.leaves (measure : Measure) : List Leaf :=
  measure.children.flatMap
    (fun c => match c with
      | MeasureChild.staff s => s.elements.map (fun e => Leaf.element e.uuid)
      | MeasureChild.controlEvent c => [Leaf.spanning c])

/-- The layer elements and time-spanning elements of the document in document order. -/
def Doc.leaves (doc : Doc) : List Leaf :=
  (measuresOfPages (doc.pages.getD [])).flatMap Measure.leaves

/-- The identifiers of the layer elements among nodes. -/
def leafIds (leaves : List Leaf) : List String :=
  leaves.filterMap
    (fun l => match l with
      | Leaf.element uuid => some uuid
      | Leaf.spanning _ => none)

/-- The time-spanning elements among nodes. -/
def leafSpans (leaves : List Leaf) : List TimeSpanning :=
  leaves.filterMap
    (fun l => match l with
      | Leaf.element _ => none
      | Leaf.spanning c => some c)

/-- The identifiers that exist in the tree as anchors. -/
def Doc.elementIds (doc : Doc) : List String := leafIds doc.leaves

/-- The time-spanning elements of the document in document order. -/
def Doc.spanningElements (doc : Doc) : List TimeSpanning := leafSpans doc.leaves

/-- The start and the end of a spanning element are both bound. -/
def TimeSpanning.isComplete (c : TimeSpanning) : Bool :=
  c.m_start.isSome && c.m_end.isSome

/-- A pending spanning element meets a layer element: a start or end reference with the
identifier of that element is bound to it. -/
def TimeSpanning.matchElement (c : TimeSpanning) (uuid : String) : TimeSpanning :=
  let c := if c.startid = some uuid then { c with m_start := some (Anchor.element uuid) } else c
  if c.endid = some uuid then { c with m_end := some (Anchor.element uuid) } else c

/-- One node of a `PrepareTimeSpanning` traversal: a spanning element joins the pending
list when the list is being filled; at a layer element the references of the pending
entries to it are bound, and the entries with both ends bound leave the list. -/
def visitTimeSpanning (fillList : Bool) (pending : List TimeSpanning) :
    Leaf → List TimeSpanning
  | Leaf.spanning c => if fillList then pending ++ [c] else pending
  | Leaf.element uuid =>
    (pending.map (fun c => c.matchElement uuid)).filter (fun c => !c.isComplete)

/-- Modelled from the spec: the functor `PrepareTimeSpanning` is not part of the sources
at hand.  Spanning references are weak, identifier-based references; the traversal
visits the nodes in document order, or in the reverse order when it runs backward, fills
the pending list when asked to, binds the references whose identifier it meets, and
leaves in the list the entries that are not matched. -/
def specPrepareTimeSpanning (backward fillList : Bool) (doc : Doc)
    (pending : List TimeSpanning) : List TimeSpanning :=
  (if backward then doc.leaves.reverse else doc.leaves).foldl
    (visitTimeSpanning fillList) pending

/-- A pending spanning element in the timestamps traversal: an end that is not bound and
has a timestamp is bound to the time position of that timestamp. -/
def TimeSpanning.matchTimestamps (c : TimeSpanning) : TimeSpanning :=
  { c with
    m_start := match c.m_start, c.tstamp with
      | none, some t => some (Anchor.timestamp t)
      | a, _ => a
    m_end := match c.m_end, c.tstamp2 with
      | none, some t => some (Anchor.timestamp t)
      | a, _ => a }

/-- Modelled from the spec: the functor `PrepareTimestamps` is not part of the sources at
hand.  The traversal takes the entries still pending as candidates, binds them by their
timestamps, and leaves in the list the entries that are still not matched. -/
def specPrepareTimestamps (_ : Doc) (pending : List TimeSpanning) : List TimeSpanning :=
  (pending.map (fun c => c.matchTimestamps)).filter (fun c => !c.isComplete)

/-- A spanning element after it has met the layer elements with the given identifiers,
in one step. -/
def TimeSpanning.matchIds (c : TimeSpanning) (ids : List String) : TimeSpanning :=
  { c with
    m_start := match c.startid with
      | some s => if s ∈ ids then some (Anchor.element s) else c.m_start
      | none => c.m_start
    m_end := match c.endid with
      | some e => if e ∈ ids then some (Anchor.element e) else c.m_end
      | none => c.m_end }

/-- A spanning element after it has met the layer elements with the given identifiers
and then the timestamps traversal. -/
def TimeSpanning.finalForm (ids : List String) (c : TimeSpanning) : TimeSpanning :=
  (c.matchIds ids).matchTimestamps

/-- The entries that a filling traversal over the given nodes adds to the pending list,
each after it has met the layer elements that follow it. -/
def fillForm : List Leaf → List TimeSpanning
  | [] => []
  | Leaf.spanning c :: rest => c.matchIds (leafIds rest) :: fillForm rest
  | Leaf.element _ :: rest => fillForm rest

/-- The references of a spanning element are resolvable: each end is bound already, or
refers to an identifier that exists, or has a timestamp. -/
def TimeSpanning.resolvable (ids : List String) (c : TimeSpanning) : Bool :=
  (c.m_start.isSome || (match c.startid with
      | some s => decide (s ∈ ids)
      | none => false) || c.tstamp.isSome)
    && (c.m_end.isSome || (match c.endid with
      | some e => decide (e ∈ ids)
      | none => false) || c.tstamp2.isSome)

/-- The log of the second document starts with the log of the first. -/
def Doc.logExtends (base doc : Doc) : Prop := ∃ evs, doc.log = base.log ++ evs

/-- A document with a slur from `n1` to `n2`, and a slur whose end refers to an
identifier `nX` that is nowhere in the tree. -/
def danglingSlurDoc : Doc :=
  { pages := some
      [{ children :=
          [{ children :=
              [{ uuid := "m1",
                 children :=
                   [MeasureChild.staff
                     { n := 1, elements := [{ uuid := "n1" }, { uuid := "n2" }] },
                    MeasureChild.controlEvent
                      { uuid := "s1", startid := some "n1", endid := some "n2" },
                    MeasureChild.controlEvent
                      { uuid := "s2", startid := some "n2", endid := some "nX" }] }] }] }] }

/-- Traversals for `danglingSlurDoc`: the spanning traversals in the words of the
specification, one staff with one layer, nothing else pending. -/
def danglingSlurResolvers : Resolvers :=
  { prepareTimeSpanning := specPrepareTimeSpanning
    prepareTimestamps := specPrepareTimestamps
    preparePlist := fun _ _ _ pairs => pairs
    fillStaffCurrentTimeSpanning := fun _ => []
    layerTree := fun _ => ⟨[(1, ⟨[(1, ())], by decide⟩)], by decide⟩
    verseTree := fun _ => IntMap.empty
    convertAnalyticalMarkup := fun doc _ _ _ => (doc.pages, []) }

/-! ## The passes of PrepareDrawing by staff, layer and verse -/

/-- The pairs of a staff number and a layer number of a layer tree, in the order in which
the loops over the tree visit them. -/
def LayerTree.pairs (layerTree : LayerTree) : List (Int × Int) :=
  layerTree.entries.flatMap (fun staves => staves.2.entries.map (fun layers => (staves.1, layers.1)))

/-- The triples of a staff number, a layer number and a verse number of a verse tree, in
the order in which the loops over the tree visit them. -/
def VerseTree.triples (verseTree : VerseTree) : List (Int × Int × Int) :=
  verseTree.entries.flatMap
    (fun staves => staves.2.entries.flatMap
      (fun layers => layers.2.entries.map (fun verses => (staves.1, layers.1, verses.1))))

/-- A traversal of the document that is filtered by a staff number and a layer
number. -/
def layerPass (functor : FunctorName) (p : Int × Int) : Event :=
  Event.process functor ProcessRoot.doc false [(ClassId.STAFF, p.1), (ClassId.LAYER, p.2)]

/-- A traversal of the document that is filtered by a staff number, a layer number and a
verse number. -/
def versePass (functor : FunctorName) (p : Int × Int × Int) : Event :=
  Event.process functor ProcessRoot.doc false
    [(ClassId.STAFF, p.1), (ClassId.LAYER, p.2.1), (ClassId.VERSE, p.2.2)]

/-- Ascending order of pairs of numbers, by the first number and then by the second. -/
def pairBefore (a b : Int × Int) : Prop := a.1 < b.1 ∨ (a.1 = b.1 ∧ a.2 < b.2)

/-- Ascending order of triples of numbers, by the first number, then the second, then
the third. -/
def tripleBefore (a b : Int × Int × Int) : Prop :=
  a.1 < b.1 ∨ (a.1 = b.1 ∧ (a.2.1 < b.2.1 ∨ (a.2.1 = b.2.1 ∧ a.2.2 < b.2.2)))

/-- The state of `PrepareDrawing` after its first statement: the `ResetDrawing` pass has
run when the drawing preparation had been done before. -/
def Doc.afterResetPass (doc : Doc) : Doc :=
  if doc.m_drawingPreparationDone then
    doc.Process FunctorName.ResetDrawing ProcessRoot.doc false []
  else doc

/-- The list of spanning elements left pending by the backward traversal of
`PrepareDrawing`. -/
def Doc.spanningFirst (R : Resolvers) (doc : Doc) : List TimeSpanning :=
  R.prepareTimeSpanning true true doc.afterResetPass []

/-- The list of spanning elements that `PrepareDrawing` hands to the timestamps
traversal: what the backward traversal left, after the forward traversal when that one
runs. -/
def Doc.spanningRetried (R : Resolvers) (doc : Doc) : List TimeSpanning :=
  if (doc.spanningFirst R).isEmpty then []
  else
    R.prepareTimeSpanning false false
      (doc.afterResetPass.Process (FunctorName.PrepareTimeSpanning true) ProcessRoot.doc
        true [])
      (doc.spanningFirst R)

/-- The list of spanning elements left pending at the end of the resolution of the
spanning elements in `PrepareDrawing`, after the timestamps traversal. -/
def Doc.spanningPending (R : Resolvers) (doc : Doc) : List TimeSpanning :=
  (doc.afterResetPass.resolveTimeSpanning R).2

/-- The list of pairs left pending by the forward `PreparePlist` traversal of
`PrepareDrawing`. -/
def Doc.plistFirst (R : Resolvers) (doc : Doc) : List (String × String) :=
  R.preparePlist false true (doc.afterResetPass.resolveTimeSpanning R).1 []

/-- The list of pairs left pending at the end of the resolution of the lists in
`PrepareDrawing`: what the forward traversal left, after the backward traversal when
that one runs. -/
def Doc.plistPending (R : Resolvers) (doc : Doc) : List (String × String) :=
  if (doc.plistFirst R).isEmpty then []
  else
    R.preparePlist true false
      ((doc.afterResetPass.resolveTimeSpanning R).1.Process (FunctorName.PreparePlist true)
        ProcessRoot.doc false [])
      (doc.plistFirst R)

/-- The state of `PrepareDrawing` when the `PrepareProcessingLists` traversal runs: after
the reset pass, if any, the resolution of the spanning elements and of the lists, and
the cross-staff traversal. -/
def Doc.atProcessingLists (R : Resolvers) (doc : Doc) : Doc :=
  (Doc.resolvePlist R
    (Doc.resolveTimeSpanning R
      (if doc.m_drawingPreparationDone then
        doc.Process FunctorName.ResetDrawing ProcessRoot.doc false []
      else doc)).1).Process FunctorName.PrepareCrossStaff ProcessRoot.doc false []

/-- The state of `PrepareDrawing` when the `FillStaffCurrentTimeSpanning` traversal
runs: after the `PrepareProcessingLists` traversal, the passes by layer for the pointers
and the passes by verse for the lyrics. -/
def Doc.atRunningSpanning (R : Resolvers) (doc : Doc) : Doc :=
  Doc.forEachVerse (R.verseTree (doc.atProcessingLists R))
    (fun staffN layerN verseN doc =>
      doc.Process FunctorName.PrepareLyrics ProcessRoot.doc false
        [(ClassId.STAFF, staffN), (ClassId.LAYER, layerN), (ClassId.VERSE, verseN)])
    (Doc.forEachLayer (R.layerTree (doc.atProcessingLists R))
      (fun staffN layerN doc =>
        doc.Process FunctorName.PreparePointersByLayer ProcessRoot.doc false
          [(ClassId.STAFF, staffN), (ClassId.LAYER, layerN)])
      ((doc.atProcessingLists R).Process FunctorName.PrepareProcessingLists ProcessRoot.doc
        false []))

/-- The debug message of `PrepareDrawing` about spanning elements that could not be set
as running, when there is one. -/
def Doc.runningSpanningDebug (R : Resolvers) (doc : Doc) : List Event :=
  if (R.fillStaffCurrentTimeSpanning (doc.atRunningSpanning R)).isEmpty then []
  else
    [Event.logDebug
      (toString (R.fillStaffCurrentTimeSpanning (doc.atRunningSpanning R)).length
        ++ " time spanning elements could not be set as running")]

/-- Traversals with two staves, the second with two layers, and verses on the first
staff. -/
def sampleResolvers : Resolvers :=
  { prepareTimeSpanning := specPrepareTimeSpanning
    prepareTimestamps := specPrepareTimestamps
    preparePlist := fun _ _ _ pairs => pairs
    fillStaffCurrentTimeSpanning := fun _ => []
    layerTree := fun _ =>
      ⟨[(1, ⟨[(1, ())], by decide⟩), (2, ⟨[(1, ()), (2, ())], by decide⟩)], by decide⟩
    verseTree := fun _ =>
      ⟨[(1, ⟨[(1, ⟨[(1, ()), (2, ())], by decide⟩)], by decide⟩)], by decide⟩
    convertAnalyticalMarkup := fun doc _ _ _ => (doc.pages, []) }

/-- An event is a traversal with the given functor. -/
def Event.isPass (functor : FunctorName) : Event → Bool
  | Event.process f _ _ _ => decide (f = functor)
  | _ => false

/-- The `ResetDrawing` traversal of the document. -/
def resetDrawingPass : Event :=
  Event.process FunctorName.ResetDrawing ProcessRoot.doc false []

/-! ## Adjusting the position of a verse -/

/-- A Verse: of its state only the horizontal drawing position relative to its parent is
kept. -/
structure Verse where
  m_drawingXRel : Int := 0
deriving DecidableEq, Repr

/-- The function `GetDrawingXRel` of a verse. -/
def Verse.GetDrawingXRel (verse : Verse) : Int := verse.m_drawingXRel

/-- The function `SetDrawingXRel` of a verse. -/
def Verse.SetDrawingXRel (verse : Verse) (drawingXRel : Int) : Verse :=
  { verse with m_drawingXRel := drawingXRel }

/-- The function `Doc::GetDrawingUnit`. -/
def Doc.GetDrawingUnit (doc : Doc) (staffSize : Int) : Int :=
  Int.tdiv (doc.m_options.m_unit * staffSize) 100

/-- The function `Verse::AdjustPosition`: the verse afterwards, the value of `overlap`
afterwards (it is passed by reference) and the value returned; the assertion fails when
no document is given. -/
def Verse.AdjustPosition (verse : Verse) (overlap freeSpace : Int) (doc : Option Doc) :
    Except String (Verse × Int × Int) :=
  match doc with
  | none => throw "assert(doc)"
  | some doc =>
    let nextFreeSpace : Int := 0
    if overlap > 0 then
      if freeSpace > overlap then
        let verse := verse.SetDrawingXRel (verse.GetDrawingXRel - overlap)
        let overlap := 0
        pure (verse, overlap, nextFreeSpace)
      else if freeSpace > 0 then
        let verse := verse.SetDrawingXRel (verse.GetDrawingXRel - freeSpace)
        let overlap := overlap - freeSpace
        pure (verse, overlap, nextFreeSpace)
      else
        pure (verse, overlap, nextFreeSpace)
    else
      let nextFreeSpace := min (-overlap) (3 * doc.GetDrawingUnit 100)
      pure (verse, overlap, nextFreeSpace)

/-! ## A document without any timed event -/

/-- Traversals of a document in which the `GenerateTimemap` traversal finds no timed
event: the maps it fills stay empty. -/
def emptyTimemapTraversals : Traversals Nat :=
  { generateTimemap := fun _ => ⟨IntMap.empty, IntMap.empty, IntMap.empty, IntMap.empty⟩
    layerTree := fun _ => IntMap.empty
    generateMIDI := fun _ _ _ _ _ _ => [] }

/-! ## A score definition with one staff that is not numbered 1 -/

/-- A document of one part: its score definition has the staff definition 5 only, with a
label; the time map has been calculated. -/
def partDoc : Doc :=
  { pages := some [{ children := [{ children := [{ uuid := "m1", width := 100 }] }] }]
    m_drawingPage := some 0
    m_hasMidiTimemap := true
    m_scoreDef := { staffDefs := [{ n := 5, label := some "Viola" }] } }

/-- Traversals for `partDoc`: the layer tree has the staff 5 with one layer. -/
def partTraversals : Traversals Nat :=
  { generateTimemap := fun _ => ⟨sampleScoreTime, sampleOn, sampleOff, sampleTempo⟩
    layerTree := fun _ => ⟨[(5, ⟨[(1, ())], by decide⟩)], by decide⟩
    generateMIDI := fun _ _ _ midiTrack transSemi _ =>
      [{ track := midiTrack, tick := 0, key := 60 + transSemi, isOn := true }] }

/-! # Theorems -/

/-! ## Joining strings -/

theorem eachFollowedBy_append_singleton (sep : String) (l : List String) (x : String) :
    eachFollowedBy sep (l ++ [x]) = eachFollowedBy sep l ++ x ++ sep := by
  induction l with
  | nil => simp [eachFollowedBy]
  | cons a l ih => simp [eachFollowedBy, ih, String.append_assoc]

theorem joinWith_append_singleton (sep : String) (l : List String) (x : String) :
    joinWith sep (l ++ [x]) = eachFollowedBy sep l ++ x := by
  induction l with
  | nil => simp [joinWith, eachFollowedBy]
  | cons a l ih =>
    cases l with
    | nil => simp [joinWith, eachFollowedBy, String.append_assoc]
    | cons b l =>
      simp only [List.cons_append] at ih ⊢
      rw [joinWith, ih]
      simp [eachFollowedBy, String.append_assoc]

theorem appendIdArray_initial (ids : List String) (k : Nat) (hk : k + 1 ≤ ids.length)
    (out : String) :
    (List.range k).foldl
      (fun out ion =>
        let out := out ++ "\"" ++ ids.getD ion "" ++ "\""
        if (ion : Int) < (ids.length : Int) - 1 then out ++ ", " else out) out
      = out ++ eachFollowedBy ", " ((ids.take k).map quoteId) := by
  induction k with
  | zero => simp [eachFollowedBy]
  | succ k ih =>
    have hlt : k < ids.length := by omega
    have hc : (k : Int) < (ids.length : Int) - 1 := by omega
    rw [List.range_succ, List.foldl_append, ih (by omega)]
    simp only [List.foldl_cons, List.foldl_nil, hc, if_true]
    rw [List.take_succ, List.getElem?_eq_getElem hlt]
    simp only [Option.toList, List.map_append, List.map_cons, List.map_nil,
      eachFollowedBy_append_singleton]
    simp [quoteId, String.append_assoc, List.getElem?_eq_getElem hlt]

/-- The loop over a vector of identifiers appends the quoted identifiers joined by a
comma and a blank. -/
theorem appendIdArray_eq (ids : List String) (out : String) :
    appendIdArray ids out = out ++ joinWith ", " (ids.map quoteId) := by
  rcases List.eq_nil_or_concat ids with h | ⟨l, x, h⟩
  · subst h; simp [appendIdArray, joinWith]
  · have hlen : ids.length = l.length + 1 := by simp [h]
    have hpre := appendIdArray_initial ids l.length (by omega) out
    unfold appendIdArray
    rw [hlen, List.range_succ, List.foldl_append, ← hlen, hpre]
    have hc : ¬ ((l.length : Int) < (ids.length : Int) - 1) := by omega
    simp only [List.foldl_cons, List.foldl_nil, hc, if_false]
    subst h
    simp [joinWith_append_singleton, quoteId, String.append_assoc]

/-! ## The main loop of PrepareJsonTimemap -/

/-- One iteration appends the text of one object and its line end, and makes the
emitted tempo, if any, the current one. -/
theorem timemapLoopBody_eq {D : Type} (toStringD : D → String)
    (onMap offMap : IntMap (List String)) (tempo : IntMap Int) (lastit : Int)
    (st : JsonLoop) (pos : Nat) (it : Int × D) :
    timemapLoopBody toStringD onMap offMap tempo lastit st pos it
      = ⟨(emittedTempo st.currentTempo (tempo.find it.1)).getD st.currentTempo,
          st.output
            ++ renderEntry toStringD
                ⟨it.1, it.2, emittedTempo st.currentTempo (tempo.find it.1),
                  onMap.find it.1, offMap.find it.1⟩
            ++ (if (pos : Int) = lastit then "\n" else ",\n")⟩ := by
  have e1 : ("\t\t\"tstamp\":\t" : String) = "\t\t" ++ "\"tstamp\":\t" := by decide
  have e2 : ("\t\t\"qstamp\":\t" : String) = "\t\t" ++ "\"qstamp\":\t" := by decide
  have e3 : (",\n\t\t\"tempo\":\t" : String) = ",\n" ++ ("\t\t" ++ "\"tempo\":\t") := by
    decide
  have e4 : (",\n\t\t\"on\":\t[" : String) = ",\n" ++ ("\t\t" ++ ("\"on\":\t" ++ "[")) := by
    decide
  have e5 : (",\n\t\t\"off\":\t[" : String) = ",\n" ++ ("\t\t" ++ ("\"off\":\t" ++ "[")) := by
    decide
  unfold timemapLoopBody
  cases ht : tempo.find it.1 <;> cases hon : onMap.find it.1 <;>
    cases hoff : offMap.find it.1 <;>
    simp only [emittedTempo, renderEntry, TimemapEntry.fields, optField, Option.map,
      Option.getD, List.append_nil, List.map_cons, List.map_nil, List.cons_append,
      List.nil_append, joinWith, appendIdArray_eq, renderIdArray] <;>
    (try split_ifs) <;>
    simp only [e1, e2, e3, e4, e5, String.append_assoc, List.append_eq, List.append_nil,
      List.nil_append, List.cons_append, List.map_cons, List.map_nil, joinWith]

theorem timemapLoop_output {D : Type} (toStringD : D → String)
    (onMap offMap : IntMap (List String)) (tempo : IntMap Int) (lastit : Int) :
    ∀ (rest : List (Int × D)) (it : Int × D) (n : Nat) (st : JsonLoop),
      lastit = (n : Int) + rest.length →
      ((List.enumFrom n (it :: rest)).foldl
          (fun st p => timemapLoopBody toStringD onMap offMap tempo lastit st p.1 p.2)
          st).output
        = st.output
            ++ joinWith ",\n"
                ((timemapEntriesFrom onMap offMap tempo st.currentTempo (it :: rest)).map
                  (renderEntry toStringD))
            ++ "\n" := by
  intro rest
  induction rest with
  | nil =>
    intro it n st h
    have hpos : (n : Int) = lastit := by simp [h]
    simp only [List.enumFrom, List.foldl_cons, List.foldl_nil, timemapLoopBody_eq, hpos,
      if_true, timemapEntriesFrom, List.map_cons, List.map_nil, joinWith]
  | cons it2 rest ih =>
    intro it n st h
    have hpos : ¬ ((n : Int) = lastit) := by
      simp only [List.length_cons, Nat.cast_add, Nat.cast_one] at h
      omega
    have h2 : lastit = ((n + 1 : Nat) : Int) + rest.length := by
      simp only [List.length_cons, Nat.cast_add, Nat.cast_one] at h ⊢
      omega
    rw [List.enumFrom, List.foldl_cons, ih it2 (n + 1) _ h2, timemapLoopBody_eq]
    simp only [hpos, if_false, timemapEntriesFrom, List.map_cons, joinWith,
      String.append_assoc]

/-- For a map with an entry, the text written by `PrepareJsonTimemap` is the rendering of
its array of objects; for the empty map the decrement of `end()` is undefined. -/
theorem PrepareJsonTimemap_eq_render {D : Type} (toStringD : D → String)
    (m : IntMap D) (onMap offMap : IntMap (List String)) (tempo : IntMap Int) :
    PrepareJsonTimemap toStringD m onMap offMap tempo
      = if m.entries.isEmpty then .error prevEndUndefined
        else .ok (renderTimemap toStringD (timemapEntries m onMap offMap tempo)) := by
  unfold PrepareJsonTimemap timemapEntries renderTimemap IntMap.prevEnd
  cases hm : m.entries with
  | nil => simp [bind, Except.bind, throw, throwThe, MonadExceptOf.throw]
  | cons it rest =>
    have hlast : ((m.size : Int) - 1) = ((0 : Nat) : Int) + rest.length := by
      simp [IntMap.size, hm]
    simp only [List.enum, List.isEmpty_cons, Bool.false_eq_true, if_false, bind, Except.bind,
      pure, Except.pure]
    rw [timemapLoop_output toStringD onMap offMap tempo _ rest it 0 _ hlast]
    simp [timemapEntriesFrom, String.append_assoc]

/-! ## The objects of the time map -/

theorem timemapEntriesFrom_stamps {D : Type} (onMap offMap : IntMap (List String))
    (tempo : IntMap Int) :
    ∀ (l : List (Int × D)) (c : Int),
      (timemapEntriesFrom onMap offMap tempo c l).map (fun e => (e.tstamp, e.qstamp)) = l := by
  intro l
  induction l with
  | nil => intro c; rfl
  | cons it rest ih => intro c; simp [timemapEntriesFrom, ih]

theorem timemapEntries_tstamps {D : Type} (m : IntMap D)
    (onMap offMap : IntMap (List String)) (tempo : IntMap Int) :
    (timemapEntries m onMap offMap tempo).map (fun e => e.tstamp) = m.entries.map Prod.fst := by
  have h := timemapEntriesFrom_stamps onMap offMap tempo m.entries (-1000)
  have h2 := congrArg (List.map Prod.fst) h
  simpa [timemapEntries, List.map_map, Function.comp_def] using h2

theorem timemapEntriesFrom_mem {D : Type} (onMap offMap : IntMap (List String))
    (tempo : IntMap Int) :
    ∀ (l : List (Int × D)) (c : Int) (e : TimemapEntry D),
      e ∈ timemapEntriesFrom onMap offMap tempo c l →
        (∃ c2, e.tempo = emittedTempo c2 (tempo.find e.tstamp))
          ∧ e.onIds = onMap.find e.tstamp ∧ e.offIds = offMap.find e.tstamp := by
  intro l
  induction l with
  | nil => intro c e h; simp [timemapEntriesFrom] at h
  | cons it rest ih =>
    intro c e h
    simp only [timemapEntriesFrom, List.mem_cons] at h
    rcases h with h | h
    · subst h; exact ⟨⟨c, rfl⟩, rfl, rfl⟩
    · exact ih _ e h

/-- The tempo last emitted, counted from a given current tempo. -/
theorem lastEmitted_cons {D : Type} (c : Int) (e : TimemapEntry D)
    (es : List (TimemapEntry D)) :
    (((e :: es).filterMap (fun e => e.tempo)).getLast?).getD c
      = ((es.filterMap (fun e => e.tempo)).getLast?).getD (e.tempo.getD c) := by
  cases ht : e.tempo with
  | none => simp [List.filterMap_cons, ht]
  | some v =>
    simp only [List.filterMap_cons, ht, Option.getD_some]
    cases hx : es.filterMap (fun e => e.tempo) with
    | nil => simp
    | cons a xs => simp [List.getLast?_cons_cons, List.getLast?_eq_getLast _ (List.cons_ne_nil a xs)]

theorem timemapEntriesFrom_tempo {D : Type} (onMap offMap : IntMap (List String))
    (tempo : IntMap Int) :
    ∀ (l : List (Int × D)) (c : Int) (i : Nat)
      (h : i < (timemapEntriesFrom onMap offMap tempo c l).length),
      ((timemapEntriesFrom onMap offMap tempo c l)[i]).tempo
        = emittedTempo
            ((((timemapEntriesFrom onMap offMap tempo c l).take i).filterMap
                (fun e => e.tempo)).getLast?.getD c)
            (tempo.find ((timemapEntriesFrom onMap offMap tempo c l)[i]).tstamp) := by
  intro l
  induction l with
  | nil => intro c i h; simp [timemapEntriesFrom] at h
  | cons it rest ih =>
    intro c i h
    cases i with
    | zero => simp [timemapEntriesFrom]
    | succ i =>
      simp only [timemapEntriesFrom, List.length_cons, Nat.add_lt_add_iff_right] at h
      simp only [timemapEntriesFrom, List.getElem_cons_succ, List.take_succ_cons]
      rw [lastEmitted_cons]
      exact ih _ i h

theorem timemapEntriesFrom_chain {D : Type} (onMap offMap : IntMap (List String))
    (tempo : IntMap Int) :
    ∀ (l : List (Int × D)) (c : Int),
      List.Chain (fun a b => a ≠ b) c
        ((timemapEntriesFrom onMap offMap tempo c l).filterMap (fun e => e.tempo)) := by
  intro l
  induction l with
  | nil => intro c; simp [timemapEntriesFrom]
  | cons it rest ih =>
    intro c
    simp only [timemapEntriesFrom, List.filterMap_cons]
    cases ht : emittedTempo c (tempo.find it.1) with
    | none => simpa using ih c
    | some v =>
      have hv : v ≠ c := by
        unfold emittedTempo at ht
        split at ht
        · split_ifs at ht with hne
          · cases ht; exact hne
        · cases ht
      simp only [Option.getD_some, List.chain_cons]
      exact ⟨fun h => hv h.symm, ih v⟩

/-! ## Claims on PrepareJsonTimemap -/

/-- Claim C1: for every input of `PrepareJsonTimemap` with an entry, the text written is
the array of the objects `timemapEntries` (nothing is written for the empty map, on
which the decrement of `end()` is undefined), and the `tstamp` values of these objects
are strictly increasing, both between successive objects and between any earlier and
later one. -/
theorem PrepareJsonTimemap_tstamp_strictly_increasing {D : Type} (toStringD : D → String)
    (m : IntMap D) (onMap offMap : IntMap (List String)) (tempo : IntMap Int) :
    PrepareJsonTimemap toStringD m onMap offMap tempo
        = (if m.entries.isEmpty then .error prevEndUndefined
          else .ok (renderTimemap toStringD (timemapEntries m onMap offMap tempo)))
      ∧ List.Chain' (fun a b => a.tstamp < b.tstamp) (timemapEntries m onMap offMap tempo)
      ∧ List.Pairwise (fun a b => a.tstamp < b.tstamp)
          (timemapEntries m onMap offMap tempo) := by
  have hp : List.Pairwise (fun a b => a.tstamp < b.tstamp)
      (timemapEntries m onMap offMap tempo) := by
    have h := m.ordered
    rw [← timemapEntries_tstamps m onMap offMap tempo, List.pairwise_map] at h
    exact h
  exact ⟨PrepareJsonTimemap_eq_render toStringD m onMap offMap tempo, hp.chain', hp⟩

/-- Claim C2: `PrepareJsonTimemap` writes one object per entry of the real-time map, in
the order of the map, which is the ascending order of the keys (nothing is written for
the empty map, on which the decrement of `end()` is undefined); the object carries the
key as `tstamp` and the mapped value as `qstamp`; and an object whose key has no record
in the tempo, on and off maps has exactly these two fields. -/
theorem PrepareJsonTimemap_one_object_per_key {D : Type} (toStringD : D → String)
    (m : IntMap D) (onMap offMap : IntMap (List String)) (tempo : IntMap Int) :
    PrepareJsonTimemap toStringD m onMap offMap tempo
        = (if m.entries.isEmpty then .error prevEndUndefined
          else .ok (renderTimemap toStringD (timemapEntries m onMap offMap tempo)))
      ∧ (timemapEntries m onMap offMap tempo).map (fun e => (e.tstamp, e.qstamp)) = m.entries
      ∧ (timemapEntries m onMap offMap tempo).length = m.size
      ∧ List.Pairwise (fun a b => a < b)
          ((timemapEntries m onMap offMap tempo).map (fun e => e.tstamp))
      ∧ ∀ e ∈ timemapEntries m onMap offMap tempo,
          tempo.find e.tstamp = none → onMap.find e.tstamp = none →
          offMap.find e.tstamp = none →
            e.fields toStringD
                = ["\"tstamp\":\t" ++ to_string e.tstamp, "\"qstamp\":\t" ++ toStringD e.qstamp]
              ∧ renderEntry toStringD e
                = "\t\x7b\n\t\t\"tstamp\":\t" ++ to_string e.tstamp
                    ++ ",\n\t\t\"qstamp\":\t" ++ toStringD e.qstamp ++ "\n\t\x7d" := by
  have hst := timemapEntriesFrom_stamps onMap offMap tempo m.entries (-1000)
  refine ⟨PrepareJsonTimemap_eq_render toStringD m onMap offMap tempo, hst, ?_, ?_, ?_⟩
  · have h := congrArg List.length hst
    simpa [IntMap.size, timemapEntries] using h
  · rw [timemapEntries_tstamps]; exact m.ordered
  · intro e he ht hon hoff
    obtain ⟨⟨c2, h1⟩, h2, h3⟩ := timemapEntriesFrom_mem onMap offMap tempo _ _ e he
    rw [ht] at h1
    rw [hon] at h2
    rw [hoff] at h3
    have e1 : ("\t\x7b\n\t\t\"tstamp\":\t" : String) = "\t\x7b\n" ++ ("\t\t" ++ "\"tstamp\":\t") := by
      decide
    have e2 : (",\n\t\t\"qstamp\":\t" : String) = ",\n" ++ ("\t\t" ++ "\"qstamp\":\t") := by
      decide
    have hf : e.fields toStringD
        = ["\"tstamp\":\t" ++ to_string e.tstamp, "\"qstamp\":\t" ++ toStringD e.qstamp] := by
      simp [TimemapEntry.fields, h1, h2, h3, emittedTempo, optField]
    refine ⟨hf, ?_⟩
    rw [renderEntry, hf]
    simp only [List.map_cons, List.map_nil, joinWith, e1, e2, String.append_assoc]

/-- Claim C3: the time map written for a map with an entry is the array of the objects
`timemapEntries`, and an object of the time map carries the tempo `v` exactly when the tempo map
has the value `v` at the real time of the object and `v` differs from the tempo last
emitted in an earlier object, or from -1000 when no earlier object carries a tempo; so
the first emitted tempo differs from -1000 and no two successively emitted tempo values
are equal. -/
theorem PrepareJsonTimemap_tempo_on_change {D : Type} (toStringD : D → String)
    (m : IntMap D) (onMap offMap : IntMap (List String)) (tempo : IntMap Int) :
    PrepareJsonTimemap toStringD m onMap offMap tempo
        = (if m.entries.isEmpty then .error prevEndUndefined
          else .ok (renderTimemap toStringD (timemapEntries m onMap offMap tempo)))
      ∧ (∀ (i : Nat) (h : i < (timemapEntries m onMap offMap tempo).length) (v : Int),
          ((timemapEntries m onMap offMap tempo)[i]).tempo = some v
            ↔ (tempo.find ((timemapEntries m onMap offMap tempo)[i]).tstamp = some v
                ∧ v ≠ lastEmittedTempo ((timemapEntries m onMap offMap tempo).take i)))
      ∧ List.Chain' (fun a b => a ≠ b)
          ((timemapEntries m onMap offMap tempo).filterMap (fun e => e.tempo))
      ∧ List.Chain (fun a b => a ≠ b) (-1000)
          ((timemapEntries m onMap offMap tempo).filterMap (fun e => e.tempo)) := by
  have hc := timemapEntriesFrom_chain onMap offMap tempo m.entries (-1000)
  refine ⟨PrepareJsonTimemap_eq_render toStringD m onMap offMap tempo, ?_, ?_, hc⟩
  · intro i h v
    have ht := timemapEntriesFrom_tempo onMap offMap tempo m.entries (-1000) i h
    unfold lastEmittedTempo
    unfold timemapEntries at h ⊢
    rw [ht]
    cases hf : tempo.find
        ((timemapEntriesFrom onMap offMap tempo (-1000) m.entries)[i]).tstamp with
    | none => simp [emittedTempo]
    | some w =>
      simp only [emittedTempo, Option.some.injEq]
      split_ifs with hne
      · exact ⟨fun hw => ⟨Option.some.inj hw, Option.some.inj hw ▸ hne⟩,
          fun hw => congrArg some hw.1⟩
      · constructor
        · intro hw; exact absurd hw (by simp)
        · intro hw
          obtain ⟨h1, h2⟩ := hw
          exact absurd (h1 ▸ h2) hne
  · exact (List.chain'_cons'.mp hc).2

/-! ## The time map line by line -/

theorem eachFollowedBy_append (sep : String) (l1 l2 : List String) :
    eachFollowedBy sep (l1 ++ l2) = eachFollowedBy sep l1 ++ eachFollowedBy sep l2 := by
  induction l1 with
  | nil => simp [eachFollowedBy]
  | cons a l ih => simp [eachFollowedBy, ih, String.append_assoc]

theorem joinWith_comma_lines (l : List String) (h : l ≠ []) :
    joinWith ",\n" l ++ "\n" = eachFollowedBy "\n" (commaSeparated l) := by
  have e1 : (",\n" : String) = "," ++ "\n" := by decide
  induction l with
  | nil => exact absurd rfl h
  | cons a l ih =>
    cases l with
    | nil => simp [joinWith, commaSeparated, eachFollowedBy]
    | cons b l =>
      have ih2 := ih (List.cons_ne_nil b l)
      rw [joinWith, commaSeparated, eachFollowedBy, ← ih2]
      simp only [e1, String.append_assoc]

theorem renderEntry_lines {D : Type} (toStringD : D → String) (e : TimemapEntry D)
    (suffix : String) :
    renderEntry toStringD e ++ suffix ++ "\n"
      = eachFollowedBy "\n" (entryLines toStringD e ("\t\x7d" ++ suffix)) := by
  have e1 : ("\t\x7b\n" : String) = "\t\x7b" ++ "\n" := by decide
  have e2 : ("\n\t\x7d" : String) = "\n" ++ "\t\x7d" := by decide
  have hne : (e.fields toStringD).map (fun f => "\t\t" ++ f) ≠ [] := by
    simp [TimemapEntry.fields]
  have hj := joinWith_comma_lines _ hne
  unfold renderEntry entryLines
  rw [eachFollowedBy_append, eachFollowedBy_append, ← hj]
  simp only [eachFollowedBy, e1, e2, String.append_assoc, String.append_empty]

theorem renderTimemap_lines {D : Type} (toStringD : D → String) :
    ∀ (es : List (TimemapEntry D)), es ≠ [] →
      joinWith ",\n" (es.map (renderEntry toStringD)) ++ "\n"
        = eachFollowedBy "\n" (timemapObjectLines toStringD es) := by
  have e1 : (",\n" : String) = "," ++ "\n" := by decide
  intro es
  induction es with
  | nil => intro h; exact absurd rfl h
  | cons e es ih =>
    intro _
    cases es with
    | nil =>
      have h := renderEntry_lines toStringD e ""
      simp only [String.append_empty] at h
      simpa [joinWith, timemapObjectLines] using h
    | cons f es =>
      have ih2 := ih (List.cons_ne_nil f es)
      have h := renderEntry_lines toStringD e ","
      have e2 : ("\t\x7d" ++ "," : String) = "\t\x7d," := by decide
      rw [e2] at h
      simp only [List.map_cons] at ih2 ⊢
      rw [joinWith, timemapObjectLines, eachFollowedBy_append, ← ih2, ← h]
      simp only [e1, String.append_assoc]

theorem field_starts_with_quote {D : Type} (toStringD : D → String) (e : TimemapEntry D)
    (f : String) (hf : f ∈ e.fields toStringD) : ∃ r, f.data = '"' :: r := by
  have key : ∀ (k v : String), (∃ r, k.data = '"' :: r) → ∃ r, (k ++ v).data = '"' :: r := by
    intro k v hk
    obtain ⟨r, hr⟩ := hk
    exact ⟨r ++ v.data, by simp [String.data_append, hr]⟩
  have opt : ∀ (k : String) (o : Option String), (∃ r, k.data = '"' :: r) →
      f ∈ optField k o → ∃ r, f.data = '"' :: r := by
    intro k o hk hfo
    cases o with
    | none => simp [optField] at hfo
    | some v =>
      simp only [optField, List.mem_singleton] at hfo
      rw [hfo]; exact key k v hk
  simp only [TimemapEntry.fields, List.mem_append, List.mem_cons, List.mem_singleton,
    List.not_mem_nil, or_false] at hf
  rcases hf with ((((h | h) | h) | h) | h)
  · rw [h]; exact key _ _ ⟨_, rfl⟩
  · rw [h]; exact key _ _ ⟨_, rfl⟩
  · exact opt _ _ ⟨_, rfl⟩ h
  · exact opt _ _ ⟨_, rfl⟩ h
  · exact opt _ _ ⟨_, rfl⟩ h

theorem mem_commaSeparated (x : String) :
    ∀ (l : List String), x ∈ commaSeparated l → ∃ f ∈ l, x = f ∨ x = f ++ "," := by
  intro l
  induction l with
  | nil => intro h; simp [commaSeparated] at h
  | cons a l ih =>
    cases l with
    | nil =>
      intro h
      simp only [commaSeparated, List.mem_singleton] at h
      exact ⟨a, by simp, Or.inl h⟩
    | cons b l =>
      intro h
      simp only [commaSeparated, List.mem_cons] at h ih
      rcases h with h | h
      · exact ⟨a, by simp, Or.inr h⟩
      · obtain ⟨f, hf, hx⟩ := ih h
        exact ⟨f, by simp only [List.mem_cons]; exact Or.inr hf, hx⟩

theorem entryLines_tabIndented {D : Type} (toStringD : D → String) (e : TimemapEntry D)
    (closing : String) (hc : closing = "\t\x7d" ∨ closing = "\t\x7d,") (line : String)
    (h : line ∈ entryLines toStringD e closing) : TabIndented line := by
  simp only [entryLines, List.mem_append, List.mem_singleton] at h
  rcases h with (h | h) | h
  · rw [h]; exact ⟨1, '\x7b', [], by decide, by decide⟩
  · obtain ⟨g, hg, hx⟩ := mem_commaSeparated line _ h
    simp only [List.mem_map] at hg
    obtain ⟨f, hf, hgf⟩ := hg
    obtain ⟨r, hr⟩ := field_starts_with_quote toStringD e f hf
    have h2 : ("\t\t" : String).data = List.replicate 2 '\t' := by decide
    rcases hx with hx | hx
    · exact ⟨2, '"', r, by rw [hx, ← hgf, String.data_append, hr, h2], by decide⟩
    · refine ⟨2, '"', r ++ [','], ?_, by decide⟩
      rw [hx, ← hgf, String.data_append, String.data_append, hr, h2]
      simp
  · rcases hc with hc | hc
    · rw [h, hc]; exact ⟨1, '\x7d', [], by decide, by decide⟩
    · rw [h, hc]; exact ⟨1, '\x7d', [','], by decide, by decide⟩

theorem timemapObjectLines_tabIndented {D : Type} (toStringD : D → String) (line : String) :
    ∀ (es : List (TimemapEntry D)), line ∈ timemapObjectLines toStringD es →
      TabIndented line := by
  intro es
  induction es with
  | nil => intro h; simp [timemapObjectLines] at h
  | cons e es ih =>
    cases es with
    | nil =>
      intro h
      exact entryLines_tabIndented toStringD e _ (Or.inl rfl) line h
    | cons f es =>
      intro h
      simp only [timemapObjectLines, List.mem_append] at h ih
      rcases h with h | h
      · exact entryLines_tabIndented toStringD e _ (Or.inr rfl) line h
      · exact ih h

/-- Claim C4: for a non-empty real-time map the text written by `PrepareJsonTimemap`
is the opening bracket, the objects joined by a comma and a newline, and after the last
object a newline and the closing bracket; the on and off arrays of an object are the
quoted identifiers recorded at its real time joined by a comma and a blank; and the
text is a sequence of lines each of which starts with tab characters only, followed by
a bracket, a brace or the double quote of a key. -/
theorem PrepareJsonTimemap_separators {D : Type} (toStringD : D → String)
    (m : IntMap D) (onMap offMap : IntMap (List String)) (tempo : IntMap Int)
    (hne : m.entries ≠ []) :
    PrepareJsonTimemap toStringD m onMap offMap tempo
        = .ok ("[\n"
            ++ joinWith ",\n" ((timemapEntries m onMap offMap tempo).map (renderEntry toStringD))
            ++ "\n]\n")
      ∧ (∀ e ∈ timemapEntries m onMap offMap tempo, ∀ ids,
          onMap.find e.tstamp = some ids →
            ("\"on\":\t" ++ ("[" ++ joinWith ", " (ids.map (fun id => "\"" ++ id ++ "\"")) ++ "]"))
              ∈ e.fields toStringD)
      ∧ (∀ e ∈ timemapEntries m onMap offMap tempo, ∀ ids,
          offMap.find e.tstamp = some ids →
            ("\"off\":\t" ++ ("[" ++ joinWith ", " (ids.map (fun id => "\"" ++ id ++ "\"")) ++ "]"))
              ∈ e.fields toStringD)
      ∧ PrepareJsonTimemap toStringD m onMap offMap tempo
          = .ok (eachFollowedBy "\n"
              (timemapLines toStringD (timemapEntries m onMap offMap tempo)))
      ∧ ∀ line ∈ timemapLines toStringD (timemapEntries m onMap offMap tempo),
          TabIndented line := by
  have hes : timemapEntries m onMap offMap tempo ≠ [] := by
    intro h
    have h2 := timemapEntriesFrom_stamps onMap offMap tempo m.entries (-1000)
    unfold timemapEntries at h
    rw [h] at h2
    exact hne h2.symm
  have hemp : (timemapEntries m onMap offMap tempo).isEmpty = false := by
    cases h : timemapEntries m onMap offMap tempo with
    | nil => exact absurd h hes
    | cons a l => rfl
  have e1 : ("\n]\n" : String) = "\n" ++ ("]" ++ "\n") := by decide
  have e2 : ("[\n" : String) = "[" ++ "\n" := by decide
  have e3 : ("]\n" : String) = "]" ++ "\n" := by decide
  have hme : m.entries.isEmpty = false := by
    cases h : m.entries with
    | nil => exact absurd h hne
    | cons a l => rfl
  have hr := PrepareJsonTimemap_eq_render toStringD m onMap offMap tempo
  rw [hme] at hr
  simp only [Bool.false_eq_true, if_false] at hr
  refine ⟨?_, ?_, ?_, ?_, ?_⟩
  · rw [hr, renderTimemap, hemp]
    simp only [Bool.false_eq_true, if_false, e1, e3, String.append_assoc]
  · intro e he ids hids
    obtain ⟨_, h2, _⟩ := timemapEntriesFrom_mem onMap offMap tempo _ _ e he
    rw [hids] at h2
    have hq : (fun id : String => "\"" ++ id ++ "\"") = quoteId := rfl
    rw [hq]
    simp [TimemapEntry.fields, h2, optField, renderIdArray]
  · intro e he ids hids
    obtain ⟨_, _, h3⟩ := timemapEntriesFrom_mem onMap offMap tempo _ _ e he
    rw [hids] at h3
    have hq : (fun id : String => "\"" ++ id ++ "\"") = quoteId := rfl
    rw [hq]
    simp [TimemapEntry.fields, h3, optField, renderIdArray]
  · have hl := renderTimemap_lines toStringD _ hes
    rw [hr, renderTimemap, hemp, timemapLines, eachFollowedBy_append, eachFollowedBy_append,
      ← hl]
    simp only [Bool.false_eq_true, if_false, eachFollowedBy, e2, e3, String.append_assoc,
      String.append_empty]
  · intro line h
    simp only [timemapLines, List.mem_append, List.mem_singleton] at h
    rcases h with (h | h) | h
    · rw [h]; exact ⟨0, '[', [], by decide, by decide⟩
    · exact timemapObjectLines_tabIndented toStringD line _ h
    · rw [h]; exact ⟨0, ']', [], by decide, by decide⟩

/-- The separators of claim C4 on a time map of three objects. -/
theorem PrepareJsonTimemap_separators_witness :
    sampleScoreTime.entries ≠ []
      ∧ PrepareJsonTimemap sampleToStringD sampleScoreTime sampleOn sampleOff sampleTempo
        = .ok ("[\n"
            ++ joinWith ",\n"
                ((timemapEntries sampleScoreTime sampleOn sampleOff sampleTempo).map
                  (renderEntry sampleToStringD))
            ++ "\n]\n") :=
  ⟨by decide,
    (PrepareJsonTimemap_separators sampleToStringD sampleScoreTime sampleOn sampleOff
      sampleTempo (by decide)).1⟩

/-! ## Export of the time map and of the MIDI file -/

/-- Claim C5: `ExportTimemap` first calculates the time map when the document has none
and fails when that calculation fails; on the state reached, when `HasMidiTimemap` is
still false it logs the warning, sets the output to the empty string and returns false,
the log showing no `GenerateTimemap` traversal; otherwise it runs that traversal and
returns true with the text that `PrepareJsonTimemap` writes for the maps it filled. -/
theorem ExportTimemap_failure_or_json {D : Type} (toStringD : D → String)
    (T : Traversals D) :
    (∀ doc d1 : Doc, doc.ensureMidiTimemap = .ok d1 →
        doc.ExportTimemap toStringD T = d1.exportTimemapChecked toStringD T)
      ∧ (∀ (doc : Doc) (e : String), doc.ensureMidiTimemap = .error e →
          doc.ExportTimemap toStringD T = .error e)
      ∧ (∀ d1 : Doc, d1.HasMidiTimemap = false →
          d1.exportTimemapChecked toStringD T
              = .ok (d1.record
                  (Event.logWarning "Calculation of MIDI timemap failed, not exporting MidiFile."),
                "", false)
            ∧ (d1.record
                (Event.logWarning
                  "Calculation of MIDI timemap failed, not exporting MidiFile.")).log
              = d1.log
                ++ [Event.logWarning "Calculation of MIDI timemap failed, not exporting MidiFile."])
      ∧ (∀ d1 : Doc, d1.HasMidiTimemap = true →
          d1.exportTimemapChecked toStringD T
            = (PrepareJsonTimemap toStringD (T.generateTimemap d1).realTimeToScoreTime
                  (T.generateTimemap d1).realTimeToOnElements
                  (T.generateTimemap d1).realTimeToOffElements
                  (T.generateTimemap d1).realTimeToTempo).map
                (fun output =>
                  (d1.Process FunctorName.GenerateTimemap ProcessRoot.doc false [], output,
                    true))) := by
  refine ⟨?_, ?_, ?_, ?_⟩
  · intro doc d1 h
    simp [Doc.ExportTimemap, h, bind, Except.bind]
  · intro doc e h
    simp [Doc.ExportTimemap, h, bind, Except.bind]
  · intro d1 h
    simp [Doc.exportTimemapChecked, h, Doc.record, pure, Except.pure]
  · intro d1 h
    simp only [Doc.exportTimemapChecked, h, Bool.not_true, Bool.false_eq_true, if_false, bind,
      Except.bind, pure, Except.pure, Except.map]

/-- The two branches of claim C5 on the sample document. -/
theorem ExportTimemap_failure_or_json_witness :
    (sampleDocNoTimemap.exportTimemapChecked sampleToStringD sampleTraversals
        = .ok (sampleDocNoTimemap.record
            (Event.logWarning "Calculation of MIDI timemap failed, not exporting MidiFile."),
          "", false))
      ∧ (sampleDocWithTimemap.exportTimemapChecked sampleToStringD sampleTraversals
        = (PrepareJsonTimemap sampleToStringD sampleScoreTime sampleOn sampleOff
              sampleTempo).map
            (fun output =>
              (sampleDocWithTimemap.Process FunctorName.GenerateTimemap ProcessRoot.doc false
                [], output, true))) :=
  ⟨((ExportTimemap_failure_or_json sampleToStringD sampleTraversals).2.2.1
      sampleDocNoTimemap (by decide)).1,
    (ExportTimemap_failure_or_json sampleToStringD sampleTraversals).2.2.2
      sampleDocWithTimemap (by decide)⟩

theorem exportMIDILayers_tempos {D : Type} (T : Traversals D)
    (staffN midiTrack transSemi tempo : Int) (layers : IntMap Unit) (doc : Doc)
    (midiFile : MidiFile) :
    (Doc.exportMIDILayers T staffN midiTrack transSemi tempo layers doc midiFile).2.tempos
      = midiFile.tempos := by
  unfold Doc.exportMIDILayers
  generalize layers.entries = l
  induction l generalizing doc midiFile with
  | nil => rfl
  | cons a l ih => rw [List.foldl_cons, ih]

theorem exportMIDIStaff_tempos {D : Type} (T : Traversals D) (tempo : Int)
    (st st2 : ExportMIDILoop) (staff : Int × IntMap Unit)
    (h : Doc.exportMIDIStaff T tempo st staff = .ok st2) :
    st2.midiFile.tempos = st.midiFile.tempos := by
  unfold Doc.exportMIDIStaff at h
  simp only [bind, Except.bind, pure, Except.pure] at h
  split at h
  · split at h
    · simp only [Except.ok.injEq] at h
      rw [← h]
      simp only [exportMIDILayers_tempos]
      split_ifs <;> rfl
    · split at h
      · cases h
      · simp only [Except.ok.injEq] at h
        rw [← h]
        simp only [exportMIDILayers_tempos]
        split <;> (try split_ifs) <;> rfl
  · simp only [Except.ok.injEq] at h
    rw [← h]
    simp only [exportMIDILayers_tempos]

/-- Whatever the value of `HasMidiTimemap` at the check, when the rest of `ExportMIDI`
returns, the tempo at tick 0 has been added to the MIDI file. -/
theorem exportMIDIChecked_adds_tempo {D : Type} (T : Traversals D) (doc : Doc)
    (midiFile : MidiFile) (r : Doc × MidiFile)
    (h : doc.exportMIDIChecked T midiFile = .ok r) :
    r.2.tempos = midiFile.tempos ++ [(0, 0, (doc.m_scoreDef.midiBpm).getD 120)] := by
  have hfold : ∀ (tempo : Int) (l : List (Int × IntMap Unit)) (st st2 : ExportMIDILoop),
      l.foldlM (Doc.exportMIDIStaff T tempo) st = .ok st2 →
        st2.midiFile.tempos = st.midiFile.tempos := by
    intro tempo l
    induction l with
    | nil =>
      intro st st2 h
      simp only [List.foldlM, pure, Except.pure, Except.ok.injEq] at h
      rw [h]
    | cons a l ih =>
      intro st st2 h
      simp only [List.foldlM, bind, Except.bind] at h
      split at h
      · cases h
      · rename_i st1 h1
        rw [ih st1 st2 h, exportMIDIStaff_tempos T tempo st st1 a h1]
  unfold Doc.exportMIDIChecked at h
  simp only [bind, Except.bind, pure, Except.pure] at h
  split at h
  · cases h
  · rename_i st hst
    simp only [Except.ok.injEq] at h
    rw [← h]
    have := hfold _ _ _ _ hst
    rw [this]
    cases hb : doc.m_hasMidiTimemap <;> cases hm : doc.m_scoreDef.midiBpm <;>
      simp [Doc.HasMidiTimemap, hb, hm, Doc.record, Doc.Process, MidiFile.addTempo]

/-! ## Collecting the score definitions -/

/-- Claim C7: in a state in which the score-def-collected flag is set,
`CollectScoreDefs(false)` returns the state unchanged, log of traversals included;
after any call of `CollectScoreDefs` the flag is set; hence a second call with
`force = false` right after a first call changes nothing and runs no traversal. -/
theorem CollectScoreDefs_second_call_noop (doc : Doc) :
    (doc.m_currentScoreDefDone = true → doc.CollectScoreDefs false = doc)
      ∧ (∀ force : Bool, (doc.CollectScoreDefs force).m_currentScoreDefDone = true)
      ∧ (∀ force : Bool,
          (doc.CollectScoreDefs force).CollectScoreDefs false = doc.CollectScoreDefs force)
      ∧ ((doc.CollectScoreDefs false).CollectScoreDefs false).log
          = (doc.CollectScoreDefs false).log
      ∧ (doc.m_currentScoreDefDone = false →
          ((doc.CollectScoreDefs false).CollectScoreDefs false).log
            = doc.log
              ++ [Event.process FunctorName.SetCurrentScoreDef ProcessRoot.upcomingScoreDef
                    false [],
                  Event.process FunctorName.SetCurrentScoreDef ProcessRoot.doc false []]) := by
  have hflag : ∀ (d : Doc) (force : Bool), (d.CollectScoreDefs force).m_currentScoreDefDone = true := by
    intro d force
    unfold Doc.CollectScoreDefs
    split_ifs with h
    · simp only [Bool.and_eq_true] at h
      exact h.1
    all_goals rfl
  have hnoop : ∀ d : Doc, d.m_currentScoreDefDone = true → d.CollectScoreDefs false = d := by
    intro d h
    simp [Doc.CollectScoreDefs, h]
  refine ⟨hnoop doc, hflag doc, ?_, ?_, ?_⟩
  · intro force
    exact hnoop _ (hflag doc force)
  · rw [hnoop _ (hflag doc false)]
  · intro h
    rw [hnoop _ (hflag doc false)]
    simp [Doc.CollectScoreDefs, h, Doc.Process, Doc.record]

/-- The second call of claim C7 on the sample document, whose flag is set by the first. -/
theorem CollectScoreDefs_second_call_noop_witness :
    (sampleDoc.CollectScoreDefs false).m_currentScoreDefDone = true
      ∧ (sampleDoc.CollectScoreDefs false).CollectScoreDefs false
          = sampleDoc.CollectScoreDefs false :=
  ⟨by decide,
    (CollectScoreDefs_second_call_noop (sampleDoc.CollectScoreDefs false)).1 (by decide)⟩

/-! ## The drawing page -/

/-- What a state keeps of another one when only the drawing page and its cached
geometry may differ. -/
theorem cacheDrawingPage_frame (doc : Doc) (i : Nat) (page : Page) :
    (doc.cacheDrawingPage i page).pages = doc.pages
      ∧ (doc.cacheDrawingPage i page).log = doc.log
      ∧ (doc.cacheDrawingPage i page).m_currentScoreDefDone = doc.m_currentScoreDefDone
      ∧ (doc.cacheDrawingPage i page).pgHead = doc.pgHead
      ∧ (doc.cacheDrawingPage i page).pgFoot = doc.pgFoot
      ∧ (doc.cacheDrawingPage i page).pgHead2 = doc.pgHead2
      ∧ (doc.cacheDrawingPage i page).pgFoot2 = doc.pgFoot2
      ∧ (doc.cacheDrawingPage i page).m_drawingPage = some i := by
  unfold Doc.cacheDrawingPage
  dsimp only
  refine ⟨?_, ?_, ?_, ?_, ?_, ?_, ?_, ?_⟩ <;> (split_ifs <;> rfl)

/-- Selecting a page that exists returns it and changes neither the tree, nor the log,
nor the score-def-collected flag. -/
theorem SetDrawingPage_ok (doc : Doc) (ps : List Page) (hps : doc.pages = some ps) (i : Nat)
    (page : Page) (hi : ps.get? i = some page) :
    ∃ d, doc.SetDrawingPage (i : Int) = .ok (d, some page)
      ∧ d.pages = some ps ∧ d.log = doc.log
      ∧ d.m_currentScoreDefDone = doc.m_currentScoreDefDone
      ∧ d.pgHead = doc.pgHead ∧ d.pgFoot = doc.pgFoot
      ∧ d.pgHead2 = doc.pgHead2 ∧ d.pgFoot2 = doc.pgFoot2
      ∧ d.m_drawingPage = some i := by
  have hlt : i < ps.length := by
    rcases Nat.lt_or_ge i ps.length with h | h
    · exact h
    · rw [List.get?_eq_none.mpr h] at hi; cases hi
  have hhas : doc.HasPage (i : Int) = .ok true := by
    simp [Doc.HasPage, Doc.GetPages, hps, hlt]
  unfold Doc.SetDrawingPage
  simp only [hhas, bind, Except.bind, Doc.GetPages, hps, Bool.not_true, Bool.false_eq_true,
    if_false, Int.toNat_ofNat, hi]
  split_ifs with hsame
  · refine ⟨doc, rfl, hps, rfl, rfl, rfl, rfl, rfl, rfl, ?_⟩
    simp only [Bool.and_eq_true, beq_iff_eq] at hsame
    cases hd : doc.m_drawingPage with
    | none => rw [hd] at hsame; simp at hsame
    | some j =>
      rw [hd] at hsame
      simp only [Option.map_some', Option.some.injEq, Int.ofNat_eq_coe, Nat.cast_inj] at hsame
      rw [hsame.2]
  · obtain ⟨h1, h2, h3, h4, h5, h6, h7, h8⟩ := cacheDrawingPage_frame doc i page
    exact ⟨_, rfl, h1.trans hps, h2, h3, h4, h5, h6, h7, h8⟩

/-! ## Casting off -/

/-- On an empty Pages container the two probe pages are measured and deleted again: the
container is empty afterwards, no drawing page is set, the score-def-collected flag is
kept and two vertical layouts are logged. -/
theorem CastOffRunningElements_ok (doc : Doc) (hps : doc.pages = some [])
    (params : CastOffPagesParams) :
    ∃ d params2, doc.CastOffRunningElements params = .ok (d, params2)
      ∧ d.pages = some [] ∧ d.m_drawingPage = none
      ∧ d.m_currentScoreDefDone = doc.m_currentScoreDefDone
      ∧ d.log = doc.log ++ [Event.layOutVertically, Event.layOutVertically] := by
  obtain ⟨d1, e1, p1, l1, f1, -⟩ :=
    SetDrawingPage_ok (doc.setPages ([] ++ [({} : Page)])) [{}] (by rfl) 0 {} (by rfl)
  obtain ⟨d2, e2, p2, l2, f2, -⟩ :=
    SetDrawingPage_ok ((d1.record Event.layOutVertically).setPages ([] ++ [({} : Page)] ++ [({} : Page)]))
      [{}, {}] (by rfl) 1 {} (by rfl)
  simp only [Nat.cast_zero, Nat.cast_one] at e1 e2
  unfold Doc.CastOffRunningElements
  simp only [Doc.GetPages, hps, List.length_nil, ne_eq, not_true_eq_false, if_false, bind,
    Except.bind, e1, e2, pure, Except.pure]
  refine ⟨_, _, rfl, rfl, rfl, ?_, ?_⟩
  · simp only [Doc.ResetDrawingPage, Doc.setPages, Doc.record] at f1 f2 ⊢
    rw [f2, f1]
  · simp only [Doc.ResetDrawingPage, Doc.setPages, Doc.record] at l1 l2 ⊢
    rw [l2, l1]
    simp

/-- A forced collection sets the flag, keeps the tree and the drawing page, and logs the
unset pass, when the flag was set, and then the two set passes. -/
theorem CollectScoreDefs_force (doc : Doc) :
    (doc.CollectScoreDefs true).m_currentScoreDefDone = true
      ∧ (doc.CollectScoreDefs true).pages = doc.pages
      ∧ (doc.CollectScoreDefs true).m_drawingPage = doc.m_drawingPage
      ∧ (doc.CollectScoreDefs true).log
          = doc.log ++ (if doc.m_currentScoreDefDone then [unsetCurrentScoreDefPass] else [])
              ++ [setUpcomingScoreDefPass, setCurrentScoreDefPass] := by
  cases h : doc.m_currentScoreDefDone <;>
    simp [Doc.CollectScoreDefs, h, Doc.Process, Doc.record, unsetCurrentScoreDefPass,
      setUpcomingScoreDefPass, setCurrentScoreDefPass]

theorem CollectScoreDefs_force_ends (doc : Doc) (h : doc.m_currentScoreDefDone = true) :
    EndsWithUnsetAndSet (doc.CollectScoreDefs true).log := by
  refine ⟨doc.log, ?_⟩
  rw [(CollectScoreDefs_force doc).2.2.2, h]
  simp

/-- A collection of either kind keeps the tree and the drawing page. -/
theorem CollectScoreDefs_frame (doc : Doc) (force : Bool) :
    (doc.CollectScoreDefs force).pages = doc.pages
      ∧ (doc.CollectScoreDefs force).m_drawingPage = doc.m_drawingPage := by
  cases h : doc.m_currentScoreDefDone <;> cases force <;>
    simp [Doc.CollectScoreDefs, h, Doc.Process, Doc.record]

theorem CastOffRunningElements_flag (doc d : Doc) (params params2 : CastOffPagesParams)
    (h : doc.CastOffRunningElements params = .ok (d, params2)) :
    d.m_currentScoreDefDone = doc.m_currentScoreDefDone := by
  have hps : doc.pages = some [] := by
    unfold Doc.CastOffRunningElements at h
    cases hp : doc.pages with
    | none => simp [Doc.GetPages, hp, throw, throwThe, MonadExceptOf.throw] at h
    | some ps =>
      cases ps with
      | nil => rfl
      | cons a l => simp [Doc.GetPages, hp, throw, throwThe, MonadExceptOf.throw] at h
  obtain ⟨d2, p2, e, -, -, hf, -⟩ := CastOffRunningElements_ok doc hps params
  rw [e] at h
  cases h
  exact hf

theorem CastOffDoc_inv (layout : Layout) (doc d : Doc) (h : doc.CastOffDoc layout = .ok d) :
    ∃ d0 : Doc, d0.m_currentScoreDefDone = true ∧ d = d0.CollectScoreDefs true := by
  unfold Doc.CastOffDoc at h
  simp only [bind, Except.bind, pure, Except.pure] at h
  split at h
  · simp [throw, throwThe, MonadExceptOf.throw] at h
  · split at h
    · cases h
    · rename_i r hr
      obtain ⟨d1, cp⟩ := r
      simp only at h
      split at h
      · simp [throw, throwThe, MonadExceptOf.throw] at h
      · split at h
        · simp [throw, throwThe, MonadExceptOf.throw] at h
        · split at h
          · cases h
          · rename_i r2 hr2
            obtain ⟨d3, p3⟩ := r2
            simp only [Except.ok.injEq] at h
            refine ⟨_, ?_, h.symm⟩
            have hf := CastOffRunningElements_flag _ _ _ _ hr2
            simp only [Doc.setPages, Doc.Process, Doc.record, Doc.ResetDrawingPage] at hf ⊢
            rw [hf]
            exact (CollectScoreDefs_force _).1

theorem SetDrawingPage_frame (doc d : Doc) (i : Int) (p : Option Page)
    (h : doc.SetDrawingPage i = .ok (d, p)) :
    d.m_currentScoreDefDone = doc.m_currentScoreDefDone ∧ d.log = doc.log
      ∧ d.pages = doc.pages := by
  unfold Doc.SetDrawingPage at h
  cases hp : doc.pages with
  | none => simp [Doc.HasPage, Doc.GetPages, hp, bind, Except.bind] at h
  | some ps =>
    simp only [Doc.HasPage, Doc.GetPages, hp, bind, Except.bind, pure, Except.pure] at h
    split_ifs at h
    · cases h; exact ⟨rfl, rfl, hp⟩
    · cases h; exact ⟨rfl, rfl, hp⟩
    · split at h
      · simp [throw, throwThe, MonadExceptOf.throw] at h
      · cases h
        obtain ⟨h1, h2, h3, -⟩ := cacheDrawingPage_frame doc i.toNat (by assumption)
        exact ⟨h3, h2, h1.trans hp⟩

theorem CastOffEncodingDoc_inv (doc d : Doc) (h : doc.CastOffEncodingDoc = .ok d) :
    ∃ d0 : Doc, d0.m_currentScoreDefDone = true ∧ d = d0.CollectScoreDefs true := by
  unfold Doc.CastOffEncodingDoc at h
  simp only [bind, Except.bind, pure, Except.pure] at h
  split at h
  · simp [throw, throwThe, MonadExceptOf.throw] at h
  · split at h
    · cases h
    · rename_i r hr
      obtain ⟨d1, cp⟩ := r
      simp only at h
      split at h
      · simp [throw, throwThe, MonadExceptOf.throw] at h
      · split at h
        · simp [throw, throwThe, MonadExceptOf.throw] at h
        · simp only [Except.ok.injEq] at h
          refine ⟨_, ?_, h.symm⟩
          have hf := (SetDrawingPage_frame _ _ _ _ hr).1
          simp only [Doc.setPages, Doc.Process, Doc.record, Doc.ResetDrawingPage]
          rw [hf]
          cases hd : doc.m_currentScoreDefDone <;>
            simp [Doc.CollectScoreDefs, hd, Doc.Process, Doc.record]

/-- The state that `UnCastOffDoc` returns for a document with a Pages container. -/
theorem UnCastOffDoc_eq (doc : Doc) (pages : List Page) (h : doc.pages = some pages) :
    doc.UnCastOffDoc
      = .ok ((((doc.Process FunctorName.UnCastOff ProcessRoot.doc false []).setPages
          [{ children := [{ children := measuresOfPages pages }] }]).ResetDrawingPage).CollectScoreDefs
            true) := by
  simp [Doc.UnCastOffDoc, Doc.GetPages, h, UnCastOffInto, UnCastOff, Page.AddChild,
    Doc.setPages, Doc.Process, Doc.record, pure, Except.pure]

theorem castOffSystemsLoop_measures (params : CastOffSystemsParams) :
    ∀ (ms : List Measure) (x shift : Int) (closed : List System) (current : System),
      (castOffSystemsLoop params x shift closed current ms).flatMap (fun s => s.children)
        = closed.flatMap (fun s => s.children) ++ current.children ++ ms := by
  intro ms
  induction ms with
  | nil => intro x shift closed current; simp [castOffSystemsLoop]
  | cons m rest ih =>
    intro x shift closed current
    unfold castOffSystemsLoop
    split_ifs
    · rw [ih]; simp
    · rw [ih]; simp

theorem castOffPagesLoop_measures (layout : Layout) (params : CastOffPagesParams) :
    ∀ (ss : List System) (budget used : Int) (closed : List Page) (current : Page),
      measuresOfPages (castOffPagesLoop layout params budget used closed current ss)
        = measuresOfPages closed ++ current.measures ++ ss.flatMap (fun s => s.children) := by
  intro ss
  induction ss with
  | nil => intro budget used closed current; simp [castOffPagesLoop, measuresOfPages]
  | cons s rest ih =>
    intro budget used closed current
    unfold castOffPagesLoop
    split_ifs
    · rw [ih]; simp [measuresOfPages, Page.measures]
    · rw [ih]; simp [measuresOfPages, Page.measures, Page.AddChild]

theorem SetDrawingPage_page (doc d : Doc) (i : Int) (page : Page)
    (h : doc.SetDrawingPage i = .ok (d, some page)) :
    ∃ ps, doc.pages = some ps ∧ ps.get? i.toNat = some page := by
  unfold Doc.SetDrawingPage at h
  cases hp : doc.pages with
  | none => simp [Doc.HasPage, Doc.GetPages, hp, bind, Except.bind] at h
  | some ps =>
    refine ⟨ps, rfl, ?_⟩
    simp only [Doc.HasPage, Doc.GetPages, hp, bind, Except.bind, pure, Except.pure] at h
    split_ifs at h
    · cases h
    · simp only [Except.ok.injEq, Prod.mk.injEq] at h
      exact h.2
    · split at h
      · simp [throw, throwThe, MonadExceptOf.throw] at h
      · rename_i pg hpg
        simp only [Except.ok.injEq, Prod.mk.injEq, Option.some.injEq] at h
        rw [hpg, h.2]

theorem CastOffRunningElements_inv (doc d : Doc) (params params2 : CastOffPagesParams)
    (h : doc.CastOffRunningElements params = .ok (d, params2)) :
    doc.pages = some [] ∧ d.pages = some [] ∧ d.m_drawingPage = none
      ∧ d.m_currentScoreDefDone = doc.m_currentScoreDefDone
      ∧ d.log = doc.log ++ [Event.layOutVertically, Event.layOutVertically] := by
  have hps : doc.pages = some [] := by
    unfold Doc.CastOffRunningElements at h
    cases hp : doc.pages with
    | none => simp [Doc.GetPages, hp, throw, throwThe, MonadExceptOf.throw] at h
    | some ps =>
      cases ps with
      | nil => rfl
      | cons a l => simp [Doc.GetPages, hp, throw, throwThe, MonadExceptOf.throw] at h
  obtain ⟨d2, p2, e, h1, h2, h3, h4⟩ := CastOffRunningElements_ok doc hps params
  rw [e] at h
  cases h
  exact ⟨hps, h1, h2, h3, h4⟩

/-- The pages that `CastOffDoc` leaves when it returns: the content page is the first
page on entry, its first system is the content system, and the Pages container holds
the pages formed from the systems formed from the content system. -/
theorem CastOffDoc_pages (layout : Layout) (doc d : Doc) (h : doc.CastOffDoc layout = .ok d) :
    ∃ (pages : List Page) (contentPage : Page) (contentSystem : System)
      (others : List System) (p1 : CastOffSystemsParams) (p2 : CastOffPagesParams),
      doc.pages = some pages ∧ pages.get? 0 = some contentPage
        ∧ contentPage.children = contentSystem :: others
        ∧ d.pages = some
            (CastOffPages layout p2
              (CastOffSystems p1 contentSystem
                (Page.AddChild { contentPage with children := others } {}))
              [{}])
        ∧ d.m_drawingPage = none := by
  unfold Doc.CastOffDoc at h
  simp only [bind, Except.bind, pure, Except.pure] at h
  split at h
  · simp [throw, throwThe, MonadExceptOf.throw] at h
  · split at h
    · cases h
    · rename_i r hr
      obtain ⟨d1, cp⟩ := r
      simp only at h
      split at h
      · simp [throw, throwThe, MonadExceptOf.throw] at h
      · rename_i contentPage
        split at h
        · simp [throw, throwThe, MonadExceptOf.throw] at h
        · rename_i contentSystem others hch
          split at h
          · cases h
          · rename_i r2 hr2
            obtain ⟨d3, p3⟩ := r2
            simp only [Except.ok.injEq] at h
            obtain ⟨ps, hps, hget⟩ := SetDrawingPage_page _ _ _ _ hr
            rw [(CollectScoreDefs_frame doc false).1] at hps
            obtain ⟨-, h3, h4, -, -⟩ := CastOffRunningElements_inv _ _ _ _ hr2
            have key := congrArg Doc.pages h
            rw [(CollectScoreDefs_frame _ true).1] at key
            simp only [Doc.setPages, Doc.Process, Doc.record, h3, Option.getD_some,
              List.nil_append] at key
            have key2 := congrArg Doc.m_drawingPage h
            rw [(CollectScoreDefs_frame _ true).2] at key2
            simp only [Doc.setPages, Doc.Process, Doc.record, h4] at key2
            exact ⟨ps, contentPage, contentSystem, others, _, _, hps, hget, hch, key.symm,
              key2.symm⟩

theorem CastOffRunningElements_error (doc : Doc) (params : CastOffPagesParams) (e : String)
    (h : doc.CastOffRunningElements params = .error e) : doc.pages ≠ some [] := by
  intro hps
  obtain ⟨d, p2, e2, -⟩ := CastOffRunningElements_ok doc hps params
  rw [e2] at h
  cases h

/-- On a document with one page whose first child is a system, `CastOffDoc` returns: no
assertion fails. -/
theorem CastOffDoc_returns (layout : Layout) (doc : Doc) (page0 : Page) (sys0 : System)
    (others : List System) (hp : doc.pages = some [page0])
    (hs : page0.children = sys0 :: others) : ∃ d, doc.CastOffDoc layout = .ok d := by
  have hpa : (doc.CollectScoreDefs false).pages = some [page0] := by
    rw [(CollectScoreDefs_frame doc false).1, hp]
  obtain ⟨db, eb, pb, -⟩ := SetDrawingPage_ok _ [page0] hpa 0 page0 (by rfl)
  simp only [Nat.cast_zero] at eb
  cases hres : doc.CastOffDoc layout with
  | ok d => exact ⟨d, rfl⟩
  | error e =>
    exfalso
    unfold Doc.CastOffDoc at hres
    simp only [bind, Except.bind, pure, Except.pure, eb, hs, Doc.GetPages, hpa] at hres
    split at hres
    · rename_i e2 hr2
      apply CastOffRunningElements_error _ _ _ hr2
      simp only [Doc.ResetDrawingPage, Doc.setPages, Doc.record, Doc.Process,
        (CollectScoreDefs_frame _ true).1, pb, Option.getD_some, List.set_cons_zero,
        List.eraseIdx_cons_zero]
    · cases hres

theorem sampleDoc_CastOffDoc : sampleDoc.CastOffDoc sampleLayout = .ok sampleCastDoc := by
  decide

theorem sampleCastDoc_pages :
    sampleCastDoc.pages
      = some
          [{ children := [{ children := [{ uuid := "m1", width := 100 },
              { uuid := "m2", width := 100 }] }] },
            { children := [{ children := [{ uuid := "m3", width := 100 }] }] }] := by
  decide

theorem unset_mem_of_endsWith (log : List Event) (h : EndsWithUnsetAndSet log) :
    unsetCurrentScoreDefPass ∈ log := by
  obtain ⟨earlier, he⟩ := h
  rw [he]
  simp

/-- The log that `UnCastOffDoc` leaves: the `UnCastOff` traversal, the unset pass when
the flag was set on entry, and the two set passes. -/
theorem UnCastOffDoc_log (doc d : Doc) (h : doc.UnCastOffDoc = .ok d) :
    d.m_currentScoreDefDone = true
      ∧ d.log = doc.log ++ [unCastOffPass]
          ++ (if doc.m_currentScoreDefDone then [unsetCurrentScoreDefPass] else [])
          ++ [setUpcomingScoreDefPass, setCurrentScoreDefPass] := by
  cases hp : doc.pages with
  | none => simp [Doc.UnCastOffDoc, Doc.GetPages, hp, throw, throwThe, MonadExceptOf.throw] at h
  | some pages =>
    rw [UnCastOffDoc_eq doc pages hp] at h
    simp only [Except.ok.injEq] at h
    rw [← h]
    refine ⟨(CollectScoreDefs_force _).1, ?_⟩
    rw [(CollectScoreDefs_force _).2.2.2]
    simp [Doc.ResetDrawingPage, Doc.setPages, Doc.Process, Doc.record, unCastOffPass]

/-- Claim C8, the counterexample: on the sample document, whose score-def-collected flag
is not set, `UnCastOffDoc` returns with the flag set but runs no `UnsetCurrentScoreDef`
pass, so its last traversals are not the unset pass followed by the set passes. -/
theorem UnCastOffDoc_without_unset_pass :
    ∃ d, sampleDoc.UnCastOffDoc = .ok d ∧ d.m_currentScoreDefDone = true
      ∧ d.log = [unCastOffPass, setUpcomingScoreDefPass, setCurrentScoreDefPass]
      ∧ unsetCurrentScoreDefPass ∉ d.log ∧ ¬ EndsWithUnsetAndSet d.log := by
  refine ⟨_, UnCastOffDoc_eq sampleDoc _ rfl, by decide, by decide, by decide, ?_⟩
  intro h
  exact absurd (unset_mem_of_endsWith _ h) (by decide)

/-- Claim C8 as amended: every casting-off operation that returns ends with the forced
collection of the score definitions, so the flag is set and the last two traversals are
the two `SetCurrentScoreDef` passes; in `CastOffDoc` and `CastOffEncodingDoc` the
`UnsetCurrentScoreDef` pass comes right before them, and in `UnCastOffDoc` it does
exactly when the flag was set on entry. -/
theorem castOff_operations_end_with_forced_collect (layout : Layout) (doc d : Doc) :
    (doc.CastOffDoc layout = .ok d →
        d.m_currentScoreDefDone = true ∧ EndsWithSet d.log ∧ EndsWithUnsetAndSet d.log)
      ∧ (doc.CastOffEncodingDoc = .ok d →
        d.m_currentScoreDefDone = true ∧ EndsWithSet d.log ∧ EndsWithUnsetAndSet d.log)
      ∧ (doc.UnCastOffDoc = .ok d →
        d.m_currentScoreDefDone = true ∧ EndsWithSet d.log
          ∧ (doc.m_currentScoreDefDone = true →
              d.log = doc.log ++ [unCastOffPass, unsetCurrentScoreDefPass,
                setUpcomingScoreDefPass, setCurrentScoreDefPass])
          ∧ (doc.m_currentScoreDefDone = false →
              d.log = doc.log ++ [unCastOffPass, setUpcomingScoreDefPass,
                setCurrentScoreDefPass])) := by
  have hset : ∀ log : List Event, EndsWithUnsetAndSet log → EndsWithSet log := by
    intro log h
    obtain ⟨earlier, he⟩ := h
    exact ⟨earlier ++ [unsetCurrentScoreDefPass], by rw [he]; simp⟩
  have hforce : ∀ d0 : Doc, d0.m_currentScoreDefDone = true → d = d0.CollectScoreDefs true →
      d.m_currentScoreDefDone = true ∧ EndsWithSet d.log ∧ EndsWithUnsetAndSet d.log := by
    intro d0 h0 hd
    rw [hd]
    exact ⟨(CollectScoreDefs_force d0).1, hset _ (CollectScoreDefs_force_ends d0 h0),
      CollectScoreDefs_force_ends d0 h0⟩
  refine ⟨?_, ?_, ?_⟩
  · intro h
    obtain ⟨d0, h0, hd⟩ := CastOffDoc_inv layout doc d h
    exact hforce d0 h0 hd
  · intro h
    obtain ⟨d0, h0, hd⟩ := CastOffEncodingDoc_inv doc d h
    exact hforce d0 h0 hd
  · intro h
    obtain ⟨hf, hl⟩ := UnCastOffDoc_log doc d h
    refine ⟨hf, ?_, ?_, ?_⟩
    · refine ⟨doc.log ++ [unCastOffPass]
        ++ (if doc.m_currentScoreDefDone then [unsetCurrentScoreDefPass] else []), ?_⟩
      rw [hl]
    · intro hd
      rw [hl, hd]
      simp
    · intro hd
      rw [hl, hd]
      simp

/-- The amended claim C8 on the sample document: `CastOffDoc` returns, the flag is set
and the last three traversals are the unset pass and the two set passes. -/
theorem castOff_operations_end_with_forced_collect_witness :
    sampleDoc.CastOffDoc sampleLayout = .ok sampleCastDoc
      ∧ sampleCastDoc.m_currentScoreDefDone = true ∧ EndsWithSet sampleCastDoc.log
      ∧ EndsWithUnsetAndSet sampleCastDoc.log :=
  ⟨sampleDoc_CastOffDoc,
    (castOff_operations_end_with_forced_collect sampleLayout sampleDoc sampleCastDoc).1
      sampleDoc_CastOffDoc⟩

/-- The tree that `UnCastOffDoc` leaves: one new page holding the new target system with
the measures of the earlier pages, and no drawing page. -/
theorem UnCastOffDoc_structure (doc : Doc) (pages : List Page) (h : doc.pages = some pages) :
    ∃ (d : Doc) (page : Page) (system : System),
      doc.UnCastOffDoc = .ok d
        ∧ d.pages = some [page] ∧ page.children = [system]
        ∧ page = { children := [system] }
        ∧ system = { children := measuresOfPages pages }
        ∧ d.m_drawingPage = none := by
  refine ⟨_, { children := [{ children := measuresOfPages pages }] },
    { children := measuresOfPages pages }, UnCastOffDoc_eq doc pages h, ?_, rfl, rfl, rfl, ?_⟩
  · rw [(CollectScoreDefs_frame _ true).1]
    rfl
  · rw [(CollectScoreDefs_frame _ true).2]
    rfl

/-- Claim C9: for a document with a Pages container holding any pages and systems,
`UnCastOffDoc` returns; afterwards the Pages container has exactly one child, a new
page, whose only child is the new target system, none of the earlier pages is left,
and no drawing page is set.  (The target system holds the measures of the earlier
pages in document order.) -/
theorem UnCastOffDoc_one_page_one_system (doc : Doc) (pages : List Page)
    (h : doc.pages = some pages) :
    ∃ (d : Doc) (page : Page) (system : System),
      doc.UnCastOffDoc = .ok d
        ∧ d.pages = some [page] ∧ page.children = [system]
        ∧ page = { children := [system] }
        ∧ system = { children := measuresOfPages pages }
        ∧ d.m_drawingPage = none := by
  exact UnCastOffDoc_structure doc pages h

/-- Claim C9 on the cast sample document, which has two pages. -/
theorem UnCastOffDoc_one_page_one_system_witness :
    ∃ (d : Doc) (page : Page) (system : System),
      sampleCastDoc.UnCastOffDoc = .ok d
        ∧ d.pages = some [page] ∧ page.children = [system]
        ∧ page = { children := [system] }
        ∧ system
          = { children :=
                measuresOfPages
                  [{ children := [{ children := [{ uuid := "m1", width := 100 },
                      { uuid := "m2", width := 100 }] }] },
                    { children := [{ children := [{ uuid := "m3", width := 100 }] }] }] }
        ∧ d.m_drawingPage = none :=
  UnCastOffDoc_one_page_one_system sampleCastDoc _ sampleCastDoc_pages

/-- Casting off an uncast document keeps the measures: the pages formed hold the measures
of the content system, in order. -/
theorem CastOffDoc_measures (layout : Layout) (doc d : Doc) (page0 : Page) (sys0 : System)
    (hp : doc.pages = some [page0]) (hs : page0.children = [sys0])
    (h : doc.CastOffDoc layout = .ok d) :
    ∃ ps, d.pages = some ps ∧ measuresOfPages ps = sys0.children := by
  obtain ⟨pages, contentPage, contentSystem, others, p1, p2, h1, h2, h3, h4, -⟩ :=
    CastOffDoc_pages layout doc d h
  rw [hp] at h1
  cases h1
  simp only [List.get?_cons_zero, Option.some.injEq] at h2
  subst h2
  rw [hs] at h3
  simp only [List.cons.injEq] at h3
  obtain ⟨h5, h6⟩ := h3
  subst h5
  subst h6
  refine ⟨_, h4, ?_⟩
  simp only [CastOffPages, CastOffSystems, Page.AddChild, List.nil_append,
    List.getLast?_singleton, List.dropLast_single, castOffPagesLoop_measures,
    castOffSystemsLoop_measures]
  simp [measuresOfPages, Page.measures]

/-- Claim C10: for every uncast document, one page holding one system, and every layout
and size options, `CastOffDoc` returns, `UnCastOffDoc` applied to its result returns,
and the document then has exactly one page with exactly one system whose measures are
those of the system before `CastOffDoc`, the same measures in the same order. -/
theorem CastOffDoc_UnCastOffDoc_round_trip (layout : Layout) (doc : Doc) (page0 : Page)
    (sys0 : System) (hp : doc.pages = some [page0]) (hs : page0.children = [sys0]) :
    ∃ (d1 d2 : Doc) (page : Page) (system : System),
      doc.CastOffDoc layout = .ok d1 ∧ d1.UnCastOffDoc = .ok d2
        ∧ d2.pages = some [page] ∧ page.children = [system]
        ∧ system.children = sys0.children := by
  obtain ⟨d1, h1⟩ := CastOffDoc_returns layout doc page0 sys0 [] hp hs
  obtain ⟨ps, hps, hm⟩ := CastOffDoc_measures layout doc d1 page0 sys0 hp hs h1
  obtain ⟨d2, page, system, h2, h3, h4, -, h5, -⟩ := UnCastOffDoc_structure d1 ps hps
  refine ⟨d1, d2, page, system, h1, h2, h3, h4, ?_⟩
  rw [h5, hm]

/-- The round trip of claim C10 on the sample document. -/
theorem CastOffDoc_UnCastOffDoc_round_trip_witness :
    ∃ (d1 d2 : Doc) (page : Page) (system : System),
      sampleDoc.CastOffDoc sampleLayout = .ok d1 ∧ d1.UnCastOffDoc = .ok d2
        ∧ d2.pages = some [page] ∧ page.children = [system]
        ∧ system.children
          = [{ uuid := "m1", width := 100 }, { uuid := "m2", width := 100 },
              { uuid := "m3", width := 100 }] :=
  CastOffDoc_UnCastOffDoc_round_trip sampleLayout sampleDoc
    { children :=
        [{ children := [{ uuid := "m1", width := 100 }, { uuid := "m2", width := 100 },
            { uuid := "m3", width := 100 }] }] }
    { children := [{ uuid := "m1", width := 100 }, { uuid := "m2", width := 100 },
        { uuid := "m3", width := 100 }] }
    (by rfl) (by rfl)

/-! ## Documents without a Pages container -/

/-- Claim C12: for a document that has no Pages container, `CastOffDoc`,
`CastOffEncodingDoc`, `UnCastOffDoc`, `HasPage` and `GetPageCount` all stop at the
assertion on the Pages container and return no result. -/
theorem no_pages_container_aborts (layout : Layout) (doc : Doc) (h : doc.pages = none) :
    doc.CastOffDoc layout = .error "assert(pages)"
      ∧ doc.CastOffEncodingDoc = .error "assert(pages)"
      ∧ doc.UnCastOffDoc = .error "assert(pages)"
      ∧ (∀ pageIdx : Int, doc.HasPage pageIdx = .error "assert(pages)")
      ∧ doc.GetPageCount = .error "assert(pages)" := by
  have hc : (doc.CollectScoreDefs false).pages = none := by
    rw [(CollectScoreDefs_frame doc false).1, h]
  refine ⟨?_, ?_, ?_, ?_, ?_⟩
  · simp [Doc.CastOffDoc, Doc.GetPages, hc, throw, throwThe, MonadExceptOf.throw]
  · simp [Doc.CastOffEncodingDoc, Doc.GetPages, hc, throw, throwThe, MonadExceptOf.throw]
  · simp [Doc.UnCastOffDoc, Doc.GetPages, h, throw, throwThe, MonadExceptOf.throw]
  · intro pageIdx
    simp [Doc.HasPage, Doc.GetPages, h]
  · simp [Doc.GetPageCount, Doc.GetPages, h]

/-- Claim C12 on a document that holds a score definition but no Pages container. -/
theorem no_pages_container_aborts_witness :
    ({ sampleDoc with pages := none } : Doc).CastOffDoc sampleLayout = .error "assert(pages)"
      ∧ ({ sampleDoc with pages := none } : Doc).CastOffEncodingDoc = .error "assert(pages)"
      ∧ ({ sampleDoc with pages := none } : Doc).UnCastOffDoc = .error "assert(pages)"
      ∧ (∀ pageIdx : Int,
          ({ sampleDoc with pages := none } : Doc).HasPage pageIdx = .error "assert(pages)")
      ∧ ({ sampleDoc with pages := none } : Doc).GetPageCount = .error "assert(pages)" :=
  no_pages_container_aborts sampleLayout { sampleDoc with pages := none } (by rfl)

/-! ## The adjusted size of the drawing page -/

/-- Claim C18: with a drawing page, the adjusted height is the content height plus the
top and bottom margins, and the adjusted width the content width plus the left and
right margins, each divided by the definition factor with truncation, when the document
is not of Transcription type; for a Transcription document they are the stored height
and width of the page divided by the definition factor. -/
theorem adjusted_drawing_page_size (factor : Int) (doc : Doc) (page : Page)
    (h : doc.GetDrawingPage = some page) :
    (doc.m_type ≠ DocType.Transcription →
        doc.GetAdjustedDrawingPageHeight factor
            = .ok (Int.tdiv (page.contentHeight + doc.m_drawingPageMarginTop
                + doc.m_drawingPageMarginBot) factor)
          ∧ doc.GetAdjustedDrawingPageWidth factor
            = .ok (Int.tdiv (page.contentWidth + doc.m_drawingPageMarginLeft
                + doc.m_drawingPageMarginRight) factor))
      ∧ (doc.m_type = DocType.Transcription →
        doc.GetAdjustedDrawingPageHeight factor = .ok (Int.tdiv page.m_pageHeight factor)
          ∧ doc.GetAdjustedDrawingPageWidth factor = .ok (Int.tdiv page.m_pageWidth factor)) := by
  constructor
  · intro ht
    simp [Doc.GetAdjustedDrawingPageHeight, Doc.GetAdjustedDrawingPageWidth, h, ht]
  · intro ht
    simp [Doc.GetAdjustedDrawingPageHeight, Doc.GetAdjustedDrawingPageWidth, h, ht]

/-- Claim C18 on the sample drawing page with a definition factor of 10: 2100 / 10 and
1505 / 10, truncated. -/
theorem adjusted_drawing_page_size_witness :
    sampleDrawingDoc.GetAdjustedDrawingPageHeight 10 = .ok 210
      ∧ sampleDrawingDoc.GetAdjustedDrawingPageWidth 10 = .ok 150 := by
  have h := (adjusted_drawing_page_size 10 sampleDrawingDoc
    { contentHeight := 2000, contentWidth := 1405, m_pageHeight := 2970, m_pageWidth := 2100 }
    (by decide)).1 (by decide)
  exact h

/-! ## The tempo of the time map and of the MIDI file -/

theorem SetDrawingPage_scoreDef (doc d : Doc) (i : Int) (p : Option Page)
    (h : doc.SetDrawingPage i = .ok (d, p)) :
    d.m_scoreDef = doc.m_scoreDef ∧ d.m_hasMidiTimemap = doc.m_hasMidiTimemap := by
  unfold Doc.SetDrawingPage at h
  cases hp : doc.pages with
  | none => simp [Doc.HasPage, Doc.GetPages, hp, bind, Except.bind] at h
  | some ps =>
    simp only [Doc.HasPage, Doc.GetPages, hp, bind, Except.bind, pure, Except.pure] at h
    split_ifs at h
    · cases h; exact ⟨rfl, rfl⟩
    · cases h; exact ⟨rfl, rfl⟩
    · split at h
      · simp [throw, throwThe, MonadExceptOf.throw] at h
      · cases h
        unfold Doc.cacheDrawingPage
        dsimp only
        constructor <;> (split_ifs <;> rfl)

/-- A page is returned for every index for which `HasPage` holds: `SetDrawingPage`
returns NULL only for an index out of range. -/
theorem SetDrawingPage_none (doc d : Doc) (i : Int) (h : doc.SetDrawingPage i = .ok (d, none)) :
    doc.HasPage i = .ok false := by
  unfold Doc.SetDrawingPage at h
  cases hp : doc.pages with
  | none => simp [Doc.HasPage, Doc.GetPages, hp, bind, Except.bind] at h
  | some ps =>
    simp only [Doc.HasPage, Doc.GetPages, hp, bind, Except.bind, pure, Except.pure] at h ⊢
    split_ifs at h with h1 h2
    · simp only [Bool.not_eq_true', Bool.and_eq_false_imp, decide_eq_true_eq,
        decide_eq_false_iff_not] at h1
      simp only [Except.ok.injEq, Bool.and_eq_false_imp, decide_eq_true_eq,
        decide_eq_false_iff_not]
      exact h1
    · exfalso
      simp only [Bool.not_eq_true', Bool.not_eq_false, Bool.and_eq_true,
        decide_eq_true_eq] at h1
      simp only [Except.ok.injEq, Prod.mk.injEq, true_and] at h
      have hlt : i.toNat < ps.length := by omega
      rw [List.get?_eq_none] at h
      omega
    · split at h
      · simp [throw, throwThe, MonadExceptOf.throw] at h
      · simp at h

/-- When `CalculateMidiTimemap` returns, it has run its three traversals on a state with
the score definition of the document: the early return is not taken. -/
theorem CalculateMidiTimemap_inv (doc d : Doc) (h : doc.CalculateMidiTimemap = .ok d) :
    ∃ d0 : Doc, d = d0.calculateTimemapPasses ∧ d0.m_scoreDef = doc.m_scoreDef := by
  unfold Doc.CalculateMidiTimemap at h
  simp only [bind, Except.bind, pure, Except.pure] at h
  split_ifs at h with hdp
  · split at h
    · cases h
    · rename_i count hcount
      split_ifs at h with h1
      · split at h
        · cases h
        · rename_i r hr
          obtain ⟨d1, page⟩ := r
          simp only at h
          split at h
          · exfalso
            have hn := SetDrawingPage_none _ _ _ hr
            cases hp : doc.pages with
            | none => simp [Doc.GetPageCount, Doc.GetPages, hp] at hcount
            | some ps =>
              simp only [Doc.GetPageCount, Doc.GetPages, hp, Except.ok.injEq] at hcount
              simp only [Doc.HasPage, Doc.GetPages, hp, Except.ok.injEq, Bool.and_eq_false_imp,
                decide_eq_true_eq, decide_eq_false_iff_not] at hn
              omega
          · simp only [Except.ok.injEq] at h
            refine ⟨_, h.symm, ?_⟩
            have hs := (SetDrawingPage_scoreDef _ _ _ _ hr).1
            cases hd : d1.m_currentScoreDefDone <;>
              simp [Doc.CollectScoreDefs, hd, Doc.Process, Doc.record, hs]
      · simp only [Except.ok.injEq] at h
        exact ⟨_, h.symm, rfl⟩
  · simp only [Except.ok.injEq] at h
    exact ⟨_, h.symm, rfl⟩

theorem calculateTimemapPasses_log (d0 : Doc) :
    (d0.calculateTimemapPasses).log
        = d0.log
          ++ [Event.process (FunctorName.CalcMaxMeasureDuration ((d0.m_scoreDef.midiBpm).getD 120))
                ProcessRoot.doc false [],
              Event.process FunctorName.CalcOnsetOffset ProcessRoot.doc false [],
              Event.process FunctorName.ResolveMIDITies ProcessRoot.doc true []]
      ∧ (d0.calculateTimemapPasses).m_hasMidiTimemap = true
      ∧ (d0.calculateTimemapPasses).m_scoreDef = d0.m_scoreDef := by
  cases h : d0.m_scoreDef.midiBpm <;>
    simp [Doc.calculateTimemapPasses, h, Doc.Process, Doc.record]

/-- Claim C17: the measure-duration pass of `CalculateMidiTimemap` is seeded with, and
`ExportMIDI` writes at tick 0 of track 0, the MIDI bpm of the document score definition
when it declares one and 120 otherwise. -/
theorem tempo_is_declared_bpm_or_120 {D : Type} (T : Traversals D) (doc : Doc) :
    (∀ d : Doc, doc.CalculateMidiTimemap = .ok d →
        ∃ earlier : List Event,
          d.log = earlier
            ++ [Event.process
                  (FunctorName.CalcMaxMeasureDuration ((doc.m_scoreDef.midiBpm).getD 120))
                  ProcessRoot.doc false [],
                Event.process FunctorName.CalcOnsetOffset ProcessRoot.doc false [],
                Event.process FunctorName.ResolveMIDITies ProcessRoot.doc true []])
      ∧ (∀ (midiFile : MidiFile) (r : Doc × MidiFile), doc.ExportMIDI T midiFile = .ok r →
          r.2.tempos = midiFile.tempos ++ [(0, 0, (doc.m_scoreDef.midiBpm).getD 120)])
      ∧ ((doc.m_scoreDef.midiBpm).getD 120
          = match doc.m_scoreDef.midiBpm with
            | some bpm => bpm
            | none => 120) := by
  refine ⟨?_, ?_, ?_⟩
  · intro d h
    obtain ⟨d0, hd, hs⟩ := CalculateMidiTimemap_inv doc d h
    refine ⟨d0.log, ?_⟩
    rw [hd, (calculateTimemapPasses_log d0).1, hs]
  · intro midiFile r h
    unfold Doc.ExportMIDI at h
    simp only [bind, Except.bind] at h
    split at h
    · cases h
    · rename_i d1 h1
      have hsd : d1.m_scoreDef = doc.m_scoreDef := by
        unfold Doc.ensureMidiTimemap at h1
        split_ifs at h1
        · obtain ⟨d0, hd, hs⟩ := CalculateMidiTimemap_inv doc d1 h1
          rw [hd, (calculateTimemapPasses_log d0).2.2, hs]
        · simp only [pure, Except.pure, Except.ok.injEq] at h1
          rw [← h1]
      rw [exportMIDIChecked_adds_tempo T d1 midiFile r h, hsd]
  · cases doc.m_scoreDef.midiBpm <;> rfl

/-- Claim C17 on the sample document, which declares no tempo: the MIDI file gets the
tempo 120 at tick 0. -/
theorem tempo_is_declared_bpm_or_120_witness :
    sampleDocWithTimemap.ExportMIDI sampleTraversals {}
        = .ok ((sampleDocWithTimemap.exportMIDIChecked sampleTraversals {}).toOption.getD
            (sampleDocWithTimemap, {}))
      ∧ ((sampleDocWithTimemap.exportMIDIChecked sampleTraversals {}).toOption.getD
            (sampleDocWithTimemap, {})).2.tempos
          = [(0, 0, 120)] := by
  have h : sampleDocWithTimemap.ExportMIDI sampleTraversals {}
      = .ok ((sampleDocWithTimemap.exportMIDIChecked sampleTraversals {}).toOption.getD
          (sampleDocWithTimemap, {})) := by decide
  exact ⟨h, (tempo_is_declared_bpm_or_120 sampleTraversals sampleDocWithTimemap).2.1 _ _ h⟩

/-! ## Tracks and sub-passes of the MIDI export -/

theorem exportMIDILayers_result {D : Type} (T : Traversals D)
    (staffN midiTrack transSemi tempo : Int) (layers : IntMap Unit) (doc : Doc)
    (midiFile : MidiFile) :
    (Doc.exportMIDILayers T staffN midiTrack transSemi tempo layers doc midiFile).1.log
        = doc.log ++ layers.entries.map
            (fun layer => generateMIDIPass staffN layer.1 midiTrack transSemi tempo)
      ∧ (Doc.exportMIDILayers T staffN midiTrack transSemi tempo layers doc midiFile).2.trackCount
        = midiFile.trackCount
      ∧ (Doc.exportMIDILayers T staffN midiTrack transSemi tempo layers doc midiFile).2.trackNames
        = midiFile.trackNames
      ∧ (Doc.exportMIDILayers T staffN midiTrack transSemi tempo layers doc midiFile).1.m_scoreDef
        = doc.m_scoreDef := by
  unfold Doc.exportMIDILayers
  generalize layers.entries = l
  induction l generalizing doc midiFile with
  | nil => simp
  | cons a l ih =>
    rw [List.foldl_cons]
    obtain ⟨h1, h2, h3, h4⟩ := ih
      (doc.Process (FunctorName.GenerateMIDI midiTrack transSemi tempo) ProcessRoot.doc false
        [(ClassId.STAFF, staffN), (ClassId.LAYER, a.1)])
      { midiFile with
        notes := midiFile.notes ++ T.generateMIDI doc staffN a.1 midiTrack transSemi tempo }
    refine ⟨?_, ?_, ?_, ?_⟩
    · rw [h1]; simp [Doc.Process, Doc.record, generateMIDIPass]
    · rw [h2]
    · rw [h3]
    · rw [h4]; rfl

/-- Every iteration over a staff runs one `GenerateMIDI` traversal per layer of the
staff, with the filters of the staff and the layer, and keeps the score definition. -/
theorem exportMIDIStaff_log {D : Type} (T : Traversals D) (tempo : Int)
    (st st2 : ExportMIDILoop) (staff : Int × IntMap Unit)
    (h : Doc.exportMIDIStaff T tempo st staff = .ok st2) :
    ∃ transSemi : Int,
      st2.doc.log = st.doc.log ++ staff.2.entries.map
          (fun layer => generateMIDIPass staff.1 layer.1 st2.midiTrack transSemi tempo)
        ∧ st2.doc.m_scoreDef = st.doc.m_scoreDef := by
  unfold Doc.exportMIDIStaff at h
  simp only [bind, Except.bind, pure, Except.pure] at h
  split at h
  · split at h
    · simp only [Except.ok.injEq] at h
      rw [← h]
      exact ⟨_, (exportMIDILayers_result _ _ _ _ _ _ _ _).1,
        (exportMIDILayers_result _ _ _ _ _ _ _ _).2.2.2⟩
    · split at h
      · cases h
      · simp only [Except.ok.injEq] at h
        rw [← h]
        exact ⟨_, (exportMIDILayers_result _ _ _ _ _ _ _ _).1,
          (exportMIDILayers_result _ _ _ _ _ _ _ _).2.2.2⟩
  · simp only [Except.ok.injEq] at h
    rw [← h]
    exact ⟨_, (exportMIDILayers_result _ _ _ _ _ _ _ _).1,
      (exportMIDILayers_result _ _ _ _ _ _ _ _).2.2.2⟩

theorem exportMIDI_loop_filters {D : Type} (T : Traversals D) (tempo : Int) :
    ∀ (l : List (Int × IntMap Unit)) (st st2 : ExportMIDILoop),
      l.foldlM (Doc.exportMIDIStaff T tempo) st = .ok st2 →
        ∃ events : List Event,
          st2.doc.log = st.doc.log ++ events
            ∧ events.map Event.generateMIDIFilters
              = (l.flatMap (fun staff => staff.2.entries.map
                  (fun layer => [(ClassId.STAFF, staff.1), (ClassId.LAYER, layer.1)]))).map
                    some := by
  intro l
  induction l with
  | nil =>
    intro st st2 h
    simp only [List.foldlM, pure, Except.pure, Except.ok.injEq] at h
    exact ⟨[], by rw [h]; simp, by simp⟩
  | cons a l ih =>
    intro st st2 h
    simp only [List.foldlM, bind, Except.bind] at h
    split at h
    · cases h
    · rename_i st1 h1
      obtain ⟨ts, hl1, -⟩ := exportMIDIStaff_log T tempo st st1 a h1
      obtain ⟨events, hl2, hf⟩ := ih st1 st2 h
      refine ⟨a.2.entries.map (fun layer => generateMIDIPass a.1 layer.1 st1.midiTrack ts tempo)
        ++ events, ?_, ?_⟩
      · rw [hl2, hl1, List.append_assoc]
      · rw [List.map_append, hf, List.flatMap_cons, List.map_append]
        congr 1
        simp [List.map_map, Function.comp_def, generateMIDIPass, Event.generateMIDIFilters]

/-- Claim C19: in the loop of `ExportMIDI`, a staff of the layer tree that has a staff
definition (with a label of its own or an enclosing staff group) gets exactly one new
track; the track is the number of the staff definition; the transposition of each of
its sub-passes is the declared semitone transposition, or 0; the track name is the text
of the own label, else of the label of the enclosing staff group, and is added only
when that text is not empty; and over the whole layer tree exactly one `GenerateMIDI`
traversal runs per pair of a staff and a layer, filtered by these two numbers. -/
theorem ExportMIDI_track_per_staff {D : Type} (T : Traversals D) (tempo : Int) :
    (∀ (st : ExportMIDILoop) (staff : Int × IntMap Unit) (staffDef : StaffDef),
        st.doc.m_scoreDef.GetStaffDef staff.1 = some staffDef →
        (staffDef.label.isSome ∨ staffDef.staffGrp.isSome) →
        ∃ st2 : ExportMIDILoop,
          Doc.exportMIDIStaff T tempo st staff = .ok st2
            ∧ st2.midiFile.trackCount = st.midiFile.trackCount + 1
            ∧ st2.midiTrack = staffDef.n
            ∧ st2.midiFile.trackNames
              = st.midiFile.trackNames
                ++ (match staffDef.trackLabel with
                    | some name => if name.isEmpty then [] else [(staffDef.n, 0, name)]
                    | none => [])
            ∧ st2.doc.log
              = st.doc.log ++ staff.2.entries.map
                  (fun layer =>
                    generateMIDIPass staff.1 layer.1 staffDef.n (staffDef.transSemi.getD 0)
                      tempo))
      ∧ (∀ (doc : Doc) (midiFile : MidiFile) (r : Doc × MidiFile),
          doc.exportMIDIChecked T midiFile = .ok r →
          ∃ (earlier events : List Event),
            r.1.log = earlier ++ events
              ∧ earlier
                = (if doc.HasMidiTimemap then doc.log
                    else doc.log ++ [Event.logWarning
                      "Calculation of MIDI timemap failed, not exporting MidiFile."])
                  ++ [Event.process FunctorName.PrepareProcessingLists ProcessRoot.doc false []]
              ∧ events.map Event.generateMIDIFilters
                = (LayerTree.filterPairs
                    (T.layerTree (if doc.HasMidiTimemap then doc
                      else doc.record (Event.logWarning
                        "Calculation of MIDI timemap failed, not exporting MidiFile.")))).map
                    some) := by
  constructor
  · intro st staff staffDef hsd hgrp
    unfold Doc.exportMIDIStaff
    simp only [bind, Except.bind, pure, Except.pure, hsd]
    cases hl : staffDef.label with
    | some text =>
      refine ⟨_, rfl, ?_, rfl, ?_, ?_⟩
      · rw [(exportMIDILayers_result _ _ _ _ _ _ _ _).2.1]
        cases text.isEmpty <;> rfl
      · rw [(exportMIDILayers_result _ _ _ _ _ _ _ _).2.2.1]
        simp only [StaffDef.trackLabel, hl]
        cases text.isEmpty <;> simp [MidiFile.addTrack, MidiFile.addTrackName]
      · rw [(exportMIDILayers_result _ _ _ _ _ _ _ _).1]
        cases staffDef.transSemi <;> rfl
    | none =>
      rw [hl] at hgrp
      cases hg : staffDef.staffGrp with
      | none => rw [hg] at hgrp; simp at hgrp
      | some grpLabel =>
        refine ⟨_, rfl, ?_, rfl, ?_, ?_⟩
        · rw [(exportMIDILayers_result _ _ _ _ _ _ _ _).2.1]
          cases grpLabel with
          | none => rfl
          | some name =>
            dsimp only
            split_ifs <;> rfl
        · rw [(exportMIDILayers_result _ _ _ _ _ _ _ _).2.2.1]
          simp only [StaffDef.trackLabel, hl, hg, Option.join]
          cases grpLabel with
          | none => simp [MidiFile.addTrack]
          | some name =>
            cases hn : name.isEmpty <;> simp [hn, MidiFile.addTrack, MidiFile.addTrackName]
        · rw [(exportMIDILayers_result _ _ _ _ _ _ _ _).1]
          cases staffDef.transSemi <;> rfl
  · intro doc midiFile r h
    unfold Doc.exportMIDIChecked at h
    simp only [bind, Except.bind, pure, Except.pure] at h
    split at h
    · cases h
    · rename_i st hst
      simp only [Except.ok.injEq] at h
      obtain ⟨events, hl, hf⟩ := exportMIDI_loop_filters T _ _ _ _ hst
      refine ⟨_, events, ?_, rfl, ?_⟩
      · rw [← h, hl]
        cases hb : doc.m_hasMidiTimemap <;>
          simp [Doc.HasMidiTimemap, hb, Doc.Process, Doc.record]
      · rw [hf]
        cases hb : doc.m_hasMidiTimemap <;>
          simp [Doc.HasMidiTimemap, hb, LayerTree.filterPairs]

/-- Claim C19 on the second staff of the sample document, which declares a transposition
and takes the track name from its staff group, which has no label. -/
theorem ExportMIDI_track_per_staff_witness :
    ∃ st2 : ExportMIDILoop,
      Doc.exportMIDIStaff sampleTraversals 120 ⟨sampleDocWithTimemap, {}, 1⟩
          (2, ⟨[(1, ())], by decide⟩) = .ok st2
        ∧ st2.midiFile.trackCount = 2 ∧ st2.midiTrack = 2
        ∧ st2.midiFile.trackNames = [] := by
  obtain ⟨st2, h1, h2, h3, h4, -⟩ :=
    (ExportMIDI_track_per_staff sampleTraversals 120).1 ⟨sampleDocWithTimemap, {}, 1⟩
      (2, ⟨[(1, ())], by decide⟩) { n := 2, transSemi := some (-2) } (by decide) (by decide)
  exact ⟨st2, h1, h2, h3, h4⟩

/-! ## The break rule of the systems -/

theorem widthOf_cons (m : Measure) (ms : List Measure) :
    widthOf (m :: ms) = m.width + widthOf ms := by
  simp [widthOf]

theorem GreedyBreaks_absorb (budget carry acc : Int) (current : List Measure) (m : Measure)
    (rest : List Measure) (hfit : acc + m.width ≤ budget) :
    ∀ groups : List (List Measure),
      GreedyBreaks budget carry (acc + m.width) (current ++ [m]) rest groups →
        GreedyBreaks budget carry acc current (m :: rest) groups := by
  have hall : ∀ r : List Measure, AllFit budget (acc + m.width) r → AllFit budget acc (m :: r) := by
    intro r hr p m2 q hsplit
    cases p with
    | nil =>
      simp only [List.nil_append, List.cons.injEq] at hsplit
      rw [← hsplit.1]
      simp [widthOf]
      exact hfit
    | cons a p =>
      simp only [List.cons_append, List.cons.injEq] at hsplit
      have := hr p m2 q hsplit.2
      rw [widthOf_cons, ← hsplit.1]
      omega
  intro groups h
  match groups, h with
  | [g], h =>
    obtain ⟨h1, h2⟩ := h
    exact ⟨by rw [h1]; simp, hall rest h2⟩
  | g :: g2 :: gs, h =>
    obtain ⟨r, m2, rest2, h1, h2, h3, h4, h5⟩ := h
    refine ⟨m :: r, m2, rest2, by rw [h1]; simp, by rw [h2]; simp, hall r h3, ?_, h5⟩
    rw [widthOf_cons]
    omega

/-- The systems that the loop forms follow the greedy break rule. -/
theorem castOffSystemsLoop_greedy (params : CastOffSystemsParams) :
    ∀ (ms : List Measure) (x shift : Int) (closed : List System) (current : System),
      ∃ formed : List System,
        castOffSystemsLoop params x shift closed current ms = closed ++ formed
          ∧ GreedyBreaks params.m_systemWidth params.m_currentScoreDefWidth
              (x + params.m_currentScoreDefWidth - shift) current.children ms
              (formed.map (fun s => s.children)) := by
  intro ms
  induction ms with
  | nil =>
    intro x shift closed current
    refine ⟨[current], by simp [castOffSystemsLoop], ?_⟩
    simp only [List.map_cons, List.map_nil, GreedyBreaks, List.append_nil, true_and]
    intro p m q h
    simp at h
  | cons m rest ih =>
    intro x shift closed current
    unfold castOffSystemsLoop
    split_ifs with hover
    · obtain ⟨formed, h1, h2⟩ := ih (x + m.width) x (closed ++ [current]) { children := [m] }
      refine ⟨current :: formed, by rw [h1]; simp, ?_⟩
      cases hf : formed.map (fun s => s.children) with
      | nil => rw [hf] at h2; exact absurd h2 (by simp [GreedyBreaks])
      | cons g2 gs =>
        rw [hf] at h2
        simp only [List.map_cons, hf, GreedyBreaks]
        refine ⟨[], m, rest, by simp, by simp, ?_, ?_, ?_⟩
        · intro p m2 q h
          simp at h
        · simp only [widthOf, List.map_nil, List.sum_nil]
          omega
        · have e : x + m.width + params.m_currentScoreDefWidth - x
              = params.m_currentScoreDefWidth + m.width := by omega
          rw [e] at h2
          exact h2
    · obtain ⟨formed, h1, h2⟩ := ih (x + m.width) shift closed
        { current with children := current.children ++ [m] }
      refine ⟨formed, h1, ?_⟩
      apply GreedyBreaks_absorb _ _ _ _ _ _ (by omega)
      have e : x + m.width + params.m_currentScoreDefWidth - shift
          = x + params.m_currentScoreDefWidth - shift + m.width := by omega
      rw [e] at h2
      exact h2

theorem castOffPagesLoop_systems (layout : Layout) (params : CastOffPagesParams) :
    ∀ (ss : List System) (budget used : Int) (closed : List Page) (current : Page),
      systemsOfPages (castOffPagesLoop layout params budget used closed current ss)
        = systemsOfPages closed ++ current.children ++ ss := by
  intro ss
  induction ss with
  | nil => intro budget used closed current; simp [castOffPagesLoop, systemsOfPages]
  | cons s rest ih =>
    intro budget used closed current
    unfold castOffPagesLoop
    split_ifs
    · rw [ih]; simp [systemsOfPages]
    · rw [ih]; simp [systemsOfPages, Page.AddChild]

/-- The pages that `CastOffDoc` leaves, with the parameters of the `CastOffSystems`
traversal spelled out: the system width is the width of the drawing page less its left
and right margins, the shift is minus the width of the labels, and the score-definition
width includes the width of the abbreviated labels. -/
theorem CastOffDoc_params (layout : Layout) (doc d : Doc) (h : doc.CastOffDoc layout = .ok d) :
    ∃ (d1 : Doc) (contentPage : Page) (contentSystem : System) (others : List System)
      (p2 : CastOffPagesParams),
      (doc.CollectScoreDefs false).SetDrawingPage 0 = .ok (d1, some contentPage)
        ∧ contentPage.children = contentSystem :: others
        ∧ d.pages = some
            (CastOffPages layout p2
              (CastOffSystems
                { m_systemWidth := d1.m_drawingPageWidth - d1.m_drawingPageMarginLeft
                    - d1.m_drawingPageMarginRight
                  m_shift := -contentSystem.drawingLabelsWidth
                  m_currentScoreDefWidth :=
                    contentPage.drawingScoreDefWidth + contentSystem.drawingAbbrLabelsWidth }
                contentSystem
                (Page.AddChild { contentPage with children := others } {}))
              [{}]) := by
  unfold Doc.CastOffDoc at h
  simp only [bind, Except.bind, pure, Except.pure] at h
  split at h
  · simp [throw, throwThe, MonadExceptOf.throw] at h
  · split at h
    · cases h
    · rename_i r hr
      obtain ⟨d1, cp⟩ := r
      simp only at h
      split at h
      · simp [throw, throwThe, MonadExceptOf.throw] at h
      · rename_i contentPage
        split at h
        · simp [throw, throwThe, MonadExceptOf.throw] at h
        · rename_i contentSystem others hch
          split at h
          · cases h
          · rename_i r2 hr2
            obtain ⟨d3, p3⟩ := r2
            simp only [Except.ok.injEq] at h
            obtain ⟨-, h3, -, -, -⟩ := CastOffRunningElements_inv _ _ _ _ hr2
            have key := congrArg Doc.pages h
            rw [(CollectScoreDefs_frame _ true).1] at key
            simp only [Doc.setPages, Doc.Process, Doc.record, h3, Option.getD_some,
              List.nil_append, sub_zero, Page.AddChild] at key
            exact ⟨d1, contentPage, contentSystem, others, _, hr, hch, key.symm⟩

theorem CastOffDoc_uncast_systems (layout : Layout) (doc d : Doc) (page0 : Page)
    (sys0 : System) (hp : doc.pages = some [page0]) (hs : page0.children = [sys0])
    (h : doc.CastOffDoc layout = .ok d) :
    ∃ (d1 : Doc) (ps : List Page),
      (doc.CollectScoreDefs false).SetDrawingPage 0 = .ok (d1, some page0)
        ∧ d.pages = some ps
        ∧ systemsOfPages ps
          = castOffSystemsLoop
              { m_systemWidth := d1.m_drawingPageWidth - d1.m_drawingPageMarginLeft
                  - d1.m_drawingPageMarginRight
                m_shift := -sys0.drawingLabelsWidth
                m_currentScoreDefWidth :=
                  page0.drawingScoreDefWidth + sys0.drawingAbbrLabelsWidth }
              0 (-sys0.drawingLabelsWidth) [] {} sys0.children := by
  obtain ⟨d1, contentPage, contentSystem, others, p2, h1, h2, h3⟩ :=
    CastOffDoc_params layout doc d h
  obtain ⟨ps, hps, hget⟩ := SetDrawingPage_page _ _ _ _ h1
  rw [(CollectScoreDefs_frame doc false).1, hp] at hps
  cases hps
  simp only [Int.toNat_zero, List.get?_cons_zero, Option.some.injEq] at hget
  subst hget
  rw [hs] at h2
  simp only [List.cons.injEq] at h2
  obtain ⟨h5, h6⟩ := h2
  subst h5
  subst h6
  refine ⟨d1, _, h1, h3, ?_⟩
  simp only [CastOffPages, CastOffSystems, Page.AddChild, List.nil_append,
    List.getLast?_singleton, List.dropLast_single, castOffPagesLoop_systems]
  simp [systemsOfPages]

/-- Claim C11: the systems that `CastOffDoc` forms follow the greedy rule with a strict
threshold.  A new system is opened in front of a measure exactly when the width
accumulated in the current system, that measure included, is strictly greater than the
system width; two measures that fit exactly stay in one system, and with one unit more
the second measure opens a new system; three measures of width 100 with a system width
of 250 and no labels give a system with the first two measures and one with the
third. -/
theorem CastOffDoc_breaks_on_strict_overflow (layout : Layout) :
    (∀ (params : CastOffSystemsParams) (ms : List Measure) (x shift : Int)
        (closed : List System) (current : System),
        ∃ formed : List System,
          castOffSystemsLoop params x shift closed current ms = closed ++ formed
            ∧ GreedyBreaks params.m_systemWidth params.m_currentScoreDefWidth
                (x + params.m_currentScoreDefWidth - shift) current.children ms
                (formed.map (fun s => s.children)))
      ∧ (∀ (doc d : Doc) (page0 : Page) (sys0 : System),
          doc.pages = some [page0] → page0.children = [sys0] →
          doc.CastOffDoc layout = .ok d →
          ∃ (d1 : Doc) (ps : List Page),
            (doc.CollectScoreDefs false).SetDrawingPage 0 = .ok (d1, some page0)
              ∧ d.pages = some ps
              ∧ GreedyBreaks
                  (d1.m_drawingPageWidth - d1.m_drawingPageMarginLeft
                    - d1.m_drawingPageMarginRight)
                  (page0.drawingScoreDefWidth + sys0.drawingAbbrLabelsWidth)
                  (page0.drawingScoreDefWidth + sys0.drawingAbbrLabelsWidth
                    + sys0.drawingLabelsWidth)
                  [] sys0.children ((systemsOfPages ps).map (fun s => s.children)))
      ∧ (∀ (budget : Int) (m1 m2 : Measure),
          m1.width ≤ budget → m1.width + m2.width = budget →
          castOffSystemsLoop { m_systemWidth := budget } 0 0 [] {} [m1, m2]
            = [{ children := [m1, m2] }])
      ∧ (∀ (budget : Int) (m1 m2 : Measure),
          m1.width ≤ budget → m1.width + m2.width = budget + 1 →
          castOffSystemsLoop { m_systemWidth := budget } 0 0 [] {} [m1, m2]
            = [{ children := [m1] }, { children := [m2] }])
      ∧ castOffSystemsLoop { m_systemWidth := 250 } 0 0 [] {}
            [{ uuid := "m1", width := 100 }, { uuid := "m2", width := 100 },
              { uuid := "m3", width := 100 }]
          = [{ children := [{ uuid := "m1", width := 100 }, { uuid := "m2", width := 100 }] },
              { children := [{ uuid := "m3", width := 100 }] }]
      ∧ (sampleCastDoc.pages.map systemsOfPages
          = some [{ children := [{ uuid := "m1", width := 100 }, { uuid := "m2", width := 100 }] },
              { children := [{ uuid := "m3", width := 100 }] }]) := by
  refine ⟨castOffSystemsLoop_greedy, ?_, ?_, ?_, by decide, by decide⟩
  · intro doc d page0 sys0 hp hs h
    obtain ⟨d1, ps, h1, h2, h3⟩ := CastOffDoc_uncast_systems layout doc d page0 sys0 hp hs h
    obtain ⟨formed, hf, hg⟩ := castOffSystemsLoop_greedy
      { m_systemWidth := d1.m_drawingPageWidth - d1.m_drawingPageMarginLeft
          - d1.m_drawingPageMarginRight
        m_shift := -sys0.drawingLabelsWidth
        m_currentScoreDefWidth := page0.drawingScoreDefWidth + sys0.drawingAbbrLabelsWidth }
      sys0.children 0 (-sys0.drawingLabelsWidth) [] {}
    refine ⟨d1, ps, h1, h2, ?_⟩
    rw [h3, hf]
    simp only [List.nil_append]
    have e : (0 : Int) + (page0.drawingScoreDefWidth + sys0.drawingAbbrLabelsWidth)
        - -sys0.drawingLabelsWidth
        = page0.drawingScoreDefWidth + sys0.drawingAbbrLabelsWidth + sys0.drawingLabelsWidth := by
      omega
    rw [e] at hg
    exact hg
  · intro budget m1 m2 h1 h2
    have c1 : ¬ (budget < m1.width) := by omega
    have c2 : ¬ (budget < m1.width + m2.width) := by omega
    simp [castOffSystemsLoop, c1, c2]
  · intro budget m1 m2 h1 h2
    have c1 : ¬ (budget < m1.width) := by omega
    have c2 : budget < m1.width + m2.width := by omega
    simp [castOffSystemsLoop, c1, c2]

/-- Claim C11 on two measures of widths 150 and 100 with a system width of 250, an exact
fit, and of widths 150 and 101, one unit over. -/
theorem CastOffDoc_breaks_on_strict_overflow_witness :
    castOffSystemsLoop { m_systemWidth := 250 } 0 0 [] {}
          [{ uuid := "a", width := 150 }, { uuid := "b", width := 100 }]
        = [{ children := [{ uuid := "a", width := 150 }, { uuid := "b", width := 100 }] }]
      ∧ castOffSystemsLoop { m_systemWidth := 250 } 0 0 [] {}
          [{ uuid := "a", width := 150 }, { uuid := "b", width := 101 }]
        = [{ children := [{ uuid := "a", width := 150 }] },
            { children := [{ uuid := "b", width := 101 }] }] :=
  ⟨(CastOffDoc_breaks_on_strict_overflow sampleLayout).2.2.1 250 { uuid := "a", width := 150 }
      { uuid := "b", width := 100 } (by decide) (by decide),
    (CastOffDoc_breaks_on_strict_overflow sampleLayout).2.2.2.1 250
      { uuid := "a", width := 150 } { uuid := "b", width := 101 } (by decide) (by decide)⟩

/-! ## The pages formed by CastOffEncodingDoc -/

/-- On a document with one page whose first child is a system, `CastOffEncodingDoc`
returns, and the Pages container holds the pages formed from the content system. -/
theorem CastOffEncodingDoc_uncast (doc : Doc) (page0 : Page) (sys0 : System)
    (others : List System) (hp : doc.pages = some [page0])
    (hs : page0.children = sys0 :: others) :
    ∃ d, doc.CastOffEncodingDoc = .ok d
      ∧ d.pages = some (castOffEncodingLoop [] {} {} sys0.children)
      ∧ d.m_drawingPage = none := by
  have hpa : (doc.CollectScoreDefs false).pages = some [page0] := by
    rw [(CollectScoreDefs_frame doc false).1, hp]
  obtain ⟨db, eb, pb, -⟩ := SetDrawingPage_ok _ [page0] hpa 0 page0 (by rfl)
  simp only [Nat.cast_zero] at eb
  unfold Doc.CastOffEncodingDoc
  simp only [bind, Except.bind, pure, Except.pure, eb, hs, Doc.GetPages, hpa, List.head?_cons]
  refine ⟨_, rfl, ?_, ?_⟩
  · rw [(CollectScoreDefs_frame _ true).1]
    simp [Doc.ResetDrawingPage, Doc.setPages, Doc.Process, Doc.record, pb, CastOffEncoding,
      Page.AddChild]
  · rw [(CollectScoreDefs_frame _ true).2]
    rfl

/-! ## Generating a score definition -/

/-- The staff definitions added one by one to a staff group. -/
theorem foldl_StaffGrp_AddChild (f : Staff → StaffDef) (staves : List Staff)
    (staffGrp : StaffGrp) :
    staves.foldl (fun g staff => g.AddChild (f staff)) staffGrp
      = { staffGrp with staffDefs := staffGrp.staffDefs ++ staves.map f } := by
  induction staves generalizing staffGrp with
  | nil => simp
  | cons s rest ih =>
    simp only [List.foldl_cons]
    rw [ih]
    simp [StaffGrp.AddChild]

/-- Claim C14: `GenerateDocumentScoreDef` returns false and leaves the score definition
as it was, logging an error only, when the document has no measure or its first measure
has no staff; otherwise it returns true and the score definition is the reset one with a
single staff group added, which holds one staff definition per staff of the first
measure, in the same order, each with the number of that staff and 5 lines. -/
theorem GenerateDocumentScoreDef_atomic (doc : Doc) :
    (doc.firstMeasure = none →
      doc.GenerateDocumentScoreDef
          = (doc.record (Event.logError "No measure found for generating a scoreDef"), false)
        ∧ doc.GenerateDocumentScoreDef.1.m_scoreDef = doc.m_scoreDef)
    ∧ (∀ measure, doc.firstMeasure = some measure → measure.staves = [] →
      doc.GenerateDocumentScoreDef
          = (doc.record (Event.logError "No staff found for generating a scoreDef"), false)
        ∧ doc.GenerateDocumentScoreDef.1.m_scoreDef = doc.m_scoreDef)
    ∧ (∀ measure, doc.firstMeasure = some measure → measure.staves ≠ [] →
      doc.GenerateDocumentScoreDef.2 = true
        ∧ doc.GenerateDocumentScoreDef.1.m_scoreDef
          = (doc.m_scoreDef.Reset).AddChild
              { label := none
                staffDefs := measure.staves.map
                  (fun staff =>
                    { n := staff.n
                      lines := some 5
                      notationtype :=
                        if measure.measuredMusic then none else some Notationtype.mensural
                      staffGrp := none }) }
        ∧ doc.GenerateDocumentScoreDef.1.m_scoreDef.staffDefs
          = measure.staves.map (generatedStaffDef measure)
        ∧ doc.GenerateDocumentScoreDef.1.m_scoreDef.staffDefs.map (fun s => s.n)
          = measure.staves.map (fun staff => staff.n)
        ∧ (∀ s ∈ doc.GenerateDocumentScoreDef.1.m_scoreDef.staffDefs,
            s.lines = some 5 ∧ s.staffGrp = some none)
        ∧ doc.GenerateDocumentScoreDef.1.m_scoreDef.midiBpm = none) := by
  refine ⟨?_, ?_, ?_⟩
  · intro h
    simp [Doc.GenerateDocumentScoreDef, h, Doc.record]
  · intro measure h hs
    simp [Doc.GenerateDocumentScoreDef, h, hs, Doc.record]
  · intro measure h hs
    have hne : measure.staves.isEmpty = false := by
      cases hm : measure.staves with
      | nil => exact absurd hm hs
      | cons a l => rfl
    have hres : doc.GenerateDocumentScoreDef.1.m_scoreDef
        = (doc.m_scoreDef.Reset).AddChild
            { label := none
              staffDefs := measure.staves.map
                (fun staff =>
                  { n := staff.n
                    lines := some 5
                    notationtype :=
                      if measure.measuredMusic then none else some Notationtype.mensural
                    staffGrp := none }) } := by
      simp only [Doc.GenerateDocumentScoreDef, h, hne]
      cases hmm : measure.measuredMusic
      · simp [Doc.record, foldl_StaffGrp_AddChild]
      · simp [Doc.record, foldl_StaffGrp_AddChild]
    refine ⟨?_, hres, ?_, ?_, ?_, ?_⟩
    · simp [Doc.GenerateDocumentScoreDef, h, hne]
    · rw [hres]
      simp [ScoreDef.AddChild, ScoreDef.Reset, generatedStaffDef]
    · rw [hres]
      simp [ScoreDef.AddChild, ScoreDef.Reset, Function.comp_def]
    · rw [hres]
      intro s hsIn
      simp only [ScoreDef.AddChild, ScoreDef.Reset, List.nil_append, List.map_map,
        List.mem_map, Function.comp] at hsIn
      obtain ⟨staff, _, rfl⟩ := hsIn
      exact ⟨rfl, rfl⟩
    · rw [hres]
      simp [ScoreDef.AddChild, ScoreDef.Reset]

/-- Claim C14 at the sample document with two staves in its first measure, and at a
document with no page. -/
theorem GenerateDocumentScoreDef_atomic_witness :
    (sampleStavesDoc.GenerateDocumentScoreDef.2 = true
      ∧ sampleStavesDoc.GenerateDocumentScoreDef.1.m_scoreDef.staffDefs
        = [{ n := 1, lines := some 5 }, { n := 2, lines := some 5 }])
    ∧ (({} : Doc).GenerateDocumentScoreDef.2 = false) := by
  refine ⟨?_, by decide⟩
  have h := (GenerateDocumentScoreDef_atomic sampleStavesDoc).2.2
    { uuid := "m1",
      children := [MeasureChild.staff { n := 1 }, MeasureChild.staff { n := 2 }] }
    (by decide) (by decide)
  exact ⟨h.1, by rw [h.2.2.1]; decide⟩

/-! ## Converting the analytical markup -/

/-- The loops over a layer tree keep what the body keeps. -/
theorem forEachLayer_invariant (P : Doc → Prop) (layerTree : LayerTree)
    (body : Int → Int → Doc → Doc) (hbody : ∀ s l d, P d → P (body s l d)) (doc : Doc)
    (h : P doc) : P (doc.forEachLayer layerTree body) := by
  unfold Doc.forEachLayer
  generalize layerTree.entries = staves
  induction staves generalizing doc with
  | nil => exact h
  | cons st rest ih =>
    simp only [List.foldl_cons]
    apply ih
    generalize st.2.entries = layers
    induction layers generalizing doc with
    | nil => exact h
    | cons la more ih2 =>
      simp only [List.foldl_cons]
      exact ih2 _ (hbody _ _ _ h)

/-- Logging warnings does not change the tree. -/
theorem foldl_logWarning_pages (f : String → String) (notes : List String) (doc : Doc) :
    (notes.foldl (fun doc note => doc.record (Event.logWarning (f note))) doc).pages
      = doc.pages := by
  induction notes generalizing doc with
  | nil => rfl
  | cons n rest ih => simp only [List.foldl_cons]; rw [ih]; rfl

/-- The code of `ConvertAnalyticalMarkupDoc` changes the tree nowhere itself: when the
`ConvertAnalyticalMarkup` traversals leave the tree as it is, so does the function,
whatever is left in `m_currentNotes`. -/
theorem ConvertAnalyticalMarkupDoc_pages (R : Resolvers) (doc : Doc) (permanent : Bool)
    (hR : ∀ d s l, (R.convertAnalyticalMarkup d s l permanent).1 = d.pages) :
    (doc.ConvertAnalyticalMarkupDoc R permanent).pages = doc.pages := by
  unfold Doc.ConvertAnalyticalMarkupDoc
  split_ifs with hflag
  · rfl
  · dsimp only
    apply forEachLayer_invariant (fun d => d.pages = doc.pages)
    · intro s l d hd
      dsimp only
      split_ifs
      · rw [foldl_logWarning_pages]
        simp [Doc.Process, Doc.record, hR, hd]
      · simp [Doc.Process, Doc.record, hR, hd]
    · rfl

/-- Claim C16, the code at a note whose tie is still open at the end of the pass of its
staff and layer: the warning naming the note is the last thing logged, and the tie of
the note is still there afterwards, as the traversal left it. -/
theorem ConvertAnalyticalMarkupDoc_keeps_open_tie :
    (openTieDoc.ConvertAnalyticalMarkupDoc openTieResolvers false).log
        = [Event.logMessage "Converting analytical markup...",
           Event.process FunctorName.PrepareProcessingLists ProcessRoot.doc false [],
           Event.process (FunctorName.ConvertAnalyticalMarkup false) ProcessRoot.doc false
             [(ClassId.STAFF, 1), (ClassId.LAYER, 1)],
           Event.logWarning "Unable to match @tie of note \x27n1\x27, skipping it"]
      ∧ (openTieDoc.findElement "n1").map (fun e => e.tie) = some (some "i")
      ∧ ((openTieDoc.ConvertAnalyticalMarkupDoc openTieResolvers false).findElement "n1").map
          (fun e => e.tie) = some (some "i")
      ∧ (openTieDoc.ConvertAnalyticalMarkupDoc openTieResolvers false).pages
          = openTieDoc.pages := by
  decide

/-! ## The resolution of spanning elements -/

/-- Meeting one more layer element first. -/
theorem matchIds_cons (c : TimeSpanning) (u : String) (us : List String) :
    (c.matchElement u).matchIds us = c.matchIds (u :: us) := by
  rcases c with ⟨uuid, startid, endid, t1, t2, ms, me⟩
  cases startid <;> cases endid <;>
    simp only [TimeSpanning.matchIds, TimeSpanning.matchElement] <;>
    split_ifs <;> simp_all

/-- Meeting no layer element changes nothing. -/
theorem matchIds_nil (c : TimeSpanning) : c.matchIds [] = c := by
  rcases c with ⟨uuid, startid, endid, t1, t2, ms, me⟩
  cases startid <;> cases endid <;> simp [TimeSpanning.matchIds]

/-- Meeting some of the layer elements before meeting all of them changes nothing. -/
theorem matchIds_absorb (c : TimeSpanning) (us ids : List String)
    (h : ∀ u ∈ us, u ∈ ids) : (c.matchIds us).matchIds ids = c.matchIds ids := by
  rcases c with ⟨uuid, startid, endid, t1, t2, ms, me⟩
  cases startid <;> cases endid <;>
    simp only [TimeSpanning.matchIds] <;>
    split_ifs <;> simp_all

/-- A complete entry stays complete at a layer element. -/
theorem isComplete_matchElement (c : TimeSpanning) (u : String)
    (h : c.isComplete = true) : (c.matchElement u).isComplete = true := by
  rcases c with ⟨uuid, startid, endid, t1, t2, ms, me⟩
  simp only [TimeSpanning.isComplete, TimeSpanning.matchElement] at h ⊢
  split_ifs <;> simp_all

/-- A complete entry stays complete at layer elements. -/
theorem isComplete_matchIds (c : TimeSpanning) (ids : List String)
    (h : c.isComplete = true) : (c.matchIds ids).isComplete = true := by
  rcases c with ⟨uuid, startid, endid, t1, t2, ms, me⟩
  cases startid <;> cases endid <;>
    simp only [TimeSpanning.isComplete, TimeSpanning.matchIds] at h ⊢ <;>
    (try split_ifs) <;> simp_all

/-- A complete entry stays complete in the timestamps traversal. -/
theorem isComplete_matchTimestamps (c : TimeSpanning) (h : c.isComplete = true) :
    c.matchTimestamps.isComplete = true := by
  rcases c with ⟨uuid, startid, endid, t1, t2, ms, me⟩
  cases ms <;> cases me <;> simp_all [TimeSpanning.isComplete, TimeSpanning.matchTimestamps]

/-- Dropping the complete entries before a step that keeps complete entries complete
does not change what is left after the step. -/
theorem filter_map_filter (f : TimeSpanning → TimeSpanning)
    (hf : ∀ c, c.isComplete = true → (f c).isComplete = true) (l : List TimeSpanning) :
    ((l.filter (fun c => !c.isComplete)).map f).filter (fun c => !c.isComplete)
      = (l.map f).filter (fun c => !c.isComplete) := by
  induction l with
  | nil => rfl
  | cons a rest ih =>
    cases ha : a.isComplete
    · simp [List.filter_cons, ha, ih]
    · simp [List.filter_cons, ha, hf a ha, ih]

/-- A traversal that does not fill the list leaves an empty list empty. -/
theorem foldl_visit_nil (leaves : List Leaf) :
    leaves.foldl (visitTimeSpanning false) [] = [] := by
  induction leaves with
  | nil => rfl
  | cons l rest ih => cases l <;> simpa [List.foldl_cons, visitTimeSpanning] using ih

/-- What a traversal that does not fill the list leaves pending, in one step. -/
theorem foldl_visit_retry (leaves : List Leaf) (pending : List TimeSpanning) :
    (leaves.foldl (visitTimeSpanning false) pending).filter (fun c => !c.isComplete)
      = (pending.map (fun c => c.matchIds (leafIds leaves))).filter
          (fun c => !c.isComplete) := by
  induction leaves generalizing pending with
  | nil => simp [leafIds, matchIds_nil]
  | cons l rest ih =>
    cases l with
    | spanning c =>
      simp only [List.foldl_cons, visitTimeSpanning]
      rw [ih]
      simp [leafIds]
    | element u =>
      simp only [List.foldl_cons, visitTimeSpanning]
      rw [ih, filter_map_filter _ (fun c h => isComplete_matchIds c _ h)]
      simp [leafIds, matchIds_cons, Function.comp_def]

/-- What a traversal that fills the list leaves pending, in one step. -/
theorem foldl_visit_fill (leaves : List Leaf) (pending : List TimeSpanning) :
    (leaves.foldl (visitTimeSpanning true) pending).filter (fun c => !c.isComplete)
      = (pending.map (fun c => c.matchIds (leafIds leaves)) ++ fillForm leaves).filter
          (fun c => !c.isComplete) := by
  induction leaves generalizing pending with
  | nil => simp [leafIds, matchIds_nil, fillForm]
  | cons l rest ih =>
    cases l with
    | spanning c =>
      simp only [List.foldl_cons, visitTimeSpanning]
      rw [ih]
      simp [leafIds, fillForm]
    | element u =>
      simp only [List.foldl_cons, visitTimeSpanning]
      rw [ih, List.filter_append, filter_map_filter _ (fun c h => isComplete_matchIds c _ h)]
      simp [leafIds, fillForm, matchIds_cons, Function.comp_def]

/-- The entries added by a filling traversal end, once all identifiers are met and the
timestamps traversal has run, like the spanning elements themselves. -/
theorem fillForm_finalForm (ids : List String) (leaves : List Leaf)
    (h : ∀ u ∈ leafIds leaves, u ∈ ids) :
    (fillForm leaves).map (TimeSpanning.finalForm ids)
      = (leafSpans leaves).map (TimeSpanning.finalForm ids) := by
  induction leaves with
  | nil => rfl
  | cons l rest ih =>
    cases l with
    | spanning c =>
      have hrest : ∀ u ∈ leafIds rest, u ∈ ids := by
        intro u hu
        exact h u (by simpa [leafIds] using hu)
      simp only [fillForm, leafSpans, List.filterMap_cons, List.map_cons]
      rw [← leafSpans, ← ih hrest]
      simp [TimeSpanning.finalForm, matchIds_absorb c _ _ hrest]
    | element u =>
      have hrest : ∀ v ∈ leafIds rest, v ∈ ids := by
        intro v hv
        exact h v (by simp only [leafIds, List.filterMap_cons, List.mem_cons]
                      exact Or.inr hv)
      simp only [fillForm, leafSpans, List.filterMap_cons]
      rw [← leafSpans]
      exact ih hrest

/-- The pending list at the end of the resolution of the spanning elements, with the
traversals in the words of the specification: the spanning elements, last one first,
each with the references bound that an identifier of the tree or a timestamp binds,
those with both ends bound left out. -/
theorem resolveTimeSpanning_pending (R : Resolvers)
    (hR1 : R.prepareTimeSpanning = specPrepareTimeSpanning)
    (hR2 : R.prepareTimestamps = specPrepareTimestamps) (doc : Doc) :
    (doc.resolveTimeSpanning R).2
      = (doc.spanningElements.reverse.map (TimeSpanning.finalForm doc.elementIds)).filter
          (fun c => !c.isComplete) := by
  have hstruct : (doc.resolveTimeSpanning R).2
      = specPrepareTimestamps doc
          (specPrepareTimeSpanning false false doc
            (specPrepareTimeSpanning true true doc [])) := by
    unfold Doc.resolveTimeSpanning
    dsimp only
    rw [hR1, hR2]
    cases hE : (specPrepareTimeSpanning true true doc []).isEmpty
    · simp only [Bool.not_false, if_true]
      rfl
    · simp only [Bool.not_true, Bool.false_eq_true, if_false]
      have hnil : specPrepareTimeSpanning true true doc [] = [] := by
        simpa using hE
      rw [hnil]
      simp [specPrepareTimeSpanning, specPrepareTimestamps, foldl_visit_nil]
  have hids : ∀ u ∈ leafIds doc.leaves.reverse, u ∈ doc.elementIds := by
    intro u hu
    simpa [leafIds, Doc.elementIds, List.filterMap_reverse] using hu
  rw [hstruct]
  simp only [specPrepareTimestamps, specPrepareTimeSpanning, if_true, Bool.false_eq_true,
    if_false]
  have hg : ∀ c : TimeSpanning, c.isComplete = true →
      (TimeSpanning.finalForm doc.elementIds c).isComplete = true :=
    fun c h => isComplete_matchTimestamps _ (isComplete_matchIds c _ h)
  have hcomp : (TimeSpanning.matchTimestamps ∘ fun c => c.matchIds (leafIds doc.leaves))
      = TimeSpanning.finalForm doc.elementIds := rfl
  rw [← filter_map_filter _ isComplete_matchTimestamps, foldl_visit_retry,
    filter_map_filter _ isComplete_matchTimestamps, List.map_map, hcomp,
    ← filter_map_filter _ hg, foldl_visit_fill, List.map_nil, List.nil_append,
    filter_map_filter _ hg, fillForm_finalForm _ _ hids]
  simp [Doc.spanningElements, leafSpans, List.filterMap_reverse]

/-- The logs only grow in the loops over a layer tree. -/
theorem forEachLayer_logExtends (base : Doc) (layerTree : LayerTree)
    (body : Int → Int → Doc → Doc)
    (hbody : ∀ s l d, base.logExtends d → base.logExtends (body s l d)) (doc : Doc)
    (h : base.logExtends doc) : base.logExtends (doc.forEachLayer layerTree body) :=
  forEachLayer_invariant (fun d => base.logExtends d) layerTree body hbody doc h

/-- The logs only grow in the loops over a verse tree. -/
theorem forEachVerse_logExtends (base : Doc) (verseTree : VerseTree)
    (body : Int → Int → Int → Doc → Doc)
    (hbody : ∀ s l v d, base.logExtends d → base.logExtends (body s l v d)) (doc : Doc)
    (h : base.logExtends doc) : base.logExtends (doc.forEachVerse verseTree body) := by
  unfold Doc.forEachVerse
  generalize verseTree.entries = staves
  induction staves generalizing doc with
  | nil => exact h
  | cons st rest ih =>
    simp only [List.foldl_cons]
    apply ih
    generalize st.2.entries = layers
    induction layers generalizing doc with
    | nil => exact h
    | cons la more ih2 =>
      simp only [List.foldl_cons]
      apply ih2
      generalize la.2.entries = verses
      induction verses generalizing doc with
      | nil => exact h
      | cons ve others ih3 =>
        simp only [List.foldl_cons]
        exact ih3 _ (hbody _ _ _ _ h)

/-- Recording an event makes the log grow. -/
theorem record_logExtends (base doc : Doc) (e : Event) (h : base.logExtends doc) :
    base.logExtends (doc.record e) := by
  obtain ⟨evs, hevs⟩ := h
  exact ⟨evs ++ [e], by simp [Doc.record, hevs]⟩

/-- A traversal makes the log grow. -/
theorem Process_logExtends (base doc : Doc) (functor : FunctorName) (root : ProcessRoot)
    (backward : Bool) (filters : List (ClassId × Int)) (h : base.logExtends doc) :
    base.logExtends (doc.Process functor root backward filters) :=
  record_logExtends base doc _ h

/-- The resolution of the lists makes the log grow. -/
theorem resolvePlist_logExtends (R : Resolvers) (base doc : Doc) (h : base.logExtends doc) :
    base.logExtends (doc.resolvePlist R) := by
  unfold Doc.resolvePlist
  dsimp only
  split_ifs
  · exact record_logExtends _ _ _
      (Process_logExtends _ _ _ _ _ _ (Process_logExtends _ _ _ _ _ _ h))
  · exact Process_logExtends _ _ _ _ _ _ (Process_logExtends _ _ _ _ _ _ h)
  · exact Process_logExtends _ _ _ _ _ _ h

/-- The log of `PrepareDrawing` starts with the log of its resolution of the spanning
elements. -/
theorem PrepareDrawing_logExtends (R : Resolvers) (doc : Doc) :
    Doc.logExtends
      (Doc.resolveTimeSpanning R
        (if doc.m_drawingPreparationDone then
          doc.Process FunctorName.ResetDrawing ProcessRoot.doc false []
        else doc)).1
      (doc.PrepareDrawing R) := by
  unfold Doc.PrepareDrawing
  dsimp only
  have hflag : ∀ base d : Doc, base.logExtends d →
      base.logExtends { d with m_drawingPreparationDone := true } := fun _ _ h => h
  have hdebug : ∀ (base d : Doc) (c : Prop) [Decidable c] (e : Event),
      base.logExtends d → base.logExtends (if c then d.record e else d) := by
    intro base d c _ e h
    split_ifs
    · exact record_logExtends _ _ _ h
    · exact h
  apply hflag
  repeat apply Process_logExtends
  apply forEachLayer_logExtends
  · intro s l d hd
    exact Process_logExtends _ _ _ _ _ _ hd
  apply hdebug
  apply Process_logExtends
  apply forEachVerse_logExtends
  · intro s l v d hd
    exact Process_logExtends _ _ _ _ _ _ hd
  apply forEachLayer_logExtends
  · intro s l d hd
    exact Process_logExtends _ _ _ _ _ _ hd
  apply Process_logExtends
  apply Process_logExtends
  apply resolvePlist_logExtends
  exact ⟨[], by simp⟩

/-- An entry whose references are resolvable ends with both ends bound. -/
theorem finalForm_isComplete (ids : List String) (c : TimeSpanning)
    (h : c.resolvable ids = true) : (TimeSpanning.finalForm ids c).isComplete = true := by
  rcases c with ⟨uuid, startid, endid, t1, t2, ms, me⟩
  cases startid <;> cases endid <;> cases t1 <;> cases t2 <;> cases ms <;> cases me <;>
    simp_all [TimeSpanning.resolvable, TimeSpanning.finalForm, TimeSpanning.matchIds,
      TimeSpanning.matchTimestamps, TimeSpanning.isComplete] <;>
    (try split_ifs) <;> simp_all

/-- An entry whose end refers to an identifier that is nowhere in the tree, and that has
no second timestamp, ends with no end anchor. -/
theorem finalForm_m_end (ids : List String) (c : TimeSpanning) (e : String)
    (hend : c.endid = some e) (hmissing : e ∉ ids) (hts : c.tstamp2 = none)
    (hunset : c.m_end = none) : (TimeSpanning.finalForm ids c).m_end = none := by
  rcases c with ⟨uuid, startid, endid, t1, t2, ms, me⟩
  simp only at hend hts hunset
  subst hend hts hunset
  simp [TimeSpanning.finalForm, TimeSpanning.matchIds, TimeSpanning.matchTimestamps,
    hmissing]

/-- The log of the resolution of the spanning elements when entries are left pending at
its end: the backward traversal, the forward one, the traversals of the pointing
elements and of the timestamps, and the warning with the number of entries left. -/
theorem resolveTimeSpanning_log (R : Resolvers)
    (hR2 : R.prepareTimestamps = specPrepareTimestamps) (doc : Doc)
    (h : (doc.resolveTimeSpanning R).2 ≠ []) :
    (doc.resolveTimeSpanning R).1.log
      = doc.log
        ++ [Event.process (FunctorName.PrepareTimeSpanning true) ProcessRoot.doc true [],
            Event.process (FunctorName.PrepareTimeSpanning false) ProcessRoot.doc false [],
            Event.process FunctorName.PrepareTimePointing ProcessRoot.doc true [],
            Event.process FunctorName.PrepareTimestamps ProcessRoot.doc false [],
            Event.logWarning
              (toString (doc.resolveTimeSpanning R).2.length
                ++ " time spanning element(s) could not be matched")] := by
  have hne : ∀ l : List TimeSpanning, l ≠ [] → (!l.isEmpty) = true := by
    intro l hl
    cases l with
    | nil => exact absurd rfl hl
    | cons a t => rfl
  unfold Doc.resolveTimeSpanning at h ⊢
  dsimp only at h ⊢
  rw [if_pos (hne _ h)]
  cases hE : (R.prepareTimeSpanning true true doc []).isEmpty
  · simp [Doc.Process, Doc.record]
  · exfalso
    apply h
    have hnil : R.prepareTimeSpanning true true doc [] = [] := by simpa using hE
    rw [hR2, hnil]
    simp [specPrepareTimestamps]

/-- Of spanning elements that all end complete but one, that one alone is left. -/
theorem filter_finalForm_single (g : TimeSpanning → TimeSpanning)
    (pre post : List TimeSpanning) (X : TimeSpanning)
    (hothers : ∀ c ∈ pre ++ post, (g c).isComplete = true)
    (hX : (g X).isComplete = false) :
    (((pre ++ X :: post).reverse).map g).filter (fun c => !c.isComplete) = [g X] := by
  have hpre : (pre.reverse.map g).filter (fun c => !c.isComplete) = [] := by
    rw [List.filter_eq_nil_iff]
    intro c hc
    simp only [List.mem_map, List.mem_reverse] at hc
    obtain ⟨a, ha, rfl⟩ := hc
    simp [hothers a (List.mem_append_left _ ha)]
  have hpost : (post.reverse.map g).filter (fun c => !c.isComplete) = [] := by
    rw [List.filter_eq_nil_iff]
    intro c hc
    simp only [List.mem_map, List.mem_reverse] at hc
    obtain ⟨a, ha, rfl⟩ := hc
    simp [hothers a (List.mem_append_right _ ha)]
  simp only [List.reverse_append, List.reverse_cons, List.map_append, List.map_cons,
    List.map_nil, List.filter_append, hpre, hpost, List.append_nil, List.nil_append]
  simp [List.filter_cons, hX]

/-- Claim C15: with the spanning traversals in the words of the specification, for a
document in which one spanning element has an end reference to an identifier that is
nowhere in the tree (no second timestamp, no end bound yet) and the references of all
other spanning elements are resolvable, `PrepareDrawing` completes; the resolution of
the spanning elements runs the backward traversal, the forward retry and the timestamps
traversal and then logs the warning with the count 1; the pending list at that point
holds that element alone, and it has no end anchor. -/
theorem PrepareDrawing_one_unmatched_spanning (R : Resolvers) (doc : Doc)
    (pre post : List TimeSpanning) (X : TimeSpanning) (e : String)
    (hR1 : R.prepareTimeSpanning = specPrepareTimeSpanning)
    (hR2 : R.prepareTimestamps = specPrepareTimestamps)
    (hspans : doc.spanningElements = pre ++ X :: post)
    (hend : X.endid = some e) (hmissing : e ∉ doc.elementIds)
    (hts : X.tstamp2 = none) (hunset : X.m_end = none)
    (hothers : ∀ c ∈ pre ++ post, c.resolvable doc.elementIds = true) :
    (doc.PrepareDrawing R).m_drawingPreparationDone = true
      ∧ (∃ unmatched : TimeSpanning,
          (Doc.resolveTimeSpanning R
            (if doc.m_drawingPreparationDone then
              doc.Process FunctorName.ResetDrawing ProcessRoot.doc false []
            else doc)).2 = [unmatched]
          ∧ unmatched.uuid = X.uuid ∧ unmatched.startid = X.startid
          ∧ unmatched.endid = X.endid ∧ unmatched.m_end = none)
      ∧ (Doc.resolveTimeSpanning R
            (if doc.m_drawingPreparationDone then
              doc.Process FunctorName.ResetDrawing ProcessRoot.doc false []
            else doc)).1.log
          = (if doc.m_drawingPreparationDone then
              doc.Process FunctorName.ResetDrawing ProcessRoot.doc false []
            else doc).log
            ++ [Event.process (FunctorName.PrepareTimeSpanning true) ProcessRoot.doc true [],
                Event.process (FunctorName.PrepareTimeSpanning false) ProcessRoot.doc false [],
                Event.process FunctorName.PrepareTimePointing ProcessRoot.doc true [],
                Event.process FunctorName.PrepareTimestamps ProcessRoot.doc false [],
                Event.logWarning "1 time spanning element(s) could not be matched"]
      ∧ Event.logWarning "1 time spanning element(s) could not be matched"
          ∈ (doc.PrepareDrawing R).log := by
  generalize hd : (if doc.m_drawingPreparationDone then
      doc.Process FunctorName.ResetDrawing ProcessRoot.doc false [] else doc) = d
  have hpages : d.pages = doc.pages := by
    rw [← hd]
    split_ifs <;> rfl
  have hsp : d.spanningElements = doc.spanningElements := by
    simp only [Doc.spanningElements, Doc.leaves, hpages]
  have hids : d.elementIds = doc.elementIds := by
    simp only [Doc.elementIds, Doc.leaves, hpages]
  have hXend := finalForm_m_end doc.elementIds X e hend hmissing hts hunset
  have hXinc : (TimeSpanning.finalForm doc.elementIds X).isComplete = false := by
    simp [TimeSpanning.isComplete, hXend]
  have hpend : (d.resolveTimeSpanning R).2 = [TimeSpanning.finalForm doc.elementIds X] := by
    rw [resolveTimeSpanning_pending R hR1 hR2 d, hsp, hids, hspans]
    exact filter_finalForm_single _ pre post X
      (fun c hc => finalForm_isComplete _ c (hothers c hc)) hXinc
  have hlog := resolveTimeSpanning_log R hR2 d (by rw [hpend]; simp)
  rw [hpend] at hlog
  have hone : (toString (1 : Nat)
      ++ " time spanning element(s) could not be matched" : String)
      = "1 time spanning element(s) could not be matched" := by decide
  rw [List.length_singleton, hone] at hlog
  refine ⟨rfl, ⟨_, hpend, rfl, rfl, rfl, hXend⟩, hlog, ?_⟩
  have hext := PrepareDrawing_logExtends R doc
  rw [hd] at hext
  obtain ⟨evs, hevs⟩ := hext
  rw [hevs, hlog]
  simp

/-- Claim C15 at the sample document with the slur `s2` whose end refers to `nX`. -/
theorem PrepareDrawing_one_unmatched_spanning_witness :
    danglingSlurDoc.spanningElements
        = [{ uuid := "s1", startid := some "n1", endid := some "n2" }]
          ++ { uuid := "s2", startid := some "n2", endid := some "nX" } :: []
      ∧ "nX" ∉ danglingSlurDoc.elementIds
      ∧ Event.logWarning "1 time spanning element(s) could not be matched"
          ∈ (danglingSlurDoc.PrepareDrawing danglingSlurResolvers).log :=
  ⟨by decide, by decide,
    (PrepareDrawing_one_unmatched_spanning danglingSlurResolvers danglingSlurDoc
      [{ uuid := "s1", startid := some "n1", endid := some "n2" }] []
      { uuid := "s2", startid := some "n2", endid := some "nX" } "nX"
      (by rfl) (by rfl) (by decide) (by rfl) (by decide) (by rfl) (by rfl)
      (by decide)).2.2.2⟩

/-! ## Page indices -/

/-- The result of `SetDrawingPage` for an index out of range: no page, and the state as
it was. -/
theorem SetDrawingPage_out_of_range (doc : Doc) (i : Int) (h : doc.HasPage i = .ok false) :
    doc.SetDrawingPage i = .ok (doc, none) := by
  unfold Doc.SetDrawingPage
  simp [h, bind, Except.bind, pure, Except.pure]

/-- Claim C21: page indices are 0-based.  In a document with a Pages container,
`HasPage(i)` is true exactly when `0 ≤ i` and `i` is less than the number of pages;
`SetDrawingPage(i)` returns no page exactly when `HasPage(i)` is false, and the state,
with the drawing page and all cached dimensions, is then as it was; for an index in
range it returns the child of the Pages container at that index, and that page is the
drawing page afterwards. -/
theorem HasPage_SetDrawingPage_zero_based (doc : Doc) (pages : List Page)
    (h : doc.pages = some pages) (i : Int) :
    doc.HasPage i = .ok (decide (0 ≤ i ∧ i < pages.length))
      ∧ (doc.HasPage i = .ok false ↔ ∃ d, doc.SetDrawingPage i = .ok (d, none))
      ∧ (∀ d, doc.SetDrawingPage i = .ok (d, none) → d = doc)
      ∧ (0 ≤ i ∧ i < pages.length →
          ∃ (d : Doc) (page : Page),
            pages.get? i.toNat = some page
              ∧ doc.SetDrawingPage i = .ok (d, some page)
              ∧ d.m_drawingPage = some i.toNat
              ∧ d.pages = doc.pages) := by
  have hhas : doc.HasPage i = .ok (decide (0 ≤ i ∧ i < pages.length)) := by
    simp [Doc.HasPage, Doc.GetPages, h, Bool.decide_and]
  refine ⟨hhas, ⟨?_, ?_⟩, ?_, ?_⟩
  · intro hf
    exact ⟨doc, SetDrawingPage_out_of_range doc i hf⟩
  · rintro ⟨d, hd⟩
    exact SetDrawingPage_none doc d i hd
  · intro d hd
    have hf := SetDrawingPage_none doc d i hd
    rw [SetDrawingPage_out_of_range doc i hf] at hd
    simp only [Except.ok.injEq, Prod.mk.injEq, and_true] at hd
    exact hd.symm
  · rintro ⟨h0, hlt⟩
    have hnat : ((i.toNat : Nat) : Int) = i := Int.toNat_of_nonneg h0
    have hlt2 : i.toNat < pages.length := by omega
    obtain ⟨page, hpage⟩ : ∃ page, pages.get? i.toNat = some page :=
      ⟨pages.get ⟨i.toNat, hlt2⟩, List.get?_eq_get hlt2⟩
    obtain ⟨d, hd, hp, -, -, -, -, -, -, hdp⟩ :=
      SetDrawingPage_ok doc pages h i.toNat page hpage
    rw [hnat] at hd
    exact ⟨d, page, hpage, hd, hdp, hp.trans h.symm⟩

/-- Claim C21 on the sample document, which has one page: index 0 is in range. -/
theorem HasPage_SetDrawingPage_zero_based_witness :
    sampleDoc.HasPage 0 = .ok true ∧ sampleDoc.HasPage 1 = .ok false
      ∧ sampleDoc.HasPage (-1) = .ok false
      ∧ sampleDoc.SetDrawingPage 1 = .ok (sampleDoc, none) := by
  have h0 := (HasPage_SetDrawingPage_zero_based sampleDoc _ (by rfl) 0).1
  have h1 := (HasPage_SetDrawingPage_zero_based sampleDoc _ (by rfl) 1).1
  have h2 := (HasPage_SetDrawingPage_zero_based sampleDoc _ (by rfl) (-1)).1
  refine ⟨by rw [h0]; decide, by rw [h1]; decide, by rw [h2]; decide, by decide⟩

/-! ## The two-phase resolutions of PrepareDrawing -/

/-- The steps of the resolution of the spanning elements, for any traversals: the list
left by the backward traversal decides whether the forward traversal runs, and the list
left at the end whether the warning is logged. -/
theorem resolveTimeSpanning_steps (R : Resolvers) (doc : Doc) :
    (doc.resolveTimeSpanning R).2
        = R.prepareTimestamps
            ((if (R.prepareTimeSpanning true true doc []).isEmpty then
                doc.Process (FunctorName.PrepareTimeSpanning true) ProcessRoot.doc true []
              else
                (doc.Process (FunctorName.PrepareTimeSpanning true) ProcessRoot.doc true
                  []).Process (FunctorName.PrepareTimeSpanning false) ProcessRoot.doc false
                  []).Process FunctorName.PrepareTimePointing ProcessRoot.doc true [])
            (if (R.prepareTimeSpanning true true doc []).isEmpty then []
              else R.prepareTimeSpanning false false
                (doc.Process (FunctorName.PrepareTimeSpanning true) ProcessRoot.doc true [])
                (R.prepareTimeSpanning true true doc []))
      ∧ (doc.resolveTimeSpanning R).1.log
        = doc.log
          ++ [Event.process (FunctorName.PrepareTimeSpanning true) ProcessRoot.doc true []]
          ++ (if (R.prepareTimeSpanning true true doc []).isEmpty then []
              else [Event.process (FunctorName.PrepareTimeSpanning false) ProcessRoot.doc
                      false []])
          ++ [Event.process FunctorName.PrepareTimePointing ProcessRoot.doc true [],
              Event.process FunctorName.PrepareTimestamps ProcessRoot.doc false []]
          ++ (if (doc.resolveTimeSpanning R).2.isEmpty then []
              else [Event.logWarning
                      (toString (doc.resolveTimeSpanning R).2.length
                        ++ " time spanning element(s) could not be matched")]) := by
  unfold Doc.resolveTimeSpanning
  dsimp only
  cases hE : (R.prepareTimeSpanning true true doc []).isEmpty
  · simp only [Bool.not_false, if_true, Bool.false_eq_true, if_false]
    refine ⟨trivial, ?_⟩
    split_ifs <;> simp_all [Doc.Process, Doc.record]
  · have hnil : R.prepareTimeSpanning true true doc [] = [] := by simpa using hE
    simp only [Bool.not_true, Bool.false_eq_true, if_false, if_true, hnil]
    refine ⟨trivial, ?_⟩
    split_ifs <;> simp_all [Doc.Process, Doc.record]

/-- The steps of the resolution of the lists, for any traversals. -/
theorem resolvePlist_steps (R : Resolvers) (doc : Doc) :
    (doc.resolvePlist R).log
      = doc.log
        ++ [Event.process (FunctorName.PreparePlist true) ProcessRoot.doc false []]
        ++ (if (R.preparePlist false true doc []).isEmpty then []
            else [Event.process (FunctorName.PreparePlist false) ProcessRoot.doc true []])
        ++ (if (if (R.preparePlist false true doc []).isEmpty then ([] : List (String × String))
                else R.preparePlist true false
                  (doc.Process (FunctorName.PreparePlist true) ProcessRoot.doc false [])
                  (R.preparePlist false true doc [])).isEmpty then []
            else [Event.logWarning
                    (toString
                        (R.preparePlist true false
                          (doc.Process (FunctorName.PreparePlist true) ProcessRoot.doc false [])
                          (R.preparePlist false true doc [])).length
                      ++ " element(s) with a @plist could match the target")]) := by
  unfold Doc.resolvePlist
  dsimp only
  cases hE : (R.preparePlist false true doc []).isEmpty
  · simp only [Bool.not_false, if_true, Bool.false_eq_true, if_false]
    split_ifs <;> simp_all [Doc.Process, Doc.record]
  · simp only [Bool.not_true, Bool.false_eq_true, if_false, if_true, List.isEmpty_nil, hE]
    simp [Doc.Process, Doc.record]

/-- The log after a traversal. -/
theorem Process_log (doc : Doc) (functor : FunctorName) (root : ProcessRoot)
    (backward : Bool) (filters : List (ClassId × Int)) :
    (doc.Process functor root backward filters).log
      = doc.log ++ [Event.process functor root backward filters] := rfl

/-- The log after the loops over a layer tree with one filtered traversal per layer. -/
theorem forEachLayer_log (layerTree : LayerTree) (functor : FunctorName) (doc : Doc) :
    (doc.forEachLayer layerTree
        (fun staffN layerN doc =>
          doc.Process functor ProcessRoot.doc false
            [(ClassId.STAFF, staffN), (ClassId.LAYER, layerN)])).log
      = doc.log ++ layerTree.pairs.map (layerPass functor) := by
  unfold Doc.forEachLayer LayerTree.pairs
  generalize layerTree.entries = staves
  induction staves generalizing doc with
  | nil => simp
  | cons st rest ih =>
    simp only [List.foldl_cons, List.flatMap_cons, List.map_append, List.map_map]
    rw [ih]
    have inner : ∀ (layers : List (Int × Unit)) (d : Doc),
        (layers.foldl
            (fun doc layers =>
              doc.Process functor ProcessRoot.doc false
                [(ClassId.STAFF, st.1), (ClassId.LAYER, layers.1)]) d).log
          = d.log ++ layers.map (fun la => layerPass functor (st.1, la.1)) := by
      intro layers
      induction layers with
      | nil => intro d; simp
      | cons la more ih2 =>
        intro d
        simp only [List.foldl_cons, List.map_cons]
        rw [ih2, Process_log]
        simp [layerPass]
    rw [inner]
    simp [Function.comp_def, List.append_assoc]

/-- The log after the loops over a verse tree with one filtered traversal per verse. -/
theorem forEachVerse_log (verseTree : VerseTree) (functor : FunctorName) (doc : Doc) :
    (doc.forEachVerse verseTree
        (fun staffN layerN verseN doc =>
          doc.Process functor ProcessRoot.doc false
            [(ClassId.STAFF, staffN), (ClassId.LAYER, layerN), (ClassId.VERSE, verseN)])).log
      = doc.log ++ verseTree.triples.map (versePass functor) := by
  unfold Doc.forEachVerse VerseTree.triples
  generalize verseTree.entries = staves
  induction staves generalizing doc with
  | nil => simp
  | cons st rest ih =>
    simp only [List.foldl_cons, List.flatMap_cons, List.map_append]
    rw [ih]
    have middle : ∀ (layers : List (Int × IntMap Unit)) (d : Doc),
        (layers.foldl
            (fun doc layers =>
              layers.2.entries.foldl
                (fun doc verses =>
                  doc.Process functor ProcessRoot.doc false
                    [(ClassId.STAFF, st.1), (ClassId.LAYER, layers.1),
                      (ClassId.VERSE, verses.1)]) doc) d).log
          = d.log
            ++ (layers.flatMap
                (fun layers => layers.2.entries.map
                  (fun verses => (st.1, layers.1, verses.1)))).map (versePass functor) := by
      intro layers
      induction layers with
      | nil => intro d; simp
      | cons la more ih2 =>
        intro d
        simp only [List.foldl_cons, List.flatMap_cons, List.map_append, List.map_map]
        rw [ih2]
        have inner : ∀ (verses : List (Int × Unit)) (d : Doc),
            (verses.foldl
                (fun doc verses =>
                  doc.Process functor ProcessRoot.doc false
                    [(ClassId.STAFF, st.1), (ClassId.LAYER, la.1),
                      (ClassId.VERSE, verses.1)]) d).log
              = d.log ++ verses.map (fun ve => versePass functor (st.1, la.1, ve.1)) := by
          intro verses
          induction verses with
          | nil => intro d; simp
          | cons ve others ih3 =>
            intro d
            simp only [List.foldl_cons, List.map_cons]
            rw [ih3, Process_log]
            simp [versePass]
        rw [inner]
        simp [Function.comp_def, List.append_assoc]
    rw [middle]
    simp [List.append_assoc]

/-- The log of `PrepareDrawing` from the `PrepareProcessingLists` traversal on: the
passes by layer for the pointers, the passes by verse for the lyrics, the traversal for
the running spanning elements with its debug message, if any, the passes by layer for
the measure repeats, and the four last traversals. -/
theorem PrepareDrawing_log (R : Resolvers) (doc : Doc) :
    (doc.PrepareDrawing R).log
      = (doc.atProcessingLists R).log
        ++ [Event.process FunctorName.PrepareProcessingLists ProcessRoot.doc false []]
        ++ (R.layerTree (doc.atProcessingLists R)).pairs.map
            (layerPass FunctorName.PreparePointersByLayer)
        ++ (R.verseTree (doc.atProcessingLists R)).triples.map
            (versePass FunctorName.PrepareLyrics)
        ++ [Event.process FunctorName.FillStaffCurrentTimeSpanning ProcessRoot.doc false []]
        ++ doc.runningSpanningDebug R
        ++ (R.layerTree (doc.atProcessingLists R)).pairs.map
            (layerPass FunctorName.PrepareRpt)
        ++ [Event.process FunctorName.PrepareBoundaries ProcessRoot.doc false [],
            Event.process FunctorName.PrepareFloatingGrps ProcessRoot.doc false [],
            Event.process FunctorName.PrepareDrawingCueSize ProcessRoot.doc false [],
            Event.process FunctorName.PrepareLayerElementParts ProcessRoot.doc false []] := by
  have hstate : doc.PrepareDrawing R
      = { (Doc.forEachLayer (R.layerTree (doc.atProcessingLists R))
            (fun staffN layerN doc =>
              doc.Process FunctorName.PrepareRpt ProcessRoot.doc false
                [(ClassId.STAFF, staffN), (ClassId.LAYER, layerN)])
            (if (!(R.fillStaffCurrentTimeSpanning (doc.atRunningSpanning R)).isEmpty) = true then
              ((doc.atRunningSpanning R).Process FunctorName.FillStaffCurrentTimeSpanning
                ProcessRoot.doc false []).record
                (Event.logDebug
                  (toString (R.fillStaffCurrentTimeSpanning (doc.atRunningSpanning R)).length
                    ++ " time spanning elements could not be set as running"))
            else
              (doc.atRunningSpanning R).Process FunctorName.FillStaffCurrentTimeSpanning
                ProcessRoot.doc false [])
          |>.Process FunctorName.PrepareBoundaries ProcessRoot.doc false []
          |>.Process FunctorName.PrepareFloatingGrps ProcessRoot.doc false []
          |>.Process FunctorName.PrepareDrawingCueSize ProcessRoot.doc false []
          |>.Process FunctorName.PrepareLayerElementParts ProcessRoot.doc false []) with
          m_drawingPreparationDone := true } := rfl
  have hrun : (doc.atRunningSpanning R).log
      = (doc.atProcessingLists R).log
        ++ [Event.process FunctorName.PrepareProcessingLists ProcessRoot.doc false []]
        ++ (R.layerTree (doc.atProcessingLists R)).pairs.map
            (layerPass FunctorName.PreparePointersByLayer)
        ++ (R.verseTree (doc.atProcessingLists R)).triples.map
            (versePass FunctorName.PrepareLyrics) := by
    unfold Doc.atRunningSpanning
    rw [forEachVerse_log, forEachLayer_log, Process_log]
  rw [hstate]
  show (Doc.Process _ _ _ _ _).log = _
  simp only [Process_log, forEachLayer_log]
  unfold Doc.runningSpanningDebug
  cases hE : (R.fillStaffCurrentTimeSpanning (doc.atRunningSpanning R)).isEmpty
  · simp only [Bool.not_false, if_true, Bool.false_eq_true, if_false, Doc.record,
      Process_log, hrun, List.append_assoc, List.cons_append, List.nil_append]
  · simp only [Bool.not_true, Bool.false_eq_true, if_false, if_true,
      Process_log, hrun, List.append_assoc, List.cons_append, List.nil_append]

/-- The ascending order of the pairs of a layer tree. -/
theorem LayerTree_pairs_pairwise (layerTree : LayerTree) :
    layerTree.pairs.Pairwise pairBefore := by
  unfold LayerTree.pairs
  rw [List.pairwise_flatMap]
  constructor
  · intro st _
    have h := st.2.ordered
    rw [List.pairwise_map] at h ⊢
    exact h.imp (fun hab => Or.inr ⟨rfl, hab⟩)
  · have h := layerTree.ordered
    rw [List.pairwise_map] at h
    refine h.imp ?_
    intro a b hab x hx y hy
    simp only [List.mem_map] at hx hy
    obtain ⟨la, -, rfl⟩ := hx
    obtain ⟨lb, -, rfl⟩ := hy
    exact Or.inl hab

/-- The ascending order of the triples of a verse tree. -/
theorem VerseTree_triples_pairwise (verseTree : VerseTree) :
    verseTree.triples.Pairwise tripleBefore := by
  unfold VerseTree.triples
  rw [List.pairwise_flatMap]
  constructor
  · intro st _
    rw [List.pairwise_flatMap]
    constructor
    · intro la _
      have h := la.2.ordered
      rw [List.pairwise_map] at h ⊢
      exact h.imp (fun hab => Or.inr ⟨rfl, Or.inr ⟨rfl, hab⟩⟩)
    · have h := st.2.ordered
      rw [List.pairwise_map] at h
      refine h.imp ?_
      intro a b hab x hx y hy
      simp only [List.mem_map] at hx hy
      obtain ⟨va, -, rfl⟩ := hx
      obtain ⟨vb, -, rfl⟩ := hy
      exact Or.inr ⟨rfl, Or.inl hab⟩
  · have h := verseTree.ordered
    rw [List.pairwise_map] at h
    refine h.imp ?_
    intro a b hab x hx y hy
    simp only [List.mem_flatMap, List.mem_map] at hx hy
    obtain ⟨la, -, va, -, rfl⟩ := hx
    obtain ⟨lb, -, vb, -, rfl⟩ := hy
    exact Or.inl hab

/-- No pass by layer occurs twice. -/
theorem layerPasses_nodup (layerTree : LayerTree) (functor : FunctorName) :
    (layerTree.pairs.map (layerPass functor)).Nodup := by
  have h := LayerTree_pairs_pairwise layerTree
  unfold List.Nodup
  rw [List.pairwise_map]
  refine h.imp ?_
  intro a b hab heq
  simp only [layerPass, Event.process.injEq, List.cons.injEq, Prod.mk.injEq, true_and,
    and_true] at heq
  rcases hab with h1 | ⟨-, h2⟩
  · omega
  · omega

/-- No pass by verse occurs twice. -/
theorem versePasses_nodup (verseTree : VerseTree) (functor : FunctorName) :
    (verseTree.triples.map (versePass functor)).Nodup := by
  have h := VerseTree_triples_pairwise verseTree
  unfold List.Nodup
  rw [List.pairwise_map]
  refine h.imp ?_
  intro a b hab heq
  simp only [versePass, Event.process.injEq, List.cons.injEq, Prod.mk.injEq, true_and,
    and_true] at heq
  rcases hab with h1 | ⟨-, h2 | ⟨-, h3⟩⟩
  · omega
  · omega
  · omega

/-- The passes by layer with one functor, seen through the filter of another. -/
theorem filter_isPass_layerPasses (f g : FunctorName) (pairs : List (Int × Int)) :
    (pairs.map (layerPass g)).filter (Event.isPass f)
      = if g = f then pairs.map (layerPass g) else [] := by
  induction pairs with
  | nil => simp
  | cons p rest ih =>
    simp only [List.map_cons, List.filter_cons, ih]
    by_cases h : g = f <;> simp [h, layerPass, Event.isPass]

/-- The passes by verse with one functor, seen through the filter of another. -/
theorem filter_isPass_versePasses (f g : FunctorName) (triples : List (Int × Int × Int)) :
    (triples.map (versePass g)).filter (Event.isPass f)
      = if g = f then triples.map (versePass g) else [] := by
  induction triples with
  | nil => simp
  | cons p rest ih =>
    simp only [List.map_cons, List.filter_cons, ih]
    by_cases h : g = f <;> simp [h, versePass, Event.isPass]

/-- The log of `PrepareDrawing` up to the `PrepareProcessingLists` traversal, in full. -/
theorem atProcessingLists_log (R : Resolvers) (doc : Doc) :
    (doc.atProcessingLists R).log
      = doc.afterResetPass.log
        ++ [Event.process (FunctorName.PrepareTimeSpanning true) ProcessRoot.doc true []]
        ++ (if (doc.spanningFirst R).isEmpty then []
            else [Event.process (FunctorName.PrepareTimeSpanning false) ProcessRoot.doc
                    false []])
        ++ [Event.process FunctorName.PrepareTimePointing ProcessRoot.doc true [],
            Event.process FunctorName.PrepareTimestamps ProcessRoot.doc false []]
        ++ (if (doc.spanningPending R).isEmpty then []
            else [Event.logWarning
                    (toString (doc.spanningPending R).length
                      ++ " time spanning element(s) could not be matched")])
        ++ [Event.process (FunctorName.PreparePlist true) ProcessRoot.doc false []]
        ++ (if (doc.plistFirst R).isEmpty then []
            else [Event.process (FunctorName.PreparePlist false) ProcessRoot.doc true []])
        ++ (if (doc.plistPending R).isEmpty then []
            else [Event.logWarning
                    (toString (doc.plistPending R).length
                      ++ " element(s) with a @plist could match the target")])
        ++ [Event.process FunctorName.PrepareCrossStaff ProcessRoot.doc false []] := by
  have e2 := (resolveTimeSpanning_steps R doc.afterResetPass).2
  have e3 := resolvePlist_steps R (doc.afterResetPass.resolveTimeSpanning R).1
  have hat : doc.atProcessingLists R
      = (Doc.resolvePlist R (doc.afterResetPass.resolveTimeSpanning R).1).Process
          FunctorName.PrepareCrossStaff ProcessRoot.doc false [] := rfl
  rw [hat, Process_log, e3, e2]
  have hpend : doc.plistPending R
      = if (doc.plistFirst R).isEmpty then []
        else
          R.preparePlist true false
            ((doc.afterResetPass.resolveTimeSpanning R).1.Process
              (FunctorName.PreparePlist true) ProcessRoot.doc false [])
            (doc.plistFirst R) := rfl
  unfold Doc.spanningPending Doc.spanningFirst
  cases hE : (doc.plistFirst R).isEmpty
  · rw [hpend]
    simp only [Doc.plistFirst] at hE ⊢
    simp only [hE, Bool.false_eq_true, if_false]
  · rw [hpend]
    simp only [Doc.plistFirst] at hE ⊢
    simp only [hE, if_true, List.isEmpty_nil]

/-- The log after the first statement of `PrepareDrawing`. -/
theorem afterResetPass_log (doc : Doc) :
    doc.afterResetPass.log
      = doc.log ++ (if doc.m_drawingPreparationDone then [resetDrawingPass] else []) := by
  unfold Doc.afterResetPass
  split_ifs <;> simp [Process_log, resetDrawingPass]

/-- The traversals of `PrepareDrawing` up to the `PrepareProcessingLists` traversal are
traversals of the resolution. -/
theorem atProcessingLists_filter (R : Resolvers) (doc : Doc) (f : FunctorName)
    (h0 : f ≠ FunctorName.PrepareTimeSpanning true)
    (h1 : f ≠ FunctorName.PrepareTimeSpanning false)
    (h2 : f ≠ FunctorName.PrepareTimePointing) (h3 : f ≠ FunctorName.PrepareTimestamps)
    (h4 : f ≠ FunctorName.PreparePlist true) (h5 : f ≠ FunctorName.PreparePlist false)
    (h6 : f ≠ FunctorName.PrepareCrossStaff) :
    (doc.atProcessingLists R).log.filter (Event.isPass f)
      = doc.afterResetPass.log.filter (Event.isPass f) := by
  rw [atProcessingLists_log]
  generalize doc.afterResetPass.log = a
  generalize (doc.spanningFirst R).isEmpty = c1
  generalize doc.spanningPending R = l2
  generalize (doc.plistFirst R).isEmpty = c3
  generalize doc.plistPending R = l4
  have g0 := Ne.symm h0
  have g1 := Ne.symm h1
  have g2 := Ne.symm h2
  have g3 := Ne.symm h3
  have g4 := Ne.symm h4
  have g5 := Ne.symm h5
  have g6 := Ne.symm h6
  simp [apply_ite (List.filter (Event.isPass f)), Event.isPass, g0, g1, g2, g3, g4, g5, g6]

/-- The debug message of `PrepareDrawing` is no traversal. -/
theorem runningSpanningDebug_filter (R : Resolvers) (doc : Doc) (f : FunctorName) :
    (doc.runningSpanningDebug R).filter (Event.isPass f) = [] := by
  unfold Doc.runningSpanningDebug
  split_ifs <;> simp [Event.isPass]

/-- Claim C22: both two-phase resolutions of `PrepareDrawing` retry on the remainder
only.  The spanning elements are traversed backward first, filling the list; a forward
traversal follows exactly when the list left is not empty, it does not fill the list
and starts from the list left; the list it leaves goes to the timestamps traversal, and
the warning with the number of pending entries is logged exactly when entries remain
after that.  The lists are traversed forward first; a backward traversal follows exactly
when pairs are left, without filling, from the pairs left; the warning with the number
of pending pairs is logged exactly when pairs remain. -/
theorem PrepareDrawing_retries_on_remainder (R : Resolvers) (doc : Doc) :
    (∃ later : List Event,
      (doc.PrepareDrawing R).log
        = doc.afterResetPass.log
          ++ [Event.process (FunctorName.PrepareTimeSpanning true) ProcessRoot.doc true []]
          ++ (if (doc.spanningFirst R).isEmpty then []
              else [Event.process (FunctorName.PrepareTimeSpanning false) ProcessRoot.doc
                      false []])
          ++ [Event.process FunctorName.PrepareTimePointing ProcessRoot.doc true [],
              Event.process FunctorName.PrepareTimestamps ProcessRoot.doc false []]
          ++ (if (doc.spanningPending R).isEmpty then []
              else [Event.logWarning
                      (toString (doc.spanningPending R).length
                        ++ " time spanning element(s) could not be matched")])
          ++ [Event.process (FunctorName.PreparePlist true) ProcessRoot.doc false []]
          ++ (if (doc.plistFirst R).isEmpty then []
              else [Event.process (FunctorName.PreparePlist false) ProcessRoot.doc true []])
          ++ (if (doc.plistPending R).isEmpty then []
              else [Event.logWarning
                      (toString (doc.plistPending R).length
                        ++ " element(s) with a @plist could match the target")])
          ++ Event.process FunctorName.PrepareCrossStaff ProcessRoot.doc false [] :: later)
      ∧ doc.spanningFirst R = R.prepareTimeSpanning true true doc.afterResetPass []
      ∧ doc.spanningRetried R
          = (if (doc.spanningFirst R).isEmpty then []
            else
              R.prepareTimeSpanning false false
                (doc.afterResetPass.Process (FunctorName.PrepareTimeSpanning true)
                  ProcessRoot.doc true [])
                (doc.spanningFirst R))
      ∧ (∃ d : Doc, doc.spanningPending R = R.prepareTimestamps d (doc.spanningRetried R))
      ∧ doc.plistFirst R
          = R.preparePlist false true (doc.afterResetPass.resolveTimeSpanning R).1 []
      ∧ doc.plistPending R
          = (if (doc.plistFirst R).isEmpty then []
            else
              R.preparePlist true false
                ((doc.afterResetPass.resolveTimeSpanning R).1.Process
                  (FunctorName.PreparePlist true) ProcessRoot.doc false [])
                (doc.plistFirst R)) := by
  refine ⟨?_, rfl, rfl, ⟨_, (resolveTimeSpanning_steps R doc.afterResetPass).1⟩, rfl, rfl⟩
  rw [PrepareDrawing_log, atProcessingLists_log]
  generalize doc.afterResetPass.log = a
  generalize (doc.spanningFirst R).isEmpty = c1
  generalize doc.spanningPending R = l2
  generalize (doc.plistFirst R).isEmpty = c3
  generalize doc.plistPending R = l4
  generalize doc.runningSpanningDebug R = dbg
  generalize (R.layerTree (doc.atProcessingLists R)).pairs = pairs
  generalize (R.verseTree (doc.atProcessingLists R)).triples = triples
  have hshape : ∀ (x c : List Event) (y1 y2 y3 y4 y5 y6 y7 : List Event),
      x ++ c ++ y1 ++ y2 ++ y3 ++ y4 ++ y5 ++ y6 ++ y7
        = x ++ (c ++ (y1 ++ y2 ++ y3 ++ y4 ++ y5 ++ y6 ++ y7)) := by
    intros
    simp
  rw [hshape]
  exact ⟨_, rfl⟩

/-- The traversals with a given functor that `PrepareDrawing` adds to the log, for a
functor that is none of the resolution up to the cross-staff traversal, nor the reset
pass, nor one of the single traversals that follow. -/
theorem PrepareDrawing_filter (R : Resolvers) (doc : Doc) (f : FunctorName)
    (hr : f ≠ FunctorName.ResetDrawing)
    (h0 : f ≠ FunctorName.PrepareTimeSpanning true)
    (h1 : f ≠ FunctorName.PrepareTimeSpanning false)
    (h2 : f ≠ FunctorName.PrepareTimePointing) (h3 : f ≠ FunctorName.PrepareTimestamps)
    (h4 : f ≠ FunctorName.PreparePlist true) (h5 : f ≠ FunctorName.PreparePlist false)
    (h6 : f ≠ FunctorName.PrepareCrossStaff)
    (h7 : f ≠ FunctorName.PrepareProcessingLists)
    (h8 : f ≠ FunctorName.FillStaffCurrentTimeSpanning)
    (h9 : f ≠ FunctorName.PrepareBoundaries) (h10 : f ≠ FunctorName.PrepareFloatingGrps)
    (h11 : f ≠ FunctorName.PrepareDrawingCueSize)
    (h12 : f ≠ FunctorName.PrepareLayerElementParts) :
    (doc.PrepareDrawing R).log.filter (Event.isPass f)
      = doc.log.filter (Event.isPass f)
        ++ (if FunctorName.PreparePointersByLayer = f then
              (R.layerTree (doc.atProcessingLists R)).pairs.map
                (layerPass FunctorName.PreparePointersByLayer)
            else [])
        ++ (if FunctorName.PrepareLyrics = f then
              (R.verseTree (doc.atProcessingLists R)).triples.map
                (versePass FunctorName.PrepareLyrics)
            else [])
        ++ (if FunctorName.PrepareRpt = f then
              (R.layerTree (doc.atProcessingLists R)).pairs.map
                (layerPass FunctorName.PrepareRpt)
            else []) := by
  rw [PrepareDrawing_log]
  simp only [List.filter_append, atProcessingLists_filter R doc f h0 h1 h2 h3 h4 h5 h6,
    afterResetPass_log, runningSpanningDebug_filter, filter_isPass_layerPasses,
    filter_isPass_versePasses]
  generalize (R.layerTree (doc.atProcessingLists R)).pairs = pairs
  generalize (R.verseTree (doc.atProcessingLists R)).triples = triples
  have gr := Ne.symm hr
  have g7 := Ne.symm h7
  have g8 := Ne.symm h8
  have g9 := Ne.symm h9
  have g10 := Ne.symm h10
  have g11 := Ne.symm h11
  have g12 := Ne.symm h12
  simp [apply_ite (List.filter (Event.isPass f)), Event.isPass, resetDrawingPass, gr, g7, g8,
    g9, g10, g11, g12]

/-- Claim C23: in `PrepareDrawing`, the traversals for the pointers by layer and for the
measure repeats that are added to the log are one per pair of a staff number and a layer
number of the layer tree, and the traversals for the lyrics one per triple of a staff
number, a layer number and a verse number of the verse tree; each is filtered by the
comparisons of the staff number, the layer number (and the verse number), in that order;
the pairs and the triples come in ascending order of the keys, so none comes twice. -/
theorem PrepareDrawing_passes_by_layer_and_verse (R : Resolvers) (doc : Doc) :
    (doc.PrepareDrawing R).log.filter (Event.isPass FunctorName.PreparePointersByLayer)
        = doc.log.filter (Event.isPass FunctorName.PreparePointersByLayer)
          ++ (R.layerTree (doc.atProcessingLists R)).pairs.map
              (fun p => Event.process FunctorName.PreparePointersByLayer ProcessRoot.doc false
                [(ClassId.STAFF, p.1), (ClassId.LAYER, p.2)])
      ∧ (doc.PrepareDrawing R).log.filter (Event.isPass FunctorName.PrepareRpt)
        = doc.log.filter (Event.isPass FunctorName.PrepareRpt)
          ++ (R.layerTree (doc.atProcessingLists R)).pairs.map
              (fun p => Event.process FunctorName.PrepareRpt ProcessRoot.doc false
                [(ClassId.STAFF, p.1), (ClassId.LAYER, p.2)])
      ∧ (doc.PrepareDrawing R).log.filter (Event.isPass FunctorName.PrepareLyrics)
        = doc.log.filter (Event.isPass FunctorName.PrepareLyrics)
          ++ (R.verseTree (doc.atProcessingLists R)).triples.map
              (fun p => Event.process FunctorName.PrepareLyrics ProcessRoot.doc false
                [(ClassId.STAFF, p.1), (ClassId.LAYER, p.2.1), (ClassId.VERSE, p.2.2)])
      ∧ (R.layerTree (doc.atProcessingLists R)).pairs.Pairwise pairBefore
      ∧ (R.verseTree (doc.atProcessingLists R)).triples.Pairwise tripleBefore
      ∧ (R.layerTree (doc.atProcessingLists R)).pairs.Nodup
      ∧ (R.verseTree (doc.atProcessingLists R)).triples.Nodup
      ∧ (∀ s l : Int,
          (s, l) ∈ (R.layerTree (doc.atProcessingLists R)).pairs
            ↔ ∃ layers, (s, layers) ∈ (R.layerTree (doc.atProcessingLists R)).entries
                ∧ (l, ()) ∈ layers.entries)
      ∧ (∀ s l v : Int,
          (s, l, v) ∈ (R.verseTree (doc.atProcessingLists R)).triples
            ↔ ∃ layers verses,
                (s, layers) ∈ (R.verseTree (doc.atProcessingLists R)).entries
                  ∧ (l, verses) ∈ layers.entries ∧ (v, ()) ∈ verses.entries) := by
  have e1 := PrepareDrawing_filter R doc FunctorName.PreparePointersByLayer
    (by decide) (by decide) (by decide) (by decide) (by decide) (by decide) (by decide)
    (by decide) (by decide) (by decide) (by decide) (by decide) (by decide) (by decide)
  have e2 := PrepareDrawing_filter R doc FunctorName.PrepareRpt
    (by decide) (by decide) (by decide) (by decide) (by decide) (by decide) (by decide)
    (by decide) (by decide) (by decide) (by decide) (by decide) (by decide) (by decide)
  have e3 := PrepareDrawing_filter R doc FunctorName.PrepareLyrics
    (by decide) (by decide) (by decide) (by decide) (by decide) (by decide) (by decide)
    (by decide) (by decide) (by decide) (by decide) (by decide) (by decide) (by decide)
  simp only [if_true, List.append_nil, reduceCtorEq, if_false] at e1 e2 e3
  have hp := LayerTree_pairs_pairwise (R.layerTree (doc.atProcessingLists R))
  have ht := VerseTree_triples_pairwise (R.verseTree (doc.atProcessingLists R))
  refine ⟨e1, e2, e3, hp, ht, ?_, ?_, ?_, ?_⟩
  · refine hp.imp ?_
    intro a b hab heq
    subst heq
    rcases hab with h | ⟨-, h⟩ <;> omega
  · refine ht.imp ?_
    intro a b hab heq
    subst heq
    rcases hab with h | ⟨-, h | ⟨-, h⟩⟩ <;> omega
  · intro s l
    simp only [LayerTree.pairs, List.mem_flatMap, List.mem_map, Prod.mk.injEq]
    constructor
    · rintro ⟨st, hst, la, hla, rfl, rfl⟩
      exact ⟨st.2, hst, hla⟩
    · rintro ⟨layers, hst, hla⟩
      exact ⟨(s, layers), hst, (l, ()), hla, rfl, rfl⟩
  · intro s l v
    simp only [VerseTree.triples, List.mem_flatMap, List.mem_map, Prod.mk.injEq]
    constructor
    · rintro ⟨st, hst, la, hla, ve, hve, rfl, rfl, rfl⟩
      exact ⟨st.2, la.2, hst, hla, hve⟩
    · rintro ⟨layers, verses, hst, hla, hve⟩
      exact ⟨(s, layers), hst, (l, verses), hla, (v, ()), hve, rfl, rfl, rfl⟩

/-- The passes for the measure repeats on the sample traversals, with two staves and two
layers on the second one: three passes, in ascending order of the staff and the layer. -/
theorem sampleResolvers_PrepareRpt_passes :
    (sampleDoc.PrepareDrawing sampleResolvers).log.filter
        (Event.isPass FunctorName.PrepareRpt)
      = [Event.process FunctorName.PrepareRpt ProcessRoot.doc false
          [(ClassId.STAFF, 1), (ClassId.LAYER, 1)],
        Event.process FunctorName.PrepareRpt ProcessRoot.doc false
          [(ClassId.STAFF, 2), (ClassId.LAYER, 1)],
        Event.process FunctorName.PrepareRpt ProcessRoot.doc false
          [(ClassId.STAFF, 2), (ClassId.LAYER, 2)]] := by
  decide

/-- Claim C24: `PrepareDrawing` starts with the `ResetDrawing` pass over the document
exactly when the drawing preparation had been done before; the backward traversal of the
spanning elements, the first traversal of the resolution, comes right after, no other
reset pass follows, and the flag is set on return. -/
theorem PrepareDrawing_resets_when_done_before (R : Resolvers) (doc : Doc) :
    (doc.PrepareDrawing R).m_drawingPreparationDone = true
      ∧ ∃ later : List Event,
          (doc.PrepareDrawing R).log
              = doc.log
                ++ (if doc.m_drawingPreparationDone then
                      [Event.process FunctorName.ResetDrawing ProcessRoot.doc false []]
                    else [])
                ++ Event.process (FunctorName.PrepareTimeSpanning true) ProcessRoot.doc true []
                  :: later
            ∧ later.filter (Event.isPass FunctorName.ResetDrawing) = [] := by
  refine ⟨rfl, ?_⟩
  have hlog : (doc.PrepareDrawing R).log
      = doc.log
        ++ (if doc.m_drawingPreparationDone then
              [Event.process FunctorName.ResetDrawing ProcessRoot.doc false []]
            else [])
        ++ Event.process (FunctorName.PrepareTimeSpanning true) ProcessRoot.doc true []
          :: (((doc.PrepareDrawing R).log.drop doc.log.length).drop
                ((if doc.m_drawingPreparationDone then
                    [Event.process FunctorName.ResetDrawing ProcessRoot.doc false []]
                  else []).length + 1)) := by
    rw [PrepareDrawing_log, atProcessingLists_log, afterResetPass_log]
    generalize (doc.spanningFirst R).isEmpty = c1
    generalize doc.spanningPending R = l2
    generalize (doc.plistFirst R).isEmpty = c3
    generalize doc.plistPending R = l4
    generalize doc.runningSpanningDebug R = dbg
    generalize (R.layerTree (doc.atProcessingLists R)).pairs = pairs
    generalize (R.verseTree (doc.atProcessingLists R)).triples = triples
    cases doc.m_drawingPreparationDone <;> simp [resetDrawingPass]
  refine ⟨_, hlog, ?_⟩
  have hsplit : ∀ (a r : List Event) (e : Event) (l : List Event),
      ((a ++ r ++ e :: l).drop a.length).drop (r.length + 1) = l := by
    intro a r e l
    simp [List.append_assoc]
  have hfull : (doc.PrepareDrawing R).log.filter (Event.isPass FunctorName.ResetDrawing)
      = doc.log.filter (Event.isPass FunctorName.ResetDrawing)
        ++ (if doc.m_drawingPreparationDone then
              [Event.process FunctorName.ResetDrawing ProcessRoot.doc false []]
            else []) := by
    rw [PrepareDrawing_log]
    simp only [List.filter_append,
      atProcessingLists_filter R doc FunctorName.ResetDrawing (by decide) (by decide)
        (by decide) (by decide) (by decide) (by decide) (by decide),
      afterResetPass_log, runningSpanningDebug_filter, filter_isPass_layerPasses,
      filter_isPass_versePasses]
    cases doc.m_drawingPreparationDone <;> simp [Event.isPass, resetDrawingPass]
  generalize hl : ((doc.PrepareDrawing R).log.drop doc.log.length).drop
      ((if doc.m_drawingPreparationDone then
          [Event.process FunctorName.ResetDrawing ProcessRoot.doc false []]
        else []).length + 1) = later at hlog ⊢
  rw [hlog] at hfull
  generalize doc.log = a at hfull
  revert hfull
  cases doc.m_drawingPreparationDone <;> intro hfull <;>
    simpa [List.filter_append, List.filter_cons, Event.isPass] using hfull

/-! ## The implicit layout of CalculateMidiTimemap -/

/-- The log after a collection of the score definitions that is not forced. -/
theorem CollectScoreDefs_unforced (doc : Doc) :
    (doc.CollectScoreDefs false).log
        = doc.log
          ++ (if doc.m_currentScoreDefDone then []
              else [setUpcomingScoreDefPass, setCurrentScoreDefPass])
      ∧ (doc.CollectScoreDefs false).m_scoreDef = doc.m_scoreDef := by
  cases h : doc.m_currentScoreDefDone <;>
    simp [Doc.CollectScoreDefs, h, Doc.Process, Doc.record, setUpcomingScoreDefPass,
      setCurrentScoreDefPass]

/-- The three traversals of the time map change neither the drawing page nor the
tree. -/
theorem calculateTimemapPasses_frame (doc : Doc) :
    doc.calculateTimemapPasses.m_drawingPage = doc.m_drawingPage
      ∧ doc.calculateTimemapPasses.pages = doc.pages := by
  cases h : doc.m_scoreDef.midiBpm <;>
    simp [Doc.calculateTimemapPasses, h, Doc.Process, Doc.record]

/-- What `CalculateMidiTimemap` does on a document with a Pages container: with no
drawing page and one page, page 0 is selected, the score definitions are collected and
the page is laid out horizontally before the three traversals; otherwise the three
traversals run at once.  No assertion fails and there is no early return. -/
theorem CalculateMidiTimemap_eq (doc : Doc) (ps : List Page) (h : doc.pages = some ps) :
    (doc.m_drawingPage = none ∧ ps.length = 1 →
        ∃ (d1 : Doc) (page : Page),
          Doc.SetDrawingPage { doc with m_hasMidiTimemap := false } 0 = .ok (d1, some page)
            ∧ d1.log = doc.log ∧ d1.m_currentScoreDefDone = doc.m_currentScoreDefDone
            ∧ d1.m_drawingPage = some 0 ∧ d1.m_scoreDef = doc.m_scoreDef
            ∧ doc.CalculateMidiTimemap
              = .ok (((d1.CollectScoreDefs false).record
                  Event.layOutHorizontally).calculateTimemapPasses))
      ∧ (¬ (doc.m_drawingPage = none ∧ ps.length = 1) →
          doc.CalculateMidiTimemap
            = .ok (Doc.calculateTimemapPasses { doc with m_hasMidiTimemap := false })) := by
  constructor
  · rintro ⟨hdp, hlen⟩
    obtain ⟨page, rfl⟩ : ∃ page, ps = [page] := by
      cases ps with
      | nil => cases hlen
      | cons a l =>
        cases l with
        | nil => exact ⟨a, rfl⟩
        | cons b m => simp at hlen
    obtain ⟨d1, e1, -, hl, hf, -, -, -, -, hd⟩ :=
      SetDrawingPage_ok { doc with m_hasMidiTimemap := false } [page] h 0 page (by rfl)
    simp only [Nat.cast_zero] at e1
    have hsd : d1.m_scoreDef = doc.m_scoreDef := (SetDrawingPage_scoreDef _ _ _ _ e1).1
    have hl2 : d1.log = doc.log := hl
    have hf2 : d1.m_currentScoreDefDone = doc.m_currentScoreDefDone := hf
    refine ⟨d1, page, e1, hl2, hf2, hd, hsd, ?_⟩
    have hDdp : Doc.m_drawingPage { doc with m_hasMidiTimemap := false } = none := hdp
    have hDc : Doc.GetPageCount { doc with m_hasMidiTimemap := false } = .ok 1 := by
      simp [Doc.GetPageCount, Doc.GetPages, h]
    unfold Doc.CalculateMidiTimemap
    generalize ({ doc with m_hasMidiTimemap := false } : Doc) = D at e1 hDdp hDc ⊢
    simp only [bind, Except.bind, pure, Except.pure, hDdp, Option.isNone_none, if_true, hDc,
      e1]
  · intro hnot
    rcases Option.eq_none_or_eq_some doc.m_drawingPage with hdp | ⟨i, hdp⟩
    rotate_left
    · have hDdp : Doc.m_drawingPage { doc with m_hasMidiTimemap := false } = some i := hdp
      unfold Doc.CalculateMidiTimemap
      generalize ({ doc with m_hasMidiTimemap := false } : Doc) = D at hDdp ⊢
      simp only [bind, Except.bind, pure, Except.pure, hDdp, Option.isNone_some,
        Bool.false_eq_true, if_false]
    · have hlen : ¬ ((ps.length : Int) = 1) := by
        intro hl
        exact hnot ⟨hdp, by exact_mod_cast hl⟩
      have hDdp : Doc.m_drawingPage { doc with m_hasMidiTimemap := false } = none := hdp
      have hDc : Doc.GetPageCount { doc with m_hasMidiTimemap := false }
          = .ok (ps.length : Int) := by
        simp [Doc.GetPageCount, Doc.GetPages, h]
      unfold Doc.CalculateMidiTimemap
      generalize ({ doc with m_hasMidiTimemap := false } : Doc) = D at hDdp hDc ⊢
      simp only [bind, Except.bind, pure, Except.pure, hDdp, Option.isNone_none, if_true, hDc,
        hlen, if_false]

/-- Claim C25: on a document with a Pages container, `CalculateMidiTimemap` performs the
implicit layout exactly when the document has no drawing page and exactly one page:
page 0 becomes the drawing page, the score definitions are collected without force (the
two set passes when they had not been collected, nothing otherwise) and the page is
laid out horizontally.  In every case the measure-duration traversal, the onset/offset
traversal and the backward tie-resolution traversal follow in this order, and nothing
else is logged. -/
theorem CalculateMidiTimemap_implicit_layout (doc : Doc) (ps : List Page)
    (h : doc.pages = some ps) :
    ∃ (d : Doc) (tempo : Int),
      doc.CalculateMidiTimemap = .ok d
        ∧ (doc.m_drawingPage = none ∧ ps.length = 1 →
            d.m_drawingPage = some 0
              ∧ d.log = doc.log
                ++ (if doc.m_currentScoreDefDone then []
                    else [setUpcomingScoreDefPass, setCurrentScoreDefPass])
                ++ [Event.layOutHorizontally]
                ++ [Event.process (FunctorName.CalcMaxMeasureDuration tempo) ProcessRoot.doc
                      false [],
                    Event.process FunctorName.CalcOnsetOffset ProcessRoot.doc false [],
                    Event.process FunctorName.ResolveMIDITies ProcessRoot.doc true []])
        ∧ (¬ (doc.m_drawingPage = none ∧ ps.length = 1) →
            d.m_drawingPage = doc.m_drawingPage
              ∧ d.log = doc.log
                ++ [Event.process (FunctorName.CalcMaxMeasureDuration tempo) ProcessRoot.doc
                      false [],
                    Event.process FunctorName.CalcOnsetOffset ProcessRoot.doc false [],
                    Event.process FunctorName.ResolveMIDITies ProcessRoot.doc true []]) := by
  obtain ⟨himp, hno⟩ := CalculateMidiTimemap_eq doc ps h
  by_cases hc : doc.m_drawingPage = none ∧ ps.length = 1
  · obtain ⟨d1, page, -, hl, hf, hd, hsd, he⟩ := himp hc
    refine ⟨_, (doc.m_scoreDef.midiBpm).getD 120, he, ?_, fun hn => absurd hc hn⟩
    intro _
    obtain ⟨hlog, -, -⟩ := calculateTimemapPasses_log
      ((d1.CollectScoreDefs false).record Event.layOutHorizontally)
    have hcs := CollectScoreDefs_unforced d1
    constructor
    · rw [(calculateTimemapPasses_frame _).1]
      show (d1.CollectScoreDefs false).m_drawingPage = some 0
      rw [(CollectScoreDefs_frame d1 false).2, hd]
    · rw [hlog]
      have hsd2 : ((d1.CollectScoreDefs false).record Event.layOutHorizontally).m_scoreDef
          = doc.m_scoreDef := by
        show (d1.CollectScoreDefs false).m_scoreDef = doc.m_scoreDef
        rw [hcs.2, hsd]
      rw [hsd2]
      show (d1.CollectScoreDefs false).log ++ [Event.layOutHorizontally] ++ _ = _
      rw [hcs.1, hl, hf]
  · refine ⟨_, (doc.m_scoreDef.midiBpm).getD 120, hno hc, fun hy => absurd hy hc, ?_⟩
    intro _
    obtain ⟨hlog, -, -⟩ := calculateTimemapPasses_log { doc with m_hasMidiTimemap := false }
    exact ⟨(calculateTimemapPasses_frame _).1, hlog⟩

/-- Claim C25 on the sample document, which has one page and no drawing page: the
implicit layout is performed. -/
theorem CalculateMidiTimemap_implicit_layout_witness :
    ∃ d : Doc, sampleDoc.CalculateMidiTimemap = .ok d ∧ d.m_drawingPage = some 0
      ∧ d.log = [setUpcomingScoreDefPass, setCurrentScoreDefPass, Event.layOutHorizontally,
          Event.process (FunctorName.CalcMaxMeasureDuration 120) ProcessRoot.doc false [],
          Event.process FunctorName.CalcOnsetOffset ProcessRoot.doc false [],
          Event.process FunctorName.ResolveMIDITies ProcessRoot.doc true []] := by
  obtain ⟨d, tempo, he, himp, -⟩ :=
    CalculateMidiTimemap_implicit_layout sampleDoc _ (by rfl)
  have hd : sampleDoc.CalculateMidiTimemap
      = .ok (sampleDoc.CalculateMidiTimemap.toOption.getD sampleDoc) := by decide
  refine ⟨_, hd, by decide, by decide⟩

/-! ## The failure branch of the time map export -/

/-- Claim C28: for a document with a Pages container, a page count of 1 makes
`SetDrawingPage(0)` return a page, so `CalculateMidiTimemap` never returns early: it
returns with the time map flag set, whenever it returns the flag is set, and
`ExportTimemap` goes on to the `GenerateTimemap` traversal and to `PrepareJsonTimemap`
on a state with the flag set; whenever it returns, it returns true: its failure branch
is not taken. -/
theorem CalculateMidiTimemap_always_sets_flag {D : Type} (toStringD : D → String)
    (T : Traversals D) (doc : Doc) (ps : List Page) (h : doc.pages = some ps) :
    (ps.length = 1 → ∃ (d : Doc) (page : Page), doc.SetDrawingPage 0 = .ok (d, some page))
      ∧ (∃ d : Doc, doc.CalculateMidiTimemap = .ok d ∧ d.HasMidiTimemap = true)
      ∧ (∀ d : Doc, doc.CalculateMidiTimemap = .ok d → d.HasMidiTimemap = true)
      ∧ (∃ d0 : Doc,
          d0.HasMidiTimemap = true
            ∧ doc.ExportTimemap toStringD T
              = (PrepareJsonTimemap toStringD (T.generateTimemap d0).realTimeToScoreTime
                    (T.generateTimemap d0).realTimeToOnElements
                    (T.generateTimemap d0).realTimeToOffElements
                    (T.generateTimemap d0).realTimeToTempo).map
                  (fun output =>
                    (d0.Process FunctorName.GenerateTimemap ProcessRoot.doc false [], output,
                      true)))
      ∧ (∀ (d : Doc) (output : String) (result : Bool),
          doc.ExportTimemap toStringD T = .ok (d, output, result) → result = true) := by
  have hall : ∀ d : Doc, doc.CalculateMidiTimemap = .ok d → d.HasMidiTimemap = true := by
    intro d hd
    obtain ⟨d0, rfl, -⟩ := CalculateMidiTimemap_inv doc d hd
    exact (calculateTimemapPasses_log d0).2.1
  have hret : ∃ d : Doc, doc.CalculateMidiTimemap = .ok d := by
    obtain ⟨himp, hno⟩ := CalculateMidiTimemap_eq doc ps h
    by_cases hc : doc.m_drawingPage = none ∧ ps.length = 1
    · obtain ⟨d1, page, -, -, -, -, -, he⟩ := himp hc
      exact ⟨_, he⟩
    · exact ⟨_, hno hc⟩
  have hexp : ∃ d0 : Doc,
      d0.HasMidiTimemap = true
        ∧ doc.ExportTimemap toStringD T
          = (PrepareJsonTimemap toStringD (T.generateTimemap d0).realTimeToScoreTime
                (T.generateTimemap d0).realTimeToOnElements
                (T.generateTimemap d0).realTimeToOffElements
                (T.generateTimemap d0).realTimeToTempo).map
              (fun output =>
                (d0.Process FunctorName.GenerateTimemap ProcessRoot.doc false [], output,
                  true)) := by
    unfold Doc.ExportTimemap Doc.ensureMidiTimemap
    cases hflag : doc.HasMidiTimemap
    · obtain ⟨d, hd⟩ := hret
      have hd2 := hall d hd
      refine ⟨d, hd2, ?_⟩
      simp only [Bool.not_false, if_true, hd, bind, Except.bind, pure, Except.pure,
        Doc.exportTimemapChecked, hd2, Bool.not_true, Bool.false_eq_true, if_false,
        Except.map]
    · refine ⟨doc, hflag, ?_⟩
      simp only [Bool.not_true, Bool.false_eq_true, if_false, bind, Except.bind, pure,
        Except.pure, Doc.exportTimemapChecked, hflag, Except.map]
  refine ⟨?_, ?_, hall, hexp, ?_⟩
  · intro hlen
    obtain ⟨page, hpage⟩ : ∃ page, ps.get? 0 = some page := by
      cases ps with
      | nil => cases hlen
      | cons a l => exact ⟨a, rfl⟩
    obtain ⟨d, hd, -⟩ := SetDrawingPage_ok doc ps h 0 page hpage
    exact ⟨d, page, by simpa using hd⟩
  · obtain ⟨d, hd⟩ := hret
    exact ⟨d, hd, hall d hd⟩
  · intro d output result hres
    obtain ⟨d0, -, he⟩ := hexp
    rw [he] at hres
    cases hj : PrepareJsonTimemap toStringD (T.generateTimemap d0).realTimeToScoreTime
        (T.generateTimemap d0).realTimeToOnElements (T.generateTimemap d0).realTimeToOffElements
        (T.generateTimemap d0).realTimeToTempo with
    | error e =>
      rw [hj] at hres
      cases hres
    | ok out =>
      rw [hj] at hres
      simp only [Except.map, Except.ok.injEq, Prod.mk.injEq] at hres
      exact hres.2.2.symm

/-- Claim C28 on the sample document: the export returns true. -/
theorem CalculateMidiTimemap_always_sets_flag_witness :
    ∃ (d : Doc) (output : String),
      sampleDoc.ExportTimemap sampleToStringD sampleTraversals = .ok (d, output, true) := by
  obtain ⟨d0, -, he⟩ :=
    (CalculateMidiTimemap_always_sets_flag sampleToStringD sampleTraversals sampleDoc _
      (by rfl)).2.2.2.1
  have hj := PrepareJsonTimemap_eq_render sampleToStringD sampleScoreTime sampleOn sampleOff
    sampleTempo
  have hne : sampleScoreTime.entries.isEmpty = false := by decide
  rw [hne] at hj
  simp only [Bool.false_eq_true, if_false] at hj
  have hg : PrepareJsonTimemap sampleToStringD
      (sampleTraversals.generateTimemap d0).realTimeToScoreTime
      (sampleTraversals.generateTimemap d0).realTimeToOnElements
      (sampleTraversals.generateTimemap d0).realTimeToOffElements
      (sampleTraversals.generateTimemap d0).realTimeToTempo
      = .ok (renderTimemap sampleToStringD
          (timemapEntries sampleScoreTime sampleOn sampleOff sampleTempo)) := hj
  rw [hg] at he
  exact ⟨_, _, he⟩

/-! ## Adjusting the position of a verse -/

/-- Claim C26: with a positive overlap, `Verse::AdjustPosition` moves the verse to the
left by the smaller of the overlap and the free space, taken as 0 when negative, reduces
the overlap by as much and returns 0.  Free space greater than the overlap absorbs the
overlap completely; free space between 1 and the overlap absorbs as much as the free
space; with no free space nothing changes.  The overlap left is between 0 and the
overlap, and the shift is not more than the free space available. -/
theorem Verse_AdjustPosition_absorbs (verse : Verse) (overlap freeSpace : Int) (doc : Doc)
    (h : overlap > 0) :
    verse.AdjustPosition overlap freeSpace (some doc)
        = .ok ({ verse with
                  m_drawingXRel := verse.m_drawingXRel - min overlap (max freeSpace 0) },
                overlap - min overlap (max freeSpace 0), 0)
      ∧ 0 ≤ overlap - min overlap (max freeSpace 0)
      ∧ overlap - min overlap (max freeSpace 0) ≤ overlap
      ∧ min overlap (max freeSpace 0) ≤ max freeSpace 0
      ∧ (freeSpace > overlap →
          verse.AdjustPosition overlap freeSpace (some doc)
            = .ok ({ verse with m_drawingXRel := verse.m_drawingXRel - overlap }, 0, 0))
      ∧ (0 < freeSpace ∧ freeSpace ≤ overlap →
          verse.AdjustPosition overlap freeSpace (some doc)
            = .ok ({ verse with m_drawingXRel := verse.m_drawingXRel - freeSpace },
                overlap - freeSpace, 0))
      ∧ (freeSpace ≤ 0 →
          verse.AdjustPosition overlap freeSpace (some doc) = .ok (verse, overlap, 0)) := by
  have hcases : freeSpace > overlap ∨ (0 < freeSpace ∧ freeSpace ≤ overlap) ∨ freeSpace ≤ 0 := by
    omega
  have e1 : freeSpace > overlap →
      verse.AdjustPosition overlap freeSpace (some doc)
        = .ok ({ verse with m_drawingXRel := verse.m_drawingXRel - overlap }, 0, 0) := by
    intro hf
    simp [Verse.AdjustPosition, h, hf, Verse.SetDrawingXRel, Verse.GetDrawingXRel, pure,
      Except.pure]
  have e2 : 0 < freeSpace ∧ freeSpace ≤ overlap →
      verse.AdjustPosition overlap freeSpace (some doc)
        = .ok ({ verse with m_drawingXRel := verse.m_drawingXRel - freeSpace },
            overlap - freeSpace, 0) := by
    rintro ⟨hf1, hf2⟩
    have hnot : ¬ (overlap < freeSpace) := by omega
    simp [Verse.AdjustPosition, h, hf1, hnot, Verse.SetDrawingXRel, Verse.GetDrawingXRel,
      pure, Except.pure]
  have e3 : freeSpace ≤ 0 →
      verse.AdjustPosition overlap freeSpace (some doc) = .ok (verse, overlap, 0) := by
    intro hf
    have hnot : ¬ (overlap < freeSpace) := by omega
    have hnot2 : ¬ (0 < freeSpace) := by omega
    simp [Verse.AdjustPosition, h, hnot, hnot2, pure, Except.pure]
  refine ⟨?_, by omega, by omega, by omega, e1, e2, e3⟩
  rcases hcases with hf | hf | hf
  · rw [e1 hf]
    have hm : min overlap (max freeSpace 0) = overlap := by omega
    rw [hm]
    simp
  · rw [e2 hf]
    have hm : min overlap (max freeSpace 0) = freeSpace := by omega
    rw [hm]
  · rw [e3 hf]
    have hm : min overlap (max freeSpace 0) = 0 := by omega
    rw [hm]
    simp

/-- Claim C26 on an overlap of 30: with a free space of 50, of 20 and of -5. -/
theorem Verse_AdjustPosition_absorbs_witness :
    Verse.AdjustPosition { m_drawingXRel := 100 } 30 50 (some sampleDoc)
        = .ok ({ m_drawingXRel := 70 }, 0, 0)
      ∧ Verse.AdjustPosition { m_drawingXRel := 100 } 30 20 (some sampleDoc)
        = .ok ({ m_drawingXRel := 80 }, 10, 0)
      ∧ Verse.AdjustPosition { m_drawingXRel := 100 } 30 (-5) (some sampleDoc)
        = .ok ({ m_drawingXRel := 100 }, 30, 0) :=
  ⟨(Verse_AdjustPosition_absorbs { m_drawingXRel := 100 } 30 50 sampleDoc (by decide)).2.2.2.2.1
      (by decide),
    (Verse_AdjustPosition_absorbs { m_drawingXRel := 100 } 30 20 sampleDoc (by decide)).2.2.2.2.2.1
      (by decide),
    (Verse_AdjustPosition_absorbs { m_drawingXRel := 100 } 30 (-5) sampleDoc
      (by decide)).2.2.2.2.2.2 (by decide)⟩

/-! ## The time map of an empty map -/

/-- Claim C27, the code on the empty map: `PrepareJsonTimemap` decrements `end()` of the
map before its loop, which is undefined for a map without an entry, so no text is
returned, and `ExportTimemap` meets this when the `GenerateTimemap` traversal fills
nothing in.  The rest of the function does not use the iterator on the empty map: the
loop runs no iteration whatever the position of the last entry is taken to be, and the
statements before and after the loop write the empty array. -/
theorem PrepareJsonTimemap_empty_map_undefined :
    (IntMap.empty : IntMap Nat).prevEnd = none
      ∧ PrepareJsonTimemap sampleToStringD IntMap.empty sampleOn sampleOff sampleTempo
        = .error prevEndUndefined
      ∧ sampleDocWithTimemap.ExportTimemap sampleToStringD emptyTimemapTraversals
        = .error prevEndUndefined
      ∧ (∀ (lastit : Int) (st : JsonLoop),
          ((IntMap.empty : IntMap Nat).entries.enum.foldl
              (fun st p => timemapLoopBody sampleToStringD sampleOn sampleOff sampleTempo
                lastit st p.1 p.2) st) = st)
      ∧ (("" ++ "[\n") ++ "]\n" : String) = "[\n]\n" := by
  refine ⟨by decide, by decide, by decide, fun _ _ => rfl, by decide⟩

/-! ## The track numbers of the MIDI export -/

/-- Claim C29, the code on a score definition whose only staff definition has the number
5: one track is added, so the file has the tracks 0 and 1, and the track name and the
notes of the `GenerateMIDI` traversal go to track 5. -/
theorem ExportMIDI_track_beyond_tracks_added :
    ∃ (d : Doc) (midiFile : MidiFile),
      partDoc.ExportMIDI partTraversals {} = .ok (d, midiFile)
        ∧ midiFile.trackCount = 2
        ∧ midiFile.trackNames = [(5, 0, "Viola")]
        ∧ midiFile.notes = [{ track := 5, tick := 0, key := 60, isOn := true }]
        ∧ generateMIDIPass 5 1 5 0 120 ∈ d.log := by
  refine ⟨(partDoc.ExportMIDI partTraversals {}).toOption.getD (partDoc, {}) |>.1,
    (partDoc.ExportMIDI partTraversals {}).toOption.getD (partDoc, {}) |>.2, ?_, ?_, ?_, ?_, ?_⟩
  · decide
  · decide
  · decide
  · decide
  · decide

/-! ## The probe pages of CastOffRunningElements -/

/-- What `CastOffRunningElements` returns on an empty Pages container: the heights read
from the two probe pages, an empty container again and no drawing page. -/
theorem CastOffRunningElements_heights (doc : Doc) (hps : doc.pages = some [])
    (params : CastOffPagesParams) :
    ∃ d : Doc,
      doc.CastOffRunningElements params
          = .ok (d,
              { m_pageHeight := params.m_pageHeight
                m_pgHeadHeight := doc.pgHead.getD params.m_pgHeadHeight
                m_pgFootHeight := doc.pgFoot.getD params.m_pgFootHeight
                m_pgHead2Height := doc.pgHead2.getD params.m_pgHead2Height
                m_pgFoot2Height := doc.pgFoot2.getD params.m_pgFoot2Height })
        ∧ d.pages = some [] ∧ d.m_drawingPage = none := by
  obtain ⟨d1, e1, p1, l1, f1, h1, g1, h21, g21, -⟩ :=
    SetDrawingPage_ok (doc.setPages ([] ++ [({} : Page)])) [{}] (by rfl) 0 {} (by rfl)
  obtain ⟨d2, e2, p2, l2, f2, h2, g2, h22, g22, -⟩ :=
    SetDrawingPage_ok ((d1.record Event.layOutVertically).setPages ([] ++ [({} : Page)] ++ [({} : Page)]))
      [{}, {}] (by rfl) 1 {} (by rfl)
  simp only [Nat.cast_zero, Nat.cast_one] at e1 e2
  have a1 : d1.pgHead = doc.pgHead := h1
  have a2 : d1.pgFoot = doc.pgFoot := g1
  have a3 : d2.pgHead2 = doc.pgHead2 := h22.trans h21
  have a4 : d2.pgFoot2 = doc.pgFoot2 := g22.trans g21
  have key : ∃ (d : Doc) (params2 : CastOffPagesParams),
      doc.CastOffRunningElements params = .ok (d, params2)
        ∧ params2
          = { m_pageHeight := params.m_pageHeight
              m_pgHeadHeight := doc.pgHead.getD params.m_pgHeadHeight
              m_pgFootHeight := doc.pgFoot.getD params.m_pgFootHeight
              m_pgHead2Height := doc.pgHead2.getD params.m_pgHead2Height
              m_pgFoot2Height := doc.pgFoot2.getD params.m_pgFoot2Height }
        ∧ d.pages = some [] ∧ d.m_drawingPage = none := by
    unfold Doc.CastOffRunningElements
    simp only [Doc.GetPages, hps, List.length_nil, ne_eq, not_true_eq_false, if_false, bind,
      Except.bind, e1, e2, pure, Except.pure]
    refine ⟨_, _, rfl, ?_, rfl, rfl⟩
    simp only [Doc.runningElementHeight, Doc.record, if_true, one_ne_zero, if_false, a1, a2,
      a3, a4]
    cases doc.pgHead <;> cases doc.pgFoot <;> cases doc.pgHead2 <;> cases doc.pgFoot2 <;> rfl
  obtain ⟨d, params2, he, hp2, hd1, hd2⟩ := key
  subst hp2
  exact ⟨d, he, hd1, hd2⟩

/-- On a Pages container that is not empty the assertion of `CastOffRunningElements`
fails. -/
theorem CastOffRunningElements_nonempty (doc : Doc) (ps : List Page)
    (hps : doc.pages = some ps) (hne : ps ≠ []) (params : CastOffPagesParams) :
    doc.CastOffRunningElements params = .error "assert(pages->GetChildCount() == 0)" := by
  unfold Doc.CastOffRunningElements
  cases ps with
  | nil => exact absurd rfl hne
  | cons a l => simp [Doc.GetPages, hps, throw, throwThe, MonadExceptOf.throw]

/-- Claim C30: in `CastOffDoc`, on a document whose first page starts with a system, the
assertion of `CastOffRunningElements` that the Pages container is empty holds exactly
when the document had one page on entry: with more pages `CastOffDoc` stops at that
assertion, with one page it returns.  On an empty container `CastOffRunningElements`
leaves the container empty and the drawing page unset, and returns the heights of the
header and footer of the first page taken from the first probe page and those of the
following pages taken from the second probe page, each left as it was when the probe
page has no such element. -/
theorem CastOffRunningElements_needs_one_page (layout : Layout) (doc : Doc) (page0 : Page)
    (rest : List Page) (sys0 : System) (others : List System)
    (hp : doc.pages = some (page0 :: rest)) (hs : page0.children = sys0 :: others) :
    (rest ≠ [] → doc.CastOffDoc layout = .error "assert(pages->GetChildCount() == 0)")
      ∧ (rest = [] → ∃ d, doc.CastOffDoc layout = .ok d)
      ∧ (∀ (d0 : Doc) (params : CastOffPagesParams), d0.pages = some rest →
          (rest ≠ [] →
            d0.CastOffRunningElements params
              = .error "assert(pages->GetChildCount() == 0)")
          ∧ (rest = [] →
            ∃ d : Doc,
              d0.CastOffRunningElements params
                  = .ok (d,
                      { m_pageHeight := params.m_pageHeight
                        m_pgHeadHeight := d0.pgHead.getD params.m_pgHeadHeight
                        m_pgFootHeight := d0.pgFoot.getD params.m_pgFootHeight
                        m_pgHead2Height := d0.pgHead2.getD params.m_pgHead2Height
                        m_pgFoot2Height := d0.pgFoot2.getD params.m_pgFoot2Height })
                ∧ d.pages = some [] ∧ d.m_drawingPage = none)) := by
  refine ⟨?_, ?_, ?_⟩
  · intro hne
    have hpa : (doc.CollectScoreDefs false).pages = some (page0 :: rest) := by
      rw [(CollectScoreDefs_frame doc false).1, hp]
    obtain ⟨db, eb, pb, -⟩ := SetDrawingPage_ok _ (page0 :: rest) hpa 0 page0 (by rfl)
    simp only [Nat.cast_zero] at eb
    unfold Doc.CastOffDoc
    simp only [bind, Except.bind, pure, Except.pure, eb, hs, Doc.GetPages, hpa]
    split
    · rename_i e2 hr2
      rw [CastOffRunningElements_nonempty _ rest ?_ hne] at hr2
      · cases hr2
        rfl
      · simp only [Doc.ResetDrawingPage, Doc.setPages, Doc.record, Doc.Process,
          (CollectScoreDefs_frame _ true).1, pb, Option.getD_some, List.set_cons_zero,
          List.eraseIdx_cons_zero]
    · rename_i r2 hr2
      rw [CastOffRunningElements_nonempty _ rest ?_ hne] at hr2
      · cases hr2
      · simp only [Doc.ResetDrawingPage, Doc.setPages, Doc.record, Doc.Process,
          (CollectScoreDefs_frame _ true).1, pb, Option.getD_some, List.set_cons_zero,
          List.eraseIdx_cons_zero]
  · intro hnil
    subst hnil
    exact CastOffDoc_returns layout doc page0 sys0 others hp hs
  · intro d0 params hd0
    constructor
    · intro hne
      exact CastOffRunningElements_nonempty d0 rest hd0 hne params
    · intro hnil
      subst hnil
      exact CastOffRunningElements_heights d0 hd0 params

/-- Claim C30 on the sample document, which has one page, and on a document with the
same page twice. -/
theorem CastOffRunningElements_needs_one_page_witness :
    (∃ d, sampleDoc.CastOffDoc sampleLayout = .ok d)
      ∧ Doc.CastOffDoc sampleLayout
          { pages := some
              [{ children := [{ children := [{ uuid := "m1", width := 100 }] }] },
               { children := [{ children := [{ uuid := "m2", width := 100 }] }] }] }
        = .error "assert(pages->GetChildCount() == 0)" :=
  ⟨(CastOffRunningElements_needs_one_page sampleLayout sampleDoc _ [] _ _ (by rfl)
      (by rfl)).2.1 rfl,
    (CastOffRunningElements_needs_one_page sampleLayout
      { pages := some
          [{ children := [{ children := [{ uuid := "m1", width := 100 }] }] },
           { children := [{ children := [{ uuid := "m2", width := 100 }] }] }] }
      { children := [{ children := [{ uuid := "m1", width := 100 }] }] }
      [{ children := [{ children := [{ uuid := "m2", width := 100 }] }] }]
      { children := [{ uuid := "m1", width := 100 }] } [] (by rfl) (by rfl)).1 (by decide)⟩

end Verovio
